import Mathlib

/-!
# WENOSensor: nonlinear stencil weighting (`libWENOEXT/WENOHybrid/WENOSensor.C`)

Shallow embedding of the two `calcWeight` member functions of `Foam::WENOSensor`
(the `scalar` specialisation and the generic multi-component template).

Two arithmetics are embedded. The exact embedding takes the C++ type `scalar` to be an
arbitrary linearly ordered field `K` (concrete evaluations in `ℚ`): it gives the structure of
the computation and the real-number value of its formulas, and every statement proved in it
that depends on values is a statement over exact arithmetic. The double-precision embedding
(`Dbl`, `calcWeightScalarD`) repeats the scalar path with IEEE 754 binary64 rounding, overflow
and special values: it is what the code's `double` arithmetic produces, and it is used to
evaluate the code where rounding or overflow departs from the exact value.

Conventions of the embedding

* `List<T>`, `Field<T>` and the blaze vectors are Lean lists, indexed from `0`;
  a read `xs[i]` is `xs.getD i 0` and a write `xs[i] = v` is `xs.set i v`. On well-shaped
  inputs (an `n × n` oscillation matrix, coefficient vectors and output buffer of length `n`,
  `nComp` components per entry, a cell index inside the fields) every access is in range; an
  out-of-range read yields `0` and an out-of-range write is dropped, where the C++ code has
  no defined behaviour.
* division is the total division of a field (`x / 0 = 0`); statements that depend on a
  denominator carry the hypotheses that make it non-zero.
* a multi-component value (`Type` = vector, tensor, ...) is the list of its components,
  `vf[0].size()` is the parameter `nComp`.
* `forAll(list, i)` / `forAllU(list, i)` / `for (label i = 0; i < n; i++)` is `forAll n body`.
* `pow` (from the C++ standard library) is a parameter `pow : K → K → K`; the data members
  `epsilon_`, `p_`, `dm_` of the base class `WENOCoeff` are the fields of `WENOParams`.
* the field returned by `storeOrRetrieve("WENOShockSensor")` is passed in and returned;
  `calcWeightReg`, `calcWeightScalarReg` and `getShockSensor` add the access to the registry.
-/

namespace WENOSensor

/-! ## Data model -/

/-- Data members `epsilon_`, `p_` and `dm_` that `calcWeight` reads from its base class. -/
structure WENOParams (K : Type) where
  epsilon : K
  p : K
  dm : K

/-- Local variables of the scalar `calcWeight` that are live across the stencil loop
(`gamma`, `gammaSum`, `smoothIndList`) together with the output buffer `coeffsWeightedI`. -/
structure LoopState (K : Type) where
  gamma : K
  gammaSum : K
  smoothIndList : List K
  coeffsWeightedI : List K

/-- Local variables of the generic `calcWeight` live across the stencil loop of one component,
together with the multi-component output buffer (`coeffsWeightedI[coeffI][compI]`). -/
structure LoopStateN (K : Type) where
  gamma : K
  gammaSum : K
  smoothIndList : List K
  coeffsWeightedI : List (List K)

/-- State threaded through the component loop of the generic `calcWeight`: the variable `gamma`
declared outside the loop, the output buffer and the shock-sensor field. -/
structure CompState (K : Type) where
  gamma : K
  coeffsWeightedI : List (List K)
  WENOShockSensor : List (List K)

/-! ## Loops and library primitives -/

/-- The counting loop `for (label i = 0; i < n; i++) st = body i st`
(OpenFOAM's `forAll` / `forAllU` over a list of size `n`). -/
def forAll {σ : Type} (n : Nat) (body : Nat → σ → σ) (init : σ) : σ :=
  (List.range n).foldl (fun st i => body i st) init

/-- Inner product `trans(a) * b` of two dense vectors. On operands of different lengths the
products are taken over the common prefix; the size check that the vector library itself may
perform is not part of this source file. -/
def dot {K : Type} [LinearOrderedField K] (a b : List K) : K :=
  (List.zipWith (fun x y => x * y) a b).sum

/-- Dense matrix-vector product `M * v` (row-major matrix). -/
def matVec {K : Type} [LinearOrderedField K] (M : List (List K)) (v : List K) : List K :=
  M.map (fun row => dot row v)

/-- Element access `M(p, q)` of the oscillation matrix. An index outside the matrix yields `0`;
the C++ read is then out of bounds and has no defined value. -/
def matAt {K : Type} [LinearOrderedField K] (M : List (List K)) (p q : Nat) : K :=
  (M.getD p []).getD q 0

/-- Element read `f[i][c]` of a multi-component list. -/
def get2 {K : Type} [LinearOrderedField K] (f : List (List K)) (i c : Nat) : K :=
  (f.getD i []).getD c 0

/-- In-place write `f[i][c] = v` of a multi-component list. -/
def set2 {K : Type} [LinearOrderedField K] (f : List (List K)) (i c : Nat) (v : K) :
    List (List K) :=
  f.set i ((f.getD i []).set c v)

/-- Value `pTraits<scalar>::min` (that is `-VGREAT = -1e300`) that the OpenFOAM library
function `max` returns on an empty list. -/
def pTraitsMin {K : Type} [LinearOrderedField K] : K := -(10 ^ 300)

/-- OpenFOAM's `max(const UList<scalar>&)`: `Max = f[0]`, then `Max = max(f[i], Max)` for every
entry; `pTraits<scalar>::min` on an empty list. -/
def foamMax {K : Type} [LinearOrderedField K] : List K → K
  | [] => pTraitsMin
  | x :: xs => xs.foldl (fun acc y => max y acc) x

/-! ## Scalar specialisation (lines 71-124) -/

/-- Smoothness indicator of the scalar path (line 93):
`trans(coeffsIsI) * (WENOBase_.B()[cellI] * coeffsIsI)`. -/
def smoothIndScalar {K : Type} [LinearOrderedField K] (Bc : List (List K)) (coeffsIsI : List K) :
    K :=
  dot coeffsIsI (matVec Bc coeffsIsI)

/-- The `if (stencilI == 0) ... else ...` of lines 99-106 (and 176-183): the value assigned to
`gamma` for stencil `stencilI` with smoothness indicator `smoothInd`, over exact arithmetic
(`gammaStencilD` is the same expression in binary64). -/
def gammaStencil {K : Type} [LinearOrderedField K] (pow : K → K → K) (cfg : WENOParams K)
    (stencilI : Nat) (smoothInd : K) : K :=
  if stencilI = 0 then cfg.dm / pow (cfg.epsilon + smoothInd) cfg.p
  else 1 / pow (cfg.epsilon + smoothInd) cfg.p

/-- Lines 111-114: `forAllU(coeffsIsI, coeffI) coeffsWeightedI[coeffI] += coeffsIsI[coeffI]*gamma`. -/
def blendLoop {K : Type} [LinearOrderedField K] (gamma : K) (coeffsIsI : List K)
    (coeffsWeightedI : List K) : List K :=
  forAll coeffsIsI.length
    (fun coeffI cw => cw.set coeffI (cw.getD coeffI 0 + coeffsIsI.getD coeffI 0 * gamma))
    coeffsWeightedI

/-- Body of the stencil loop of the scalar path (lines 90-114). -/
def stencilBody {K : Type} [LinearOrderedField K] (pow : K → K → K) (cfg : WENOParams K)
    (Bc : List (List K)) (coeffsI : List (List K)) (stencilI : Nat) (st : LoopState K) :
    LoopState K :=
  let coeffsIsI := coeffsI.getD stencilI []
  let smoothInd := smoothIndScalar Bc coeffsIsI
  let gamma := gammaStencil pow cfg stencilI smoothInd
  { gamma := gamma
    gammaSum := st.gammaSum + gamma
    smoothIndList := st.smoothIndList.set stencilI smoothInd
    coeffsWeightedI := blendLoop gamma coeffsIsI st.coeffsWeightedI }

/-- Lines 80-115 of the scalar path: initialisation of the locals and the loop
`forAll(coeffsI, stencilI)`. The freshly allocated `smoothIndList(coeffsI.size())` is taken
zero-filled. -/
def stencilLoop {K : Type} [LinearOrderedField K] (pow : K → K → K) (cfg : WENOParams K)
    (Bc : List (List K)) (coeffsI : List (List K)) (coeffsWeightedI : List K) : LoopState K :=
  forAll coeffsI.length (stencilBody pow cfg Bc coeffsI)
    { gamma := 0
      gammaSum := 0
      smoothIndList := List.replicate coeffsI.length 0
      coeffsWeightedI := coeffsWeightedI }

/-- Scalar specialisation `WENOSensor<scalar>::calcWeight` (lines 71-124). `B` is
`WENOBase_.B()`, `WENOShockSensor` the field obtained from `storeOrRetrieve`; the argument `vf`
is not read by this path. Returns the output buffer and the shock-sensor field. Exact
arithmetic; `calcWeightScalarD` is the same function in binary64. -/
def calcWeightScalar {K : Type} [LinearOrderedField K] (pow : K → K → K) (cfg : WENOParams K)
    (B : List (List (List K))) (coeffsWeightedI : List K) (cellI : Nat)
    (coeffsI : List (List K)) (WENOShockSensor : List K) : List K × List K :=
  let st := stencilLoop pow cfg (B.getD cellI []) coeffsI coeffsWeightedI
  (forAll st.coeffsWeightedI.length
      (fun coeffI cw => cw.set coeffI (cw.getD coeffI 0 / st.gammaSum)) st.coeffsWeightedI,
   WENOShockSensor.set cellI (foamMax st.smoothIndList))

/-! ## Generic multi-component path (lines 128-200) -/

/-- Lines 158-167: `sumB = Σ_q B(coeffP, coeffQ) * coeffsIsI[coeffQ][compI]`, accumulated in
ascending `coeffQ`. -/
def sumBLoop {K : Type} [LinearOrderedField K] (Bc : List (List K)) (coeffsIsI : List (List K))
    (compI coeffP : Nat) : K :=
  forAll coeffsIsI.length
    (fun coeffQ sumB => sumB + matAt Bc coeffP coeffQ * get2 coeffsIsI coeffQ compI) 0

/-- Lines 154-170: the smoothness indicator of the generic path,
`smoothInd = Σ_p coeffsIsI[p][compI] * sumB(p)`, accumulated in ascending `coeffP`. -/
def smoothIndComp {K : Type} [LinearOrderedField K] (Bc : List (List K))
    (coeffsIsI : List (List K)) (compI : Nat) : K :=
  forAll coeffsIsI.length
    (fun coeffP smoothInd =>
      smoothInd + get2 coeffsIsI coeffP compI * sumBLoop Bc coeffsIsI compI coeffP) 0

/-- Lines 187-190: `coeffsWeightedI[coeffI][compI] += coeffsIsI[coeffI][compI]*gamma`. -/
def blendLoopComp {K : Type} [LinearOrderedField K] (gamma : K) (compI : Nat)
    (coeffsIsI : List (List K)) (coeffsWeightedI : List (List K)) : List (List K) :=
  forAll coeffsIsI.length
    (fun coeffI cw =>
      set2 cw coeffI compI (get2 cw coeffI compI + get2 coeffsIsI coeffI compI * gamma))
    coeffsWeightedI

/-- Body of the stencil loop of the generic path (lines 150-190). Line 172,
`smoothIndList = smoothInd`, is OpenFOAM's `List<T>::operator=(const T&)`: it assigns the
value to every entry of the list. -/
def stencilBodyComp {K : Type} [LinearOrderedField K] (pow : K → K → K) (cfg : WENOParams K)
    (Bc : List (List K)) (coeffsI : List (List (List K))) (compI : Nat) (stencilI : Nat)
    (st : LoopStateN K) : LoopStateN K :=
  let coeffsIsI := coeffsI.getD stencilI []
  let smoothInd := smoothIndComp Bc coeffsIsI compI
  let gamma := gammaStencil pow cfg stencilI smoothInd
  { gamma := gamma
    gammaSum := st.gammaSum + gamma
    smoothIndList := List.replicate st.smoothIndList.length smoothInd
    coeffsWeightedI := blendLoopComp gamma compI coeffsIsI st.coeffsWeightedI }

/-- Lines 144-191 of the generic path for one component: initialisation of `gammaSum` and
`smoothIndList` and the loop `forAll(coeffsI, stencilI)`; `gamma0` is the value that the
variable `gamma` (declared outside the component loop) holds on entry. -/
def stencilLoopComp {K : Type} [LinearOrderedField K] (pow : K → K → K) (cfg : WENOParams K)
    (Bc : List (List K)) (coeffsI : List (List (List K))) (compI : Nat) (gamma0 : K)
    (coeffsWeightedI : List (List K)) : LoopStateN K :=
  forAll coeffsI.length (stencilBodyComp pow cfg Bc coeffsI compI)
    { gamma := gamma0
      gammaSum := 0
      smoothIndList := List.replicate coeffsI.length 0
      coeffsWeightedI := coeffsWeightedI }

/-- Body of the component loop of the generic path (lines 144-198). -/
def compBody {K : Type} [LinearOrderedField K] (pow : K → K → K) (cfg : WENOParams K)
    (Bc : List (List K)) (cellI : Nat) (coeffsI : List (List (List K))) (compI : Nat)
    (cs : CompState K) : CompState K :=
  let st := stencilLoopComp pow cfg Bc coeffsI compI cs.gamma cs.coeffsWeightedI
  { gamma := st.gamma
    coeffsWeightedI :=
      forAll st.coeffsWeightedI.length
        (fun coeffI cw => set2 cw coeffI compI (get2 cw coeffI compI / st.gammaSum))
        st.coeffsWeightedI
    WENOShockSensor := set2 cs.WENOShockSensor cellI compI (foamMax st.smoothIndList) }

/-- Generic `WENOSensor<Type>::calcWeight` (lines 128-200). `nComp` is `vf[0].size()`, the
number of components of `Type`. Returns the output buffer and the shock-sensor field. Exact
arithmetic. -/
def calcWeight {K : Type} [LinearOrderedField K] (pow : K → K → K) (cfg : WENOParams K)
    (B : List (List (List K))) (nComp : Nat) (coeffsWeightedI : List (List K)) (cellI : Nat)
    (coeffsI : List (List (List K))) (WENOShockSensor : List (List K)) :
    List (List K) × List (List K) :=
  let cs := forAll nComp (compBody pow cfg (B.getD cellI []) cellI coeffsI)
    { gamma := 0, coeffsWeightedI := coeffsWeightedI, WENOShockSensor := WENOShockSensor }
  (cs.coeffsWeightedI, cs.WENOShockSensor)

/-- Smoothness indicator of stencil `s` of the cell in the scalar path (line 93 at
`stencilI = s`). -/
def indicator {K : Type} [LinearOrderedField K] (Bc : List (List K)) (coeffsI : List (List K))
    (s : Nat) : K :=
  smoothIndScalar Bc (coeffsI.getD s [])

/-- Value assigned to `gamma` at stencil `s` in the scalar path (lines 99-106 at
`stencilI = s`). -/
def gammaOf {K : Type} [LinearOrderedField K] (pow : K → K → K) (cfg : WENOParams K)
    (Bc : List (List K)) (coeffsI : List (List K)) (s : Nat) : K :=
  gammaStencil pow cfg s (indicator Bc coeffsI s)

/-- Smoothness indicator of stencil `s` for component `compI` in the generic path
(lines 154-170 at `stencilI = s`). -/
def indicatorComp {K : Type} [LinearOrderedField K] (Bc : List (List K))
    (coeffsI : List (List (List K))) (compI s : Nat) : K :=
  smoothIndComp Bc (coeffsI.getD s []) compI

/-- Value assigned to `gamma` at stencil `s` for component `compI` in the generic path
(lines 176-183 at `stencilI = s`). -/
def gammaOfComp {K : Type} [LinearOrderedField K] (pow : K → K → K) (cfg : WENOParams K)
    (Bc : List (List K)) (coeffsI : List (List (List K))) (compI s : Nat) : K :=
  gammaStencil pow cfg s (indicatorComp Bc coeffsI compI s)

/-! ## Construction, field registry and accessor (lines 40-64, 83-84, 139-140, 204-210) -/

/-- State of a `WENOSensor` object that the member functions read: the base-class sub-object
with `epsilon_`, `p_`, `dm_`, and the member `theta_`. -/
structure WENOSensorObj (K : Type) where
  params : WENOParams K
  theta : K

/-- Constructor `WENOSensor<Type>::WENOSensor` (lines 40-64). The base-class sub-object is
built by `WENOCoeff<Type>(mesh, polOrder)`, which is not part of this source file: its result
is the parameter `base`. The body reads `theta` from `WENODict` with the default `1.0`
(`WENODictTheta` is the dictionary entry, if present) and does nothing else. -/
def mkWENOSensor {K : Type} [LinearOrderedField K] (base : WENOParams K)
    (WENODictTheta : Option K) : WENOSensorObj K :=
  { params := base, theta := WENODictTheta.getD 1 }

/-- Modelled from the spec: the field registry behind `WENOCoeff<Type>::storeOrRetrieve`, which
is not part of this source file. A registry is the list of the named fields created so far. -/
abbrev Registry (F : Type) : Type := List (String × F)

/-- Modelled from the spec: `get(name)` of the field registry, which "fails if absent". -/
def registryGet {F : Type} (reg : Registry F) (name : String) : Option F :=
  reg.lookup name

/-- Modelled from the spec: `WENOCoeff<Type>::storeOrRetrieve(name)`, the registry operation
`get_or_create(name) → field handle` ("idempotent, creates on first call": the first access
creates and caches the field, later accesses return the same instance). `fresh` is the field
that a creation yields. Returns the field and the registry after the call. -/
def storeOrRetrieve {F : Type} (reg : Registry F) (name : String) (fresh : F) :
    F × Registry F :=
  match reg.lookup name with
  | some f => (f, reg)
  | none => (fresh, (name, fresh) :: reg)

/-- Modelled from the spec: a write through the reference returned by `storeOrRetrieve`; the
cached field of that name is replaced by its new contents. -/
def writeField {F : Type} (reg : Registry F) (name : String) (f : F) : Registry F :=
  reg.map (fun e => if e.1 = name then (e.1, f) else e)

/-- Scalar `calcWeight` together with its access to the registry (lines 83-84 and 123): the
shock-sensor field is obtained with `storeOrRetrieve("WENOShockSensor")` and written in
place. Returns the output buffer and the registry after the call. -/
def calcWeightScalarReg {K : Type} [LinearOrderedField K] (pow : K → K → K)
    (cfg : WENOParams K) (B : List (List (List K))) (reg : Registry (List K))
    (fresh : List K) (coeffsWeightedI : List K) (cellI : Nat) (coeffsI : List (List K)) :
    List K × Registry (List K) :=
  let r := storeOrRetrieve reg "WENOShockSensor" fresh
  let out := calcWeightScalar pow cfg B coeffsWeightedI cellI coeffsI r.1
  (out.1, writeField r.2 "WENOShockSensor" out.2)

/-- Generic `calcWeight` together with its access to the registry (lines 139-140 and 198). -/
def calcWeightReg {K : Type} [LinearOrderedField K] (pow : K → K → K)
    (cfg : WENOParams K) (B : List (List (List K))) (nComp : Nat)
    (reg : Registry (List (List K))) (fresh : List (List K))
    (coeffsWeightedI : List (List K)) (cellI : Nat) (coeffsI : List (List (List K))) :
    List (List K) × Registry (List (List K)) :=
  let r := storeOrRetrieve reg "WENOShockSensor" fresh
  let out := calcWeight pow cfg B nComp coeffsWeightedI cellI coeffsI r.1
  (out.1, writeField r.2 "WENOShockSensor" out.2)

/-- Accessor `WENOSensor<Type>::getShockSensor` (lines 204-210):
`return WENOCoeff<Type>::storeOrRetrieve("WENOShockSensor")`. -/
def getShockSensor {F : Type} (reg : Registry F) (fresh : F) : F × Registry F :=
  storeOrRetrieve reg "WENOShockSensor" fresh

/-- A scalar list seen as a one-component field carrying the same values (`Type` with a single
component): entry `x` becomes `[x]`. -/
def oneComp {K : Type} [LinearOrderedField K] (v : List K) : List (List K) :=
  v.map (fun x => [x])

/-! ## Double-precision embedding of the scalar path

The C++ type `scalar` is an IEEE 754 binary64 number. The definitions below repeat the scalar
specialisation of `calcWeight` line by line with every arithmetic operation rounded to
binary64 (round to nearest, ties to even, overflow to infinity, gradual underflow). They are
used to evaluate the code's own arithmetic on concrete inputs; the exact embedding above gives
the real-number value of the same formulas. -/

/-- Values of the C++ type `double` (IEEE 754 binary64): the finite values as rationals, the
two infinities and not-a-number. The sign of a zero is not represented (every zero is `+0`). -/
inductive Dbl where
  | fin (q : ℚ)
  | pinf
  | ninf
  | nan
deriving DecidableEq

/-- The power of two `2^e` for an integer exponent. -/
def pow2 (e : ℤ) : ℚ :=
  if 0 ≤ e then ((2 ^ e.toNat : ℕ) : ℚ) else 1 / ((2 ^ (-e).toNat : ℕ) : ℚ)

/-- Position of the leading bit of `n`, that is `⌊log₂ n⌋` for `1 ≤ n < 2^32768`. -/
def bitLog2 (n : ℕ) : ℕ :=
  ([16384, 8192, 4096, 2048, 1024, 512, 256, 128, 64, 32, 16, 8, 4, 2, 1].foldl
    (fun (acc : ℕ × ℕ) k => if 2 ^ k ≤ acc.1 then (acc.1 >>> k, acc.2 + k) else acc) (n, 0)).2

/-- The binade of a non-zero rational: `⌊log₂ |x|⌋`. -/
def log2Floor (x : ℚ) : ℤ :=
  let e0 : ℤ := (bitLog2 x.num.natAbs : ℤ) - (bitLog2 x.den : ℤ)
  if pow2 e0 ≤ |x| then e0 else e0 - 1

/-- Rounding of a rational to the nearest integer, ties to the even integer. -/
def halfEven (x : ℚ) : ℤ :=
  let f := Rat.floor x
  let r := x - f
  if r < 1 / 2 then f else if 1 / 2 < r then f + 1 else if f % 2 = 0 then f else f + 1

/-- The largest finite binary64 value, `2^1024 - 2^971`. -/
def maxDbl : ℚ := ((2 ^ 1024 - 2 ^ 971 : ℕ) : ℚ)

/-- Rounding of an exact result to binary64: 53 significant bits in the binade of `x` (the
spacing `2^-1074` below `2^-1022`), round to nearest with ties to even, and an infinity when
the rounded magnitude exceeds the largest finite value. -/
def roundDbl (x : ℚ) : Dbl :=
  if x = 0 then Dbl.fin 0 else
  let e := max (log2Floor x) (-1022)
  let q : ℚ := pow2 (e - 52)
  let y : ℚ := halfEven (x / q) * q
  if maxDbl < |y| then (if 0 < x then Dbl.pinf else Dbl.ninf) else Dbl.fin y

/-- The infinity of the given sign. -/
def infOfSign (positive : Bool) : Dbl := if positive then Dbl.pinf else Dbl.ninf

/-- Binary64 addition `a + b`. -/
def Dbl.add : Dbl → Dbl → Dbl
  | .fin a, .fin b => roundDbl (a + b)
  | .fin _, .pinf => .pinf
  | .fin _, .ninf => .ninf
  | .pinf, .fin _ => .pinf
  | .ninf, .fin _ => .ninf
  | .pinf, .pinf => .pinf
  | .ninf, .ninf => .ninf
  | _, _ => .nan

/-- Binary64 multiplication `a * b`. -/
def Dbl.mul : Dbl → Dbl → Dbl
  | .fin a, .fin b => roundDbl (a * b)
  | .fin a, .pinf => if a = 0 then .nan else infOfSign (decide (0 < a))
  | .fin a, .ninf => if a = 0 then .nan else infOfSign (decide (a < 0))
  | .pinf, .fin b => if b = 0 then .nan else infOfSign (decide (0 < b))
  | .ninf, .fin b => if b = 0 then .nan else infOfSign (decide (b < 0))
  | .pinf, .pinf => .pinf
  | .ninf, .ninf => .pinf
  | .pinf, .ninf => .ninf
  | .ninf, .pinf => .ninf
  | _, _ => .nan

/-- Binary64 division `a / b`: a non-zero value over zero is an infinity, `0 / 0` and
`inf / inf` are not-a-number, a finite value over an infinity is zero. -/
def Dbl.div : Dbl → Dbl → Dbl
  | .fin a, .fin b =>
    if b = 0 then (if a = 0 then .nan else infOfSign (decide (0 < a))) else roundDbl (a / b)
  | .fin _, .pinf => .fin 0
  | .fin _, .ninf => .fin 0
  | .pinf, .fin b => infOfSign (decide (0 ≤ b))
  | .ninf, .fin b => infOfSign (decide (b < 0))
  | _, _ => .nan

/-- The comparison `a > b` of two doubles (false as soon as one of them is not-a-number). -/
def Dbl.gt : Dbl → Dbl → Bool
  | .fin a, .fin b => decide (b < a)
  | .fin _, .ninf => true
  | .pinf, .fin _ => true
  | .pinf, .ninf => true
  | _, _ => false

/-- The C library function `pow(x, y)` for an exponent that is a positive natural number: the
exact power rounded once to binary64 (the base itself for `y = 1`, `+inf` when the power
exceeds the range), and `+inf` for the base `+inf`. Other arguments are not modelled. -/
def powDbl : Dbl → Dbl → Dbl
  | .fin a, .fin y => if y.den = 1 ∧ 0 < y.num then roundDbl (a ^ y.num.toNat) else .nan
  | .pinf, .fin y => if 0 < y then .pinf else .nan
  | _, _ => .nan

/-- Inner product `trans(a) * b` in binary64, accumulated from `0` in ascending index. The
order in which the vector library accumulates is not visible in this source file; the
evaluations below use a `1 × 1` matrix and one-entry vectors, for which it is immaterial. -/
def dotD (a b : List Dbl) : Dbl :=
  (List.zipWith Dbl.mul a b).foldl Dbl.add (Dbl.fin 0)

/-- Matrix-vector product `M * v` in binary64. -/
def matVecD (M : List (List Dbl)) (v : List Dbl) : List Dbl :=
  M.map (fun row => dotD row v)

/-- Line 93 in binary64: `trans(coeffsIsI) * (WENOBase_.B()[cellI] * coeffsIsI)`. -/
def smoothIndScalarD (Bc : List (List Dbl)) (coeffsIsI : List Dbl) : Dbl :=
  dotD coeffsIsI (matVecD Bc coeffsIsI)

/-- Lines 99-106 in binary64: the value assigned to `gamma`. -/
def gammaStencilD (pow : Dbl → Dbl → Dbl) (cfg : WENOParams Dbl) (stencilI : Nat)
    (smoothInd : Dbl) : Dbl :=
  if stencilI = 0 then Dbl.div cfg.dm (pow (Dbl.add cfg.epsilon smoothInd) cfg.p)
  else Dbl.div (Dbl.fin 1) (pow (Dbl.add cfg.epsilon smoothInd) cfg.p)

/-- Lines 111-114 in binary64: `coeffsWeightedI[coeffI] += coeffsIsI[coeffI]*gamma`. -/
def blendLoopD (gamma : Dbl) (coeffsIsI : List Dbl) (coeffsWeightedI : List Dbl) : List Dbl :=
  forAll coeffsIsI.length
    (fun coeffI cw =>
      cw.set coeffI
        (Dbl.add (cw.getD coeffI (Dbl.fin 0))
          (Dbl.mul (coeffsIsI.getD coeffI (Dbl.fin 0)) gamma)))
    coeffsWeightedI

/-- Body of the stencil loop of the scalar path (lines 90-114) in binary64. -/
def stencilBodyD (pow : Dbl → Dbl → Dbl) (cfg : WENOParams Dbl) (Bc : List (List Dbl))
    (coeffsI : List (List Dbl)) (stencilI : Nat) (st : LoopState Dbl) : LoopState Dbl :=
  let coeffsIsI := coeffsI.getD stencilI []
  let smoothInd := smoothIndScalarD Bc coeffsIsI
  let gamma := gammaStencilD pow cfg stencilI smoothInd
  { gamma := gamma
    gammaSum := Dbl.add st.gammaSum gamma
    smoothIndList := st.smoothIndList.set stencilI smoothInd
    coeffsWeightedI := blendLoopD gamma coeffsIsI st.coeffsWeightedI }

/-- Lines 80-115 of the scalar path in binary64. -/
def stencilLoopD (pow : Dbl → Dbl → Dbl) (cfg : WENOParams Dbl) (Bc : List (List Dbl))
    (coeffsI : List (List Dbl)) (coeffsWeightedI : List Dbl) : LoopState Dbl :=
  forAll coeffsI.length (stencilBodyD pow cfg Bc coeffsI)
    { gamma := Dbl.fin 0
      gammaSum := Dbl.fin 0
      smoothIndList := List.replicate coeffsI.length (Dbl.fin 0)
      coeffsWeightedI := coeffsWeightedI }

/-- OpenFOAM's `max(const UList<scalar>&)` in binary64, with `max(a, b) = (a > b) ? a : b`. -/
def foamMaxD : List Dbl → Dbl
  | [] => roundDbl (-(10 ^ 300))
  | x :: xs => xs.foldl (fun acc y => if Dbl.gt y acc then y else acc) x

/-- Scalar specialisation `WENOSensor<scalar>::calcWeight` (lines 71-124) in binary64. -/
def calcWeightScalarD (pow : Dbl → Dbl → Dbl) (cfg : WENOParams Dbl)
    (B : List (List (List Dbl))) (coeffsWeightedI : List Dbl) (cellI : Nat)
    (coeffsI : List (List Dbl)) (WENOShockSensor : List Dbl) : List Dbl × List Dbl :=
  let st := stencilLoopD pow cfg (B.getD cellI []) coeffsI coeffsWeightedI
  (forAll st.coeffsWeightedI.length
      (fun coeffI cw => cw.set coeffI (Dbl.div (cw.getD coeffI (Dbl.fin 0)) st.gammaSum))
      st.coeffsWeightedI,
   WENOShockSensor.set cellI (foamMaxD st.smoothIndList))

/-- Exact power with a natural exponent, `x ^ ⌊y⌋`; it agrees with `pow(x, y)` whenever the
exponent `y` is a natural number. Used to evaluate `calcWeight` on concrete inputs. -/
def powNat (x y : ℚ) : ℚ := x ^ (Int.toNat (Rat.floor y))

/-! ## Exact power -/

theorem powNat_natCast (x : ℚ) (n : Nat) : powNat x (n : ℚ) = x ^ n := by
  unfold powNat
  have h : Rat.floor (n : ℚ) = (n : ℤ) := by
    show ⌊(n : ℚ)⌋ = (n : ℤ)
    exact Int.floor_natCast n
  rw [h]
  simp
theorem powNat_one (x : ℚ) : powNat x 1 = x := by
  have := powNat_natCast x 1
  simpa using this
theorem powNat_two (x : ℚ) : powNat x 2 = x ^ 2 := by
  have := powNat_natCast x 2
  simpa using this
theorem powNat_pos (x y : ℚ) (hx : 0 < x) : 0 < powNat x y := by
  unfold powNat
  exact pow_pos hx _

/-! ## Loop lemmas -/

theorem forAll_zero {σ : Type} (body : Nat → σ → σ) (init : σ) : forAll 0 body init = init := rfl

theorem forAll_succ {σ : Type} (n : Nat) (body : Nat → σ → σ) (init : σ) :
    forAll (n + 1) body init = body n (forAll n body init) := by
  simp [forAll, List.range_succ]

theorem getD_set_eq {α : Type} (l : List α) (i k : Nat) (a d : α) :
    (l.set i a).getD k d = if k = i ∧ i < l.length then a else l.getD k d := by
  simp only [List.getD_eq_getElem?_getD, List.getElem?_set]
  by_cases h : i = k
  · subst h
    by_cases h2 : i < l.length
    · simp [h2]
    · have h3 : l[i]? = none := List.getElem?_eq_none (by omega)
      simp [h2, h3]
  · have h' : ¬ k = i := fun e => h e.symm
    simp [h, h']

theorem forAll_set_length {α : Type} (d : α) (f : Nat → α → α) (n : Nat) (l : List α) :
    (forAll n (fun i cw => cw.set i (f i (cw.getD i d))) l).length = l.length := by
  induction n with
  | zero => rfl
  | succ n ih => rw [forAll_succ, List.length_set, ih]

theorem forAll_set_getD {α : Type} (d : α) (f : Nat → α → α) (n : Nat) (l : List α) (k : Nat) :
    (forAll n (fun i cw => cw.set i (f i (cw.getD i d))) l).getD k d =
      if k < n ∧ k < l.length then f k (l.getD k d) else l.getD k d := by
  induction n with
  | zero => rw [forAll_zero, if_neg (by omega)]
  | succ n ih =>
    rw [forAll_succ, getD_set_eq, forAll_set_length]
    by_cases hk : k = n
    · subst hk
      have hkk : ¬ (k < k ∧ k < l.length) := fun h => lt_irrefl _ h.1
      rw [ih, if_neg hkk]
      by_cases hl : k < l.length
      · rw [if_pos ⟨rfl, hl⟩, if_pos ⟨Nat.lt_succ_self _, hl⟩]
      · rw [if_neg (fun h => hl h.2), if_neg (fun h => hl h.2)]
    · rw [if_neg (fun h => hk h.1), ih]
      by_cases hn : k < n ∧ k < l.length
      · rw [if_pos hn, if_pos ⟨by omega, hn.2⟩]
      · rw [if_neg hn, if_neg (fun h => hn ⟨by omega, h.2⟩)]


/-! ## `max` of a list -/

theorem foldl_max_ge {K : Type} [LinearOrderedField K] (xs : List K) (x : K) :
    x ≤ xs.foldl (fun acc y => max y acc) x ∧
      ∀ y ∈ xs, y ≤ xs.foldl (fun acc y => max y acc) x := by
  induction xs generalizing x with
  | nil => simp
  | cons a as ih =>
    simp only [List.foldl_cons, List.mem_cons, forall_eq_or_imp]
    obtain ⟨h1, h2⟩ := ih (max a x)
    exact ⟨le_trans (le_max_right a x) h1, le_trans (le_max_left a x) h1, h2⟩

theorem foldl_max_mem {K : Type} [LinearOrderedField K] (xs : List K) (x : K) :
    xs.foldl (fun acc y => max y acc) x ∈ x :: xs := by
  induction xs generalizing x with
  | nil => simp
  | cons a as ih =>
    simp only [List.foldl_cons]
    have h := ih (max a x)
    rcases List.mem_cons.1 h with h | h
    · rw [h]
      rcases max_choice a x with hm | hm
      · rw [hm]; simp
      · rw [hm]; simp
    · exact List.mem_cons_of_mem _ (List.mem_cons_of_mem _ h)

theorem le_foamMax {K : Type} [LinearOrderedField K] (l : List K) (y : K) (hy : y ∈ l) :
    y ≤ foamMax l := by
  cases l with
  | nil => simp at hy
  | cons x xs =>
    rcases List.mem_cons.1 hy with h | h
    · rw [h]; exact (foldl_max_ge xs x).1
    · exact (foldl_max_ge xs x).2 y h

theorem foamMax_mem {K : Type} [LinearOrderedField K] (l : List K) (hl : l ≠ []) :
    foamMax l ∈ l := by
  cases l with
  | nil => exact absurd rfl hl
  | cons x xs => exact foldl_max_mem xs x

theorem foamMax_replicate {K : Type} [LinearOrderedField K] (n : Nat) (x : K) (hn : 0 < n) :
    foamMax (List.replicate n x) = x := by
  have h : foamMax (List.replicate n x) ∈ List.replicate n x :=
    foamMax_mem _ (by
      intro h0
      have := congrArg List.length h0
      simp at this
      omega)
  exact (List.mem_replicate.1 h).2


/-! ## Scalar path: closed form of the loops -/

theorem blendLoop_length {K : Type} [LinearOrderedField K] (g : K) (c cw : List K) :
    (blendLoop g c cw).length = cw.length := by
  unfold blendLoop
  exact forAll_set_length 0 (fun i x => x + c.getD i 0 * g) c.length cw

theorem blendLoop_getD {K : Type} [LinearOrderedField K] (g : K) (c cw : List K) (k : Nat) :
    (blendLoop g c cw).getD k 0 =
      cw.getD k 0 + (if k < cw.length then c.getD k 0 * g else 0) := by
  unfold blendLoop
  rw [forAll_set_getD 0 (fun i x => x + c.getD i 0 * g) c.length cw k]
  by_cases hl : k < cw.length
  · by_cases hc : k < c.length
    · rw [if_pos ⟨hc, hl⟩, if_pos hl]
    · rw [if_neg (fun h => hc h.1), if_pos hl, List.getD_eq_default c 0 (by omega)]
      simp
  · rw [if_neg (fun h => hl h.2), if_neg hl, add_zero]

theorem stencil_gammaSum {K : Type} [LinearOrderedField K] (pow : K → K → K)
    (cfg : WENOParams K) (Bc : List (List K)) (coeffsI : List (List K)) (n : Nat)
    (st : LoopState K) :
    (forAll n (stencilBody pow cfg Bc coeffsI) st).gammaSum =
      st.gammaSum + ∑ s in Finset.range n, gammaOf pow cfg Bc coeffsI s := by
  induction n with
  | zero => simp [forAll_zero]
  | succ n ih =>
    rw [forAll_succ, Finset.sum_range_succ, ← add_assoc, ← ih]
    rfl

theorem stencil_cw_length {K : Type} [LinearOrderedField K] (pow : K → K → K)
    (cfg : WENOParams K) (Bc : List (List K)) (coeffsI : List (List K)) (n : Nat)
    (st : LoopState K) :
    (forAll n (stencilBody pow cfg Bc coeffsI) st).coeffsWeightedI.length =
      st.coeffsWeightedI.length := by
  induction n with
  | zero => rfl
  | succ n ih =>
    rw [forAll_succ]
    show (blendLoop _ _ _).length = _
    rw [blendLoop_length, ih]

theorem stencil_cw_getD {K : Type} [LinearOrderedField K] (pow : K → K → K)
    (cfg : WENOParams K) (Bc : List (List K)) (coeffsI : List (List K)) (n : Nat)
    (st : LoopState K) (k : Nat) :
    (forAll n (stencilBody pow cfg Bc coeffsI) st).coeffsWeightedI.getD k 0 =
      st.coeffsWeightedI.getD k 0 +
        (if k < st.coeffsWeightedI.length then
          ∑ s in Finset.range n, (coeffsI.getD s []).getD k 0 * gammaOf pow cfg Bc coeffsI s
        else 0) := by
  induction n with
  | zero => simp [forAll_zero]
  | succ n ih =>
    rw [forAll_succ]
    show (blendLoop _ _ _).getD k 0 = _
    rw [blendLoop_getD, stencil_cw_length, ih]
    by_cases hl : k < st.coeffsWeightedI.length
    · simp only [if_pos hl]
      rw [Finset.sum_range_succ, add_assoc]
      rfl
    · simp only [if_neg hl, add_zero]

theorem stencil_sil_length {K : Type} [LinearOrderedField K] (pow : K → K → K)
    (cfg : WENOParams K) (Bc : List (List K)) (coeffsI : List (List K)) (n : Nat)
    (st : LoopState K) :
    (forAll n (stencilBody pow cfg Bc coeffsI) st).smoothIndList.length =
      st.smoothIndList.length := by
  induction n with
  | zero => rfl
  | succ n ih =>
    rw [forAll_succ]
    show (List.set _ _ _).length = _
    rw [List.length_set, ih]

theorem stencil_sil_getD {K : Type} [LinearOrderedField K] (pow : K → K → K)
    (cfg : WENOParams K) (Bc : List (List K)) (coeffsI : List (List K)) (n : Nat)
    (st : LoopState K) (s : Nat) :
    (forAll n (stencilBody pow cfg Bc coeffsI) st).smoothIndList.getD s 0 =
      if s < n ∧ s < st.smoothIndList.length then indicator Bc coeffsI s
      else st.smoothIndList.getD s 0 := by
  induction n with
  | zero =>
    rw [forAll_zero, if_neg (fun h => Nat.not_lt_zero _ h.1)]
  | succ n ih =>
    rw [forAll_succ]
    show (List.set _ _ _).getD s 0 = _
    rw [getD_set_eq, stencil_sil_length, ih]
    by_cases hs : s = n
    · subst hs
      by_cases hl : s < st.smoothIndList.length
      · rw [if_pos ⟨rfl, hl⟩, if_pos ⟨Nat.lt_succ_self _, hl⟩]
        rfl
      · rw [if_neg (fun h => hl h.2), if_neg (fun h => hl h.2), if_neg (fun h => hl h.2)]
    · rw [if_neg (fun h => hs h.1)]
      by_cases hn : s < n ∧ s < st.smoothIndList.length
      · rw [if_pos hn, if_pos ⟨by omega, hn.2⟩]
      · rw [if_neg hn, if_neg (fun h => hn ⟨by omega, h.2⟩)]

/-- Closed form of the output buffer of the scalar `calcWeight`: the buffer is accumulated
onto its initial contents and divided once by `gammaSum`. -/
theorem calcWeightScalar_getD {K : Type} [LinearOrderedField K] (pow : K → K → K)
    (cfg : WENOParams K) (B : List (List (List K))) (cw : List K) (cellI : Nat)
    (coeffsI : List (List K)) (sens : List K) (k : Nat) :
    (calcWeightScalar pow cfg B cw cellI coeffsI sens).1.getD k 0 =
      (cw.getD k 0 +
        (if k < cw.length then
          ∑ s in Finset.range coeffsI.length,
            (coeffsI.getD s []).getD k 0 * gammaOf pow cfg (B.getD cellI []) coeffsI s
        else 0)) /
      (stencilLoop pow cfg (B.getD cellI []) coeffsI cw).gammaSum := by
  show List.getD (forAll _ _ _) k 0 = _
  rw [forAll_set_getD 0
    (fun _ x => x / (stencilLoop pow cfg (B.getD cellI []) coeffsI cw).gammaSum)]
  have hget : (stencilLoop pow cfg (B.getD cellI []) coeffsI cw).coeffsWeightedI.getD k 0 =
      cw.getD k 0 + (if k < cw.length then
          ∑ s in Finset.range coeffsI.length,
            (coeffsI.getD s []).getD k 0 * gammaOf pow cfg (B.getD cellI []) coeffsI s
        else 0) := by
    unfold stencilLoop
    rw [stencil_cw_getD]
  have hlen : (stencilLoop pow cfg (B.getD cellI []) coeffsI cw).coeffsWeightedI.length =
      cw.length := by
    unfold stencilLoop
    rw [stencil_cw_length]
  rw [hlen, hget]
  by_cases hl : k < cw.length
  · rw [if_pos ⟨hl, hl⟩]
  · rw [if_neg (fun h => hl h.1), if_neg hl, List.getD_eq_default cw 0 (by omega)]
    simp

theorem stencilLoop_gammaSum {K : Type} [LinearOrderedField K] (pow : K → K → K)
    (cfg : WENOParams K) (Bc : List (List K)) (coeffsI : List (List K)) (cw : List K) :
    (stencilLoop pow cfg Bc coeffsI cw).gammaSum =
      ∑ s in Finset.range coeffsI.length, gammaOf pow cfg Bc coeffsI s := by
  unfold stencilLoop
  rw [stencil_gammaSum]
  simp

/-! ## Multi-component lists -/

theorem set2_rowLen {K : Type} [LinearOrderedField K] (f : List (List K)) (i c : Nat) (v : K)
    (k : Nat) : ((set2 f i c v).getD k []).length = (f.getD k []).length := by
  unfold set2
  rw [getD_set_eq]
  by_cases h : k = i ∧ i < f.length
  · rw [if_pos h, List.length_set, h.1]
  · rw [if_neg h]

theorem get2_set2 {K : Type} [LinearOrderedField K] (f : List (List K)) (i c : Nat) (v : K)
    (k j : Nat) :
    get2 (set2 f i c v) k j =
      if k = i ∧ j = c ∧ c < (f.getD i []).length then v else get2 f k j := by
  unfold get2 set2
  rw [getD_set_eq]
  by_cases hk : k = i
  · subst hk
    by_cases hi : k < f.length
    · rw [if_pos ⟨rfl, hi⟩, getD_set_eq]
      by_cases hj : j = c ∧ c < (f.getD k []).length
      · rw [if_pos hj, if_pos ⟨rfl, hj⟩]
      · rw [if_neg hj, if_neg (fun h => hj h.2)]
    · rw [if_neg (fun h => hi h.2)]
      have hnil : f.getD k [] = [] := List.getD_eq_default f [] (by omega)
      rw [if_neg]
      rw [hnil]
      intro h
      exact Nat.not_lt_zero _ h.2.2
  · rw [if_neg (fun h => hk h.1), if_neg (fun h => hk h.1)]

theorem forAll_set2_rowLen {K : Type} [LinearOrderedField K] (f : Nat → K → K) (c n : Nat)
    (cw : List (List K)) (k : Nat) :
    ((forAll n (fun i x => set2 x i c (f i (get2 x i c))) cw).getD k []).length =
      (cw.getD k []).length := by
  induction n with
  | zero => rfl
  | succ n ih => rw [forAll_succ, set2_rowLen, ih]

theorem forAll_set2_length {K : Type} [LinearOrderedField K] (f : Nat → K → K) (c n : Nat)
    (cw : List (List K)) :
    (forAll n (fun i x => set2 x i c (f i (get2 x i c))) cw).length = cw.length := by
  induction n with
  | zero => rfl
  | succ n ih =>
    rw [forAll_succ]
    show (List.set _ _ _).length = _
    rw [List.length_set, ih]

theorem forAll_set2_get2 {K : Type} [LinearOrderedField K] (f : Nat → K → K) (c n : Nat)
    (cw : List (List K)) (k j : Nat) :
    get2 (forAll n (fun i x => set2 x i c (f i (get2 x i c))) cw) k j =
      if k < n ∧ j = c ∧ c < (cw.getD k []).length then f k (get2 cw k c) else get2 cw k j := by
  induction n generalizing j with
  | zero => rw [forAll_zero, if_neg (fun h => Nat.not_lt_zero _ h.1)]
  | succ n ih =>
    rw [forAll_succ, get2_set2, forAll_set2_rowLen]
    by_cases hk : k = n
    · subst hk
      by_cases hj : j = c ∧ c < (cw.getD k []).length
      · rw [if_pos ⟨rfl, hj⟩, if_pos ⟨Nat.lt_succ_self _, hj⟩, ih c,
          if_neg (fun h => lt_irrefl _ h.1)]
      · rw [if_neg (fun h => hj h.2), if_neg (fun h => hj h.2), ih j,
          if_neg (fun h => lt_irrefl _ h.1)]
    · rw [if_neg (fun h => hk h.1), ih j]
      by_cases hn : k < n ∧ j = c ∧ c < (cw.getD k []).length
      · rw [if_pos hn, if_pos ⟨by omega, hn.2⟩]
      · rw [if_neg hn, if_neg (fun h => hn ⟨by omega, h.2⟩)]

theorem get2_eq_zero {K : Type} [LinearOrderedField K] (f : List (List K)) (k j : Nat)
    (h : ¬ j < (f.getD k []).length) : get2 f k j = 0 := by
  unfold get2
  exact List.getD_eq_default _ 0 (by omega)

theorem get2_eq_zero_of_length_le {K : Type} [LinearOrderedField K] (f : List (List K))
    (k j : Nat) (h : f.length ≤ k) : get2 f k j = 0 := by
  apply get2_eq_zero
  rw [List.getD_eq_default f [] h]
  exact Nat.not_lt_zero _

/-! ## Generic path: closed form of the loops -/

theorem blendLoopComp_rowLen {K : Type} [LinearOrderedField K] (g : K) (c : Nat)
    (cs cw : List (List K)) (k : Nat) :
    ((blendLoopComp g c cs cw).getD k []).length = (cw.getD k []).length := by
  unfold blendLoopComp
  exact forAll_set2_rowLen (fun i x => x + get2 cs i c * g) c cs.length cw k

theorem blendLoopComp_get2 {K : Type} [LinearOrderedField K] (g : K) (c : Nat)
    (cs cw : List (List K)) (k j : Nat) :
    get2 (blendLoopComp g c cs cw) k j =
      get2 cw k j + (if j = c ∧ c < (cw.getD k []).length then get2 cs k c * g else 0) := by
  unfold blendLoopComp
  rw [forAll_set2_get2 (fun i x => x + get2 cs i c * g) c cs.length cw k j]
  by_cases hj : j = c ∧ c < (cw.getD k []).length
  · rw [if_pos hj]
    by_cases hk : k < cs.length
    · rw [if_pos ⟨hk, hj⟩, hj.1]
    · rw [if_neg (fun h => hk h.1), get2_eq_zero_of_length_le cs k c (by omega), hj.1]
      simp
  · rw [if_neg hj, if_neg (fun h => hj h.2), add_zero]

theorem stencilComp_gammaSum {K : Type} [LinearOrderedField K] (pow : K → K → K)
    (cfg : WENOParams K) (Bc : List (List K)) (coeffsI : List (List (List K))) (c n : Nat)
    (st : LoopStateN K) :
    (forAll n (stencilBodyComp pow cfg Bc coeffsI c) st).gammaSum =
      st.gammaSum + ∑ s in Finset.range n, gammaOfComp pow cfg Bc coeffsI c s := by
  induction n with
  | zero => simp [forAll_zero]
  | succ n ih =>
    rw [forAll_succ, Finset.sum_range_succ, ← add_assoc, ← ih]
    rfl

theorem stencilComp_rowLen {K : Type} [LinearOrderedField K] (pow : K → K → K)
    (cfg : WENOParams K) (Bc : List (List K)) (coeffsI : List (List (List K))) (c n : Nat)
    (st : LoopStateN K) (k : Nat) :
    ((forAll n (stencilBodyComp pow cfg Bc coeffsI c) st).coeffsWeightedI.getD k []).length =
      (st.coeffsWeightedI.getD k []).length := by
  induction n with
  | zero => rfl
  | succ n ih =>
    rw [forAll_succ]
    show ((blendLoopComp _ _ _ _).getD k []).length = _
    rw [blendLoopComp_rowLen, ih]

theorem stencilComp_length {K : Type} [LinearOrderedField K] (pow : K → K → K)
    (cfg : WENOParams K) (Bc : List (List K)) (coeffsI : List (List (List K))) (c n : Nat)
    (st : LoopStateN K) :
    (forAll n (stencilBodyComp pow cfg Bc coeffsI c) st).coeffsWeightedI.length =
      st.coeffsWeightedI.length := by
  induction n with
  | zero => rfl
  | succ n ih =>
    rw [forAll_succ]
    show (blendLoopComp _ _ _ _).length = _
    unfold blendLoopComp
    rw [forAll_set2_length (fun i x => x + get2 (coeffsI.getD n []) i c * _), ih]

theorem stencilComp_get2 {K : Type} [LinearOrderedField K] (pow : K → K → K)
    (cfg : WENOParams K) (Bc : List (List K)) (coeffsI : List (List (List K))) (c n : Nat)
    (st : LoopStateN K) (k j : Nat) :
    get2 (forAll n (stencilBodyComp pow cfg Bc coeffsI c) st).coeffsWeightedI k j =
      get2 st.coeffsWeightedI k j +
        (if j = c ∧ c < (st.coeffsWeightedI.getD k []).length then
          ∑ s in Finset.range n, get2 (coeffsI.getD s []) k c * gammaOfComp pow cfg Bc coeffsI c s
        else 0) := by
  induction n with
  | zero => simp [forAll_zero]
  | succ n ih =>
    rw [forAll_succ]
    show get2 (blendLoopComp _ _ _ _) k j = _
    rw [blendLoopComp_get2, stencilComp_rowLen, ih]
    by_cases hj : j = c ∧ c < (st.coeffsWeightedI.getD k []).length
    · simp only [if_pos hj]
      rw [Finset.sum_range_succ, add_assoc]
      rfl
    · simp only [if_neg hj, add_zero]

theorem stencilComp_sil_length {K : Type} [LinearOrderedField K] (pow : K → K → K)
    (cfg : WENOParams K) (Bc : List (List K)) (coeffsI : List (List (List K))) (c n : Nat)
    (st : LoopStateN K) :
    (forAll n (stencilBodyComp pow cfg Bc coeffsI c) st).smoothIndList.length =
      st.smoothIndList.length := by
  induction n with
  | zero => rfl
  | succ n ih =>
    rw [forAll_succ]
    show (List.replicate _ _).length = _
    rw [List.length_replicate, ih]

theorem stencilComp_sil {K : Type} [LinearOrderedField K] (pow : K → K → K)
    (cfg : WENOParams K) (Bc : List (List K)) (coeffsI : List (List (List K))) (c n : Nat)
    (st : LoopStateN K) :
    (forAll (n + 1) (stencilBodyComp pow cfg Bc coeffsI c) st).smoothIndList =
      List.replicate st.smoothIndList.length (indicatorComp Bc coeffsI c n) := by
  rw [forAll_succ]
  show List.replicate _ _ = _
  rw [stencilComp_sil_length]
  rfl

theorem stencilLoopComp_gammaSum {K : Type} [LinearOrderedField K] (pow : K → K → K)
    (cfg : WENOParams K) (Bc : List (List K)) (coeffsI : List (List (List K))) (c : Nat)
    (g : K) (cw : List (List K)) :
    (stencilLoopComp pow cfg Bc coeffsI c g cw).gammaSum =
      ∑ s in Finset.range coeffsI.length, gammaOfComp pow cfg Bc coeffsI c s := by
  unfold stencilLoopComp
  rw [stencilComp_gammaSum]
  simp

theorem stencilLoopComp_sil {K : Type} [LinearOrderedField K] (pow : K → K → K)
    (cfg : WENOParams K) (Bc : List (List K)) (coeffsI : List (List (List K))) (c : Nat)
    (g : K) (cw : List (List K)) :
    (stencilLoopComp pow cfg Bc coeffsI c g cw).smoothIndList =
      List.replicate coeffsI.length (indicatorComp Bc coeffsI c (coeffsI.length - 1)) := by
  unfold stencilLoopComp
  cases h : coeffsI.length with
  | zero => simp [forAll_zero]
  | succ n =>
    rw [stencilComp_sil]
    simp

theorem compBody_rowLen {K : Type} [LinearOrderedField K] (pow : K → K → K)
    (cfg : WENOParams K) (Bc : List (List K)) (cellI : Nat) (coeffsI : List (List (List K)))
    (c : Nat) (cs : CompState K) (k : Nat) :
    ((compBody pow cfg Bc cellI coeffsI c cs).coeffsWeightedI.getD k []).length =
      (cs.coeffsWeightedI.getD k []).length := by
  show (List.getD (forAll _ _ _) k []).length = _
  rw [forAll_set2_rowLen (fun _ x => x / _)]
  unfold stencilLoopComp
  rw [stencilComp_rowLen]

theorem compBody_get2 {K : Type} [LinearOrderedField K] (pow : K → K → K)
    (cfg : WENOParams K) (Bc : List (List K)) (cellI : Nat) (coeffsI : List (List (List K)))
    (c : Nat) (cs : CompState K) (k j : Nat) :
    get2 (compBody pow cfg Bc cellI coeffsI c cs).coeffsWeightedI k j =
      if j = c ∧ c < (cs.coeffsWeightedI.getD k []).length then
        (get2 cs.coeffsWeightedI k c +
          ∑ s in Finset.range coeffsI.length,
            get2 (coeffsI.getD s []) k c * gammaOfComp pow cfg Bc coeffsI c s) /
        (∑ s in Finset.range coeffsI.length, gammaOfComp pow cfg Bc coeffsI c s)
      else get2 cs.coeffsWeightedI k j := by
  show get2 (forAll _ _ _) k j = _
  rw [forAll_set2_get2 (fun _ x => x / _), stencilLoopComp_gammaSum]
  have hrow : ((stencilLoopComp pow cfg Bc coeffsI c cs.gamma cs.coeffsWeightedI).coeffsWeightedI.getD
      k []).length = (cs.coeffsWeightedI.getD k []).length := by
    unfold stencilLoopComp
    rw [stencilComp_rowLen]
  have hlen : (stencilLoopComp pow cfg Bc coeffsI c cs.gamma cs.coeffsWeightedI).coeffsWeightedI.length
      = cs.coeffsWeightedI.length := by
    unfold stencilLoopComp
    rw [stencilComp_length]
  have hget : ∀ j', get2 (stencilLoopComp pow cfg Bc coeffsI c cs.gamma
      cs.coeffsWeightedI).coeffsWeightedI k j' = get2 cs.coeffsWeightedI k j' +
        (if j' = c ∧ c < (cs.coeffsWeightedI.getD k []).length then
          ∑ s in Finset.range coeffsI.length,
            get2 (coeffsI.getD s []) k c * gammaOfComp pow cfg Bc coeffsI c s
        else 0) := by
    intro j'
    unfold stencilLoopComp
    rw [stencilComp_get2]
  rw [hrow, hlen, hget, hget]
  by_cases hj : j = c ∧ c < (cs.coeffsWeightedI.getD k []).length
  · have hk : k < cs.coeffsWeightedI.length := by
      by_contra hk
      rw [List.getD_eq_default cs.coeffsWeightedI [] (by omega)] at hj
      exact Nat.not_lt_zero _ hj.2
    rw [if_pos ⟨hk, hj⟩, if_pos hj, if_pos ⟨rfl, hj.2⟩]
  · rw [if_neg (fun h => hj h.2), if_neg hj, if_neg hj, add_zero]

theorem compBody_sens {K : Type} [LinearOrderedField K] (pow : K → K → K)
    (cfg : WENOParams K) (Bc : List (List K)) (cellI : Nat) (coeffsI : List (List (List K)))
    (c : Nat) (cs : CompState K) :
    (compBody pow cfg Bc cellI coeffsI c cs).WENOShockSensor =
      set2 cs.WENOShockSensor cellI c
        (foamMax (List.replicate coeffsI.length
          (indicatorComp Bc coeffsI c (coeffsI.length - 1)))) := by
  show set2 _ _ _ (foamMax _) = _
  rw [stencilLoopComp_sil]

theorem compLoop_rowLen {K : Type} [LinearOrderedField K] (pow : K → K → K)
    (cfg : WENOParams K) (Bc : List (List K)) (cellI : Nat) (coeffsI : List (List (List K)))
    (m : Nat) (cs : CompState K) (k : Nat) :
    ((forAll m (compBody pow cfg Bc cellI coeffsI) cs).coeffsWeightedI.getD k []).length =
      (cs.coeffsWeightedI.getD k []).length := by
  induction m with
  | zero => rfl
  | succ m ih => rw [forAll_succ, compBody_rowLen, ih]

theorem compLoop_get2 {K : Type} [LinearOrderedField K] (pow : K → K → K)
    (cfg : WENOParams K) (Bc : List (List K)) (cellI : Nat) (coeffsI : List (List (List K)))
    (m : Nat) (cs : CompState K) (k j : Nat) :
    get2 (forAll m (compBody pow cfg Bc cellI coeffsI) cs).coeffsWeightedI k j =
      if j < m ∧ j < (cs.coeffsWeightedI.getD k []).length then
        (get2 cs.coeffsWeightedI k j +
          ∑ s in Finset.range coeffsI.length,
            get2 (coeffsI.getD s []) k j * gammaOfComp pow cfg Bc coeffsI j s) /
        (∑ s in Finset.range coeffsI.length, gammaOfComp pow cfg Bc coeffsI j s)
      else get2 cs.coeffsWeightedI k j := by
  induction m generalizing j with
  | zero => rw [forAll_zero, if_neg (fun h => Nat.not_lt_zero _ h.1)]
  | succ m ih =>
    rw [forAll_succ, compBody_get2, compLoop_rowLen]
    by_cases hj : j = m
    · subst hj
      by_cases hl : j < (cs.coeffsWeightedI.getD k []).length
      · rw [if_pos ⟨rfl, hl⟩, if_pos ⟨Nat.lt_succ_self _, hl⟩, ih j,
          if_neg (fun h => lt_irrefl _ h.1)]
      · rw [if_neg (fun h => hl h.2), if_neg (fun h => hl h.2), ih j,
          if_neg (fun h => hl h.2)]
    · rw [if_neg (fun h => hj h.1), ih j]
      by_cases hm : j < m ∧ j < (cs.coeffsWeightedI.getD k []).length
      · rw [if_pos hm, if_pos ⟨by omega, hm.2⟩]
      · rw [if_neg hm, if_neg (fun h => hm ⟨by omega, h.2⟩)]

theorem compLoop_sens_rowLen {K : Type} [LinearOrderedField K] (pow : K → K → K)
    (cfg : WENOParams K) (Bc : List (List K)) (cellI : Nat) (coeffsI : List (List (List K)))
    (m : Nat) (cs : CompState K) (i : Nat) :
    ((forAll m (compBody pow cfg Bc cellI coeffsI) cs).WENOShockSensor.getD i []).length =
      (cs.WENOShockSensor.getD i []).length := by
  induction m with
  | zero => rfl
  | succ m ih => rw [forAll_succ, compBody_sens, set2_rowLen, ih]

theorem compLoop_sens_get2 {K : Type} [LinearOrderedField K] (pow : K → K → K)
    (cfg : WENOParams K) (Bc : List (List K)) (cellI : Nat) (coeffsI : List (List (List K)))
    (m : Nat) (cs : CompState K) (i j : Nat) :
    get2 (forAll m (compBody pow cfg Bc cellI coeffsI) cs).WENOShockSensor i j =
      if i = cellI ∧ j < m ∧ j < (cs.WENOShockSensor.getD cellI []).length then
        foamMax (List.replicate coeffsI.length
          (indicatorComp Bc coeffsI j (coeffsI.length - 1)))
      else get2 cs.WENOShockSensor i j := by
  induction m generalizing j with
  | zero => rw [forAll_zero, if_neg (fun h => Nat.not_lt_zero _ h.2.1)]
  | succ m ih =>
    rw [forAll_succ, compBody_sens, get2_set2, compLoop_sens_rowLen]
    by_cases hi : i = cellI
    · subst hi
      by_cases hj : j = m
      · subst hj
        by_cases hl : j < (cs.WENOShockSensor.getD i []).length
        · rw [if_pos ⟨rfl, rfl, hl⟩, if_pos ⟨rfl, Nat.lt_succ_self _, hl⟩]
        · rw [if_neg (fun h => hl h.2.2), if_neg (fun h => hl h.2.2), ih j,
            if_neg (fun h => hl h.2.2)]
      · rw [if_neg (fun h => hj h.2.1), ih j]
        by_cases hm : i = i ∧ j < m ∧ j < (cs.WENOShockSensor.getD i []).length
        · rw [if_pos hm, if_pos ⟨rfl, by omega, hm.2.2⟩]
        · rw [if_neg hm, if_neg (fun h => hm ⟨rfl, by omega, h.2.2⟩)]
    · rw [if_neg (fun h => hi h.1), ih j, if_neg (fun h => hi h.1), if_neg (fun h => hi h.1)]

/-- Closed form of the output buffer of the generic `calcWeight`: component `j` of entry `k`
is accumulated onto its initial contents and divided once by the `gammaSum` of component `j`. -/
theorem calcWeight_get2 {K : Type} [LinearOrderedField K] (pow : K → K → K)
    (cfg : WENOParams K) (B : List (List (List K))) (nComp : Nat) (cw : List (List K))
    (cellI : Nat) (coeffsI : List (List (List K))) (sens : List (List K)) (k j : Nat) :
    get2 (calcWeight pow cfg B nComp cw cellI coeffsI sens).1 k j =
      if j < nComp ∧ j < (cw.getD k []).length then
        (get2 cw k j +
          ∑ s in Finset.range coeffsI.length,
            get2 (coeffsI.getD s []) k j * gammaOfComp pow cfg (B.getD cellI []) coeffsI j s) /
        (∑ s in Finset.range coeffsI.length, gammaOfComp pow cfg (B.getD cellI []) coeffsI j s)
      else get2 cw k j := by
  unfold calcWeight
  exact compLoop_get2 pow cfg (B.getD cellI []) cellI coeffsI nComp _ k j

/-- Closed form of the shock-sensor field after the generic `calcWeight`. -/
theorem calcWeight_sens_get2 {K : Type} [LinearOrderedField K] (pow : K → K → K)
    (cfg : WENOParams K) (B : List (List (List K))) (nComp : Nat) (cw : List (List K))
    (cellI : Nat) (coeffsI : List (List (List K))) (sens : List (List K)) (i j : Nat) :
    get2 (calcWeight pow cfg B nComp cw cellI coeffsI sens).2 i j =
      if i = cellI ∧ j < nComp ∧ j < (sens.getD cellI []).length then
        foamMax (List.replicate coeffsI.length
          (indicatorComp (B.getD cellI []) coeffsI j (coeffsI.length - 1)))
      else get2 sens i j := by
  unfold calcWeight
  exact compLoop_sens_get2 pow cfg (B.getD cellI []) cellI coeffsI nComp _ i j

theorem stencilLoop_sil_length {K : Type} [LinearOrderedField K] (pow : K → K → K)
    (cfg : WENOParams K) (Bc : List (List K)) (coeffsI : List (List K)) (cw : List K) :
    (stencilLoop pow cfg Bc coeffsI cw).smoothIndList.length = coeffsI.length := by
  unfold stencilLoop
  rw [stencil_sil_length]
  simp

theorem stencilLoop_sil_getD {K : Type} [LinearOrderedField K] (pow : K → K → K)
    (cfg : WENOParams K) (Bc : List (List K)) (coeffsI : List (List K)) (cw : List K)
    (s : Nat) (hs : s < coeffsI.length) :
    (stencilLoop pow cfg Bc coeffsI cw).smoothIndList.getD s 0 = indicator Bc coeffsI s := by
  unfold stencilLoop
  rw [stencil_sil_getD, if_pos]
  exact ⟨hs, by simpa using hs⟩

theorem mem_iff_getD {K : Type} [LinearOrderedField K] (l : List K) (y : K) :
    y ∈ l ↔ ∃ s, s < l.length ∧ l.getD s 0 = y := by
  constructor
  · intro h
    obtain ⟨s, hs, e⟩ := List.getElem_of_mem h
    exact ⟨s, hs, by rw [List.getD_eq_getElem l 0 hs, e]⟩
  · rintro ⟨s, hs, e⟩
    rw [← e, List.getD_eq_getElem l 0 hs]
    exact List.getElem_mem hs

theorem replicate_getD {α : Type} (n k : Nat) (a d : α) (hk : k < n) :
    (List.replicate n a).getD k d = a := by
  rw [List.getD_eq_getElem _ _ (by simpa using hk)]
  simp

theorem get2_replicate_zero {K : Type} [LinearOrderedField K] (n m k j : Nat) :
    get2 (List.replicate n (List.replicate m (0 : K))) k j = 0 := by
  by_cases hk : k < n
  · unfold get2
    rw [replicate_getD n k _ _ hk]
    by_cases hj : j < m
    · exact replicate_getD m j 0 0 hj
    · exact List.getD_eq_default _ 0 (by simpa using hj)
  · exact get2_eq_zero_of_length_le _ k j (by simpa using hk)

theorem stencil_sil_congr {K : Type} [LinearOrderedField K] (pow : K → K → K)
    (cfg : WENOParams K) (Bc : List (List K)) (coeffsI : List (List K)) (n : Nat)
    (st st' : LoopState K) (h : st.smoothIndList = st'.smoothIndList) :
    (forAll n (stencilBody pow cfg Bc coeffsI) st).smoothIndList =
      (forAll n (stencilBody pow cfg Bc coeffsI) st').smoothIndList := by
  induction n with
  | zero => exact h
  | succ n ih =>
    rw [forAll_succ, forAll_succ]
    show List.set _ _ _ = List.set _ _ _
    rw [ih]

theorem stencilLoop_sil_indep {K : Type} [LinearOrderedField K] (pow : K → K → K)
    (cfg : WENOParams K) (Bc : List (List K)) (coeffsI : List (List K)) (cw cw' : List K) :
    (stencilLoop pow cfg Bc coeffsI cw).smoothIndList =
      (stencilLoop pow cfg Bc coeffsI cw').smoothIndList := by
  unfold stencilLoop
  exact stencil_sil_congr pow cfg Bc coeffsI _ _ _ rfl

theorem calcWeightScalar_length {K : Type} [LinearOrderedField K] (pow : K → K → K)
    (cfg : WENOParams K) (B : List (List (List K))) (cw : List K) (cellI : Nat)
    (coeffsI : List (List K)) (sens : List K) :
    (calcWeightScalar pow cfg B cw cellI coeffsI sens).1.length = cw.length := by
  show List.length (forAll _ _ _) = _
  rw [forAll_set_length 0 (fun _ x => x / _)]
  unfold stencilLoop
  rw [stencil_cw_length]

theorem calcWeightScalar_sens {K : Type} [LinearOrderedField K] (pow : K → K → K)
    (cfg : WENOParams K) (B : List (List (List K))) (cw : List K) (cellI : Nat)
    (coeffsI : List (List K)) (sens : List K) :
    (calcWeightScalar pow cfg B cw cellI coeffsI sens).2 =
      sens.set cellI (foamMax (stencilLoop pow cfg (B.getD cellI []) coeffsI []).smoothIndList) := by
  show List.set _ _ _ = _
  rw [stencilLoop_sil_indep pow cfg (B.getD cellI []) coeffsI cw []]

theorem ext2 {K : Type} [LinearOrderedField K] (f g : List (List K))
    (hlen : f.length = g.length)
    (hrow : ∀ k, (f.getD k []).length = (g.getD k []).length)
    (hget : ∀ k j, get2 f k j = get2 g k j) : f = g := by
  apply List.ext_getElem hlen
  intro k h1 h2
  have hr := hrow k
  rw [List.getD_eq_getElem f [] h1, List.getD_eq_getElem g [] h2] at hr
  apply List.ext_getElem hr
  intro j h3 h4
  have hg := hget k j
  unfold get2 at hg
  rw [List.getD_eq_getElem f [] h1, List.getD_eq_getElem g [] h2,
    List.getD_eq_getElem _ 0 h3, List.getD_eq_getElem _ 0 h4] at hg
  exact hg

theorem compLoop_sens_length {K : Type} [LinearOrderedField K] (pow : K → K → K)
    (cfg : WENOParams K) (Bc : List (List K)) (cellI : Nat) (coeffsI : List (List (List K)))
    (m : Nat) (cs : CompState K) :
    (forAll m (compBody pow cfg Bc cellI coeffsI) cs).WENOShockSensor.length =
      cs.WENOShockSensor.length := by
  induction m with
  | zero => rfl
  | succ m ih =>
    rw [forAll_succ, compBody_sens]
    show (List.set _ _ _).length = _
    rw [List.length_set, ih]

theorem compLoop_length {K : Type} [LinearOrderedField K] (pow : K → K → K)
    (cfg : WENOParams K) (Bc : List (List K)) (cellI : Nat) (coeffsI : List (List (List K)))
    (m : Nat) (cs : CompState K) :
    (forAll m (compBody pow cfg Bc cellI coeffsI) cs).coeffsWeightedI.length =
      cs.coeffsWeightedI.length := by
  induction m with
  | zero => rfl
  | succ m ih =>
    rw [forAll_succ]
    show List.length (forAll _ _ _) = _
    rw [forAll_set2_length (fun _ x => x / _)]
    unfold stencilLoopComp
    rw [stencilComp_length, ih]

theorem calcWeight_rowLen {K : Type} [LinearOrderedField K] (pow : K → K → K)
    (cfg : WENOParams K) (B : List (List (List K))) (nComp : Nat) (cw : List (List K))
    (cellI : Nat) (coeffsI : List (List (List K))) (sens : List (List K)) (k : Nat) :
    ((calcWeight pow cfg B nComp cw cellI coeffsI sens).1.getD k []).length =
      (cw.getD k []).length := by
  unfold calcWeight
  exact compLoop_rowLen pow cfg (B.getD cellI []) cellI coeffsI nComp _ k

theorem calcWeight_length {K : Type} [LinearOrderedField K] (pow : K → K → K)
    (cfg : WENOParams K) (B : List (List (List K))) (nComp : Nat) (cw : List (List K))
    (cellI : Nat) (coeffsI : List (List (List K))) (sens : List (List K)) :
    (calcWeight pow cfg B nComp cw cellI coeffsI sens).1.length = cw.length := by
  unfold calcWeight
  exact compLoop_length pow cfg (B.getD cellI []) cellI coeffsI nComp _

theorem calcWeight_sens_rowLen {K : Type} [LinearOrderedField K] (pow : K → K → K)
    (cfg : WENOParams K) (B : List (List (List K))) (nComp : Nat) (cw : List (List K))
    (cellI : Nat) (coeffsI : List (List (List K))) (sens : List (List K)) (i : Nat) :
    ((calcWeight pow cfg B nComp cw cellI coeffsI sens).2.getD i []).length =
      (sens.getD i []).length := by
  unfold calcWeight
  exact compLoop_sens_rowLen pow cfg (B.getD cellI []) cellI coeffsI nComp _ i

theorem calcWeight_sens_length {K : Type} [LinearOrderedField K] (pow : K → K → K)
    (cfg : WENOParams K) (B : List (List (List K))) (nComp : Nat) (cw : List (List K))
    (cellI : Nat) (coeffsI : List (List (List K))) (sens : List (List K)) :
    (calcWeight pow cfg B nComp cw cellI coeffsI sens).2.length = sens.length := by
  unfold calcWeight
  exact compLoop_sens_length pow cfg (B.getD cellI []) cellI coeffsI nComp _

/-- The shock-sensor field left by the generic `calcWeight` does not depend on the output
buffer, and a second call on the field left by a first call changes nothing. -/
theorem calcWeight_sens_again {K : Type} [LinearOrderedField K] (pow : K → K → K)
    (cfg : WENOParams K) (B : List (List (List K))) (nComp : Nat) (cw cw' : List (List K))
    (cellI : Nat) (coeffsI : List (List (List K))) (sens : List (List K)) :
    (calcWeight pow cfg B nComp cw' cellI coeffsI
      (calcWeight pow cfg B nComp cw cellI coeffsI sens).2).2 =
      (calcWeight pow cfg B nComp cw cellI coeffsI sens).2 := by
  apply ext2
  · rw [calcWeight_sens_length]
  · intro k
    rw [calcWeight_sens_rowLen]
  · intro i j
    rw [calcWeight_sens_get2, calcWeight_sens_rowLen, calcWeight_sens_get2]
    by_cases h : i = cellI ∧ j < nComp ∧ j < (sens.getD cellI []).length
    · rw [if_pos h, if_pos h]
    · rw [if_neg h, if_neg h]

/-! ## Weights -/

theorem gammaStencil_pos {K : Type} [LinearOrderedField K] (pow : K → K → K)
    (cfg : WENOParams K) (hε : 0 < cfg.epsilon) (hdm : 1 ≤ cfg.dm)
    (hpow : ∀ x, 0 < x → 0 < pow x cfg.p) (s : Nat) (I : K) (hI : 0 ≤ I) :
    0 < gammaStencil pow cfg s I := by
  have hp : 0 < pow (cfg.epsilon + I) cfg.p := hpow _ (by linarith)
  unfold gammaStencil
  split
  · exact div_pos (by linarith) hp
  · exact div_pos one_pos hp

theorem sum_range_pos {K : Type} [LinearOrderedField K] (γ : Nat → K) (S : Nat) (hS : 0 < S)
    (hγ : ∀ s, s < S → 0 < γ s) : 0 < ∑ s in Finset.range S, γ s := by
  apply Finset.sum_pos
  · intro s hs
    exact hγ s (Finset.mem_range.1 hs)
  · exact ⟨0, Finset.mem_range.2 hS⟩

theorem weights_normalised {K : Type} [LinearOrderedField K] (γ : Nat → K) (S : Nat)
    (hS : 0 < S) (hγ : ∀ s, s < S → 0 < γ s) :
    (∑ s in Finset.range S, γ s / (∑ t in Finset.range S, γ t)) = 1 ∧
    ∀ s, s < S → 0 < γ s / (∑ t in Finset.range S, γ t) ∧
      γ s / (∑ t in Finset.range S, γ t) ≤ 1 := by
  have hG := sum_range_pos γ S hS hγ
  constructor
  · rw [← Finset.sum_div]
    exact div_self (ne_of_gt hG)
  · intro s hs
    refine ⟨div_pos (hγ s hs) hG, ?_⟩
    rw [div_le_one hG]
    exact Finset.single_le_sum (f := γ) (fun t ht => le_of_lt (hγ t (Finset.mem_range.1 ht)))
      (Finset.mem_range.2 hs)

theorem getD_of_all_eq {α : Type} (l : List α) (v d : α) (h : ∀ c ∈ l, c = v) (s : Nat)
    (hs : s < l.length) : l.getD s d = v := by
  rw [List.getD_eq_getElem l d hs]
  exact h _ (List.getElem_mem hs)

/-! ## Claims -/

/-- C1 (the claim fails on the code, evaluated at a failing input): one cell, one component,
oscillation matrix `[[1]]`, two stencils with coefficients `2` and `1`. The smoothness
indicators are `4` and `1`, so their maximum is `4`, but the generic `calcWeight` stores `1`
(the indicator of the last stencil) in the shock-sensor field, whereas the scalar
specialisation stores the maximum `4` on the same data. -/
theorem C1_generic_sensor_not_max :
    indicatorComp [[1]] [[[2]], [[1]]] 0 0 = (4 : ℚ) ∧
    indicatorComp [[1]] [[[2]], [[1]]] 0 1 = (1 : ℚ) ∧
    get2 (calcWeight powNat ⟨1, 1, 1⟩ [[[1]]] 1 [[0]] 0 [[[2]], [[1]]] [[0]]).2 0 0 = (1 : ℚ) ∧
    (calcWeightScalar powNat ⟨1, 1, 1⟩ [[[1]]] [0] 0 [[2], [1]] [0]).2.getD 0 0 = (4 : ℚ) := by
  refine ⟨?_, ?_, ?_, ?_⟩
  · norm_num [indicatorComp, smoothIndComp, sumBLoop, forAll, List.range, List.range.loop,
      get2, matAt]
  · norm_num [indicatorComp, smoothIndComp, sumBLoop, forAll, List.range, List.range.loop,
      get2, matAt]
  · simp [calcWeight, forAll, compBody, stencilLoopComp, stencilBodyComp, get2, set2, foamMax,
      List.range, List.range.loop, smoothIndComp, sumBLoop, blendLoopComp, gammaStencil, matAt,
      powNat]
  · simp [calcWeightScalar, forAll, stencilLoop, stencilBody, foamMax, List.range,
      List.range.loop, smoothIndScalar, dot, matVec, blendLoop, gammaStencil, powNat]
    norm_num

/-- C2: scalar path. For every cell index inside the shock-sensor field and every non-empty
stencil list, the value that the scalar `calcWeight` stores at `WENOShockSensor[cellI]` is the
maximum over the stencils of the smoothness indicator `trans(c_s) * (B[cellI] * c_s)`: it is
an upper bound of every stencil's indicator and it is the indicator of some stencil. -/
theorem C2_scalar_sensor_is_max {K : Type} [LinearOrderedField K] (pow : K → K → K)
    (cfg : WENOParams K) (B : List (List (List K))) (cw : List K) (cellI : Nat)
    (coeffsI : List (List K)) (sens : List K)
    (hne : coeffsI ≠ []) (hcell : cellI < sens.length) :
    (∀ s, s < coeffsI.length →
      smoothIndScalar (B.getD cellI []) (coeffsI.getD s []) ≤
        (calcWeightScalar pow cfg B cw cellI coeffsI sens).2.getD cellI 0) ∧
    (∃ s, s < coeffsI.length ∧
      (calcWeightScalar pow cfg B cw cellI coeffsI sens).2.getD cellI 0 =
        smoothIndScalar (B.getD cellI []) (coeffsI.getD s [])) := by
  have hval : (calcWeightScalar pow cfg B cw cellI coeffsI sens).2.getD cellI 0 =
      foamMax (stencilLoop pow cfg (B.getD cellI []) coeffsI cw).smoothIndList := by
    show (List.set _ _ _).getD cellI 0 = _
    rw [getD_set_eq, if_pos ⟨rfl, hcell⟩]
  have hlen := stencilLoop_sil_length pow cfg (B.getD cellI []) coeffsI cw
  have hpos : 0 < coeffsI.length := List.length_pos.2 hne
  rw [hval]
  constructor
  · intro s hs
    apply le_foamMax
    rw [mem_iff_getD]
    exact ⟨s, by omega, stencilLoop_sil_getD pow cfg (B.getD cellI []) coeffsI cw s hs⟩
  · have hmem := foamMax_mem (stencilLoop pow cfg (B.getD cellI []) coeffsI cw).smoothIndList
      (by
        intro h0
        rw [h0] at hlen
        simp at hlen
        omega)
    obtain ⟨s, hs, e⟩ := (mem_iff_getD _ _).1 hmem
    rw [hlen] at hs
    refine ⟨s, hs, ?_⟩
    rw [← e, stencilLoop_sil_getD pow cfg (B.getD cellI []) coeffsI cw s hs]
    rfl

/-- Witness of C2: identity oscillation matrix, two stencils `[3]` and `[2]` (indicators
`9` and `4`), a one-cell sensor field. -/
theorem C2_scalar_sensor_is_max_witness :
    ([[3], [2]] : List (List ℚ)) ≠ [] ∧ 0 < ([0] : List ℚ).length ∧
    (∀ s, s < ([[3], [2]] : List (List ℚ)).length →
      smoothIndScalar (([[[1]]] : List (List (List ℚ))).getD 0 [])
          (([[3], [2]] : List (List ℚ)).getD s []) ≤
        (calcWeightScalar powNat ⟨1, 1, 1⟩ [[[1]]] [0] 0 [[3], [2]] [0]).2.getD 0 0) ∧
    (∃ s, s < ([[3], [2]] : List (List ℚ)).length ∧
      (calcWeightScalar powNat ⟨1, 1, 1⟩ [[[1]]] [0] 0 [[3], [2]] [0]).2.getD 0 0 =
        smoothIndScalar (([[[1]]] : List (List (List ℚ))).getD 0 [])
          (([[3], [2]] : List (List ℚ)).getD s [])) :=
  ⟨by simp, by simp,
    C2_scalar_sensor_is_max powNat ⟨1, 1, 1⟩ [[[1]]] [0] 0 [[3], [2]] [0] (by simp) (by simp)⟩

/-- C3: started on a zero-filled output buffer of length `n`, `calcWeight` leaves, for every
`k < n`, `hybrid[k] = (Σ_s gamma_s * coeffs_s[k]) / gammaSum`, where `gamma_0 = dm / (epsilon +
I_0)^p`, `gamma_s = 1 / (epsilon + I_s)^p` for `s ≥ 1`, the loop variable `gammaSum` is the sum
of the `gamma_s` and `I_s` is the smoothness indicator of stencil `s`; the single deferred
division equals the per-term normalised weighting `Σ_s (gamma_s / gammaSum) * coeffs_s[k]`.
First the scalar path, then the generic path for every component `j < nComp` (buffer of `n`
entries with `nComp` zero components each). It holds for every stencil list, non-empty with
vectors of length `n` or not. -/
theorem C3_hybrid_is_weighted_blend {K : Type} [LinearOrderedField K] (pow : K → K → K)
    (cfg : WENOParams K) (B : List (List (List K))) (cellI n k : Nat) (hk : k < n) :
    (∀ I : K, gammaStencil pow cfg 0 I = cfg.dm / pow (cfg.epsilon + I) cfg.p ∧
      ∀ s, 1 ≤ s → gammaStencil pow cfg s I = 1 / pow (cfg.epsilon + I) cfg.p) ∧
    (∀ (coeffsI : List (List K)) (sens : List K),
      (stencilLoop pow cfg (B.getD cellI []) coeffsI (List.replicate n 0)).gammaSum =
        ∑ s in Finset.range coeffsI.length,
          gammaStencil pow cfg s (smoothIndScalar (B.getD cellI []) (coeffsI.getD s [])) ∧
      (calcWeightScalar pow cfg B (List.replicate n 0) cellI coeffsI sens).1.getD k 0 =
        (∑ s in Finset.range coeffsI.length,
          gammaStencil pow cfg s (smoothIndScalar (B.getD cellI []) (coeffsI.getD s [])) *
            (coeffsI.getD s []).getD k 0) /
        (stencilLoop pow cfg (B.getD cellI []) coeffsI (List.replicate n 0)).gammaSum ∧
      (calcWeightScalar pow cfg B (List.replicate n 0) cellI coeffsI sens).1.getD k 0 =
        ∑ s in Finset.range coeffsI.length,
          (gammaStencil pow cfg s (smoothIndScalar (B.getD cellI []) (coeffsI.getD s [])) /
            (stencilLoop pow cfg (B.getD cellI []) coeffsI (List.replicate n 0)).gammaSum) *
            (coeffsI.getD s []).getD k 0) ∧
    (∀ (nComp j : Nat), j < nComp →
      ∀ (coeffsI : List (List (List K))) (sens : List (List K)) (g : K) (cw0 : List (List K)),
      (stencilLoopComp pow cfg (B.getD cellI []) coeffsI j g cw0).gammaSum =
        ∑ s in Finset.range coeffsI.length,
          gammaStencil pow cfg s (smoothIndComp (B.getD cellI []) (coeffsI.getD s []) j) ∧
      get2 (calcWeight pow cfg B nComp (List.replicate n (List.replicate nComp 0)) cellI
          coeffsI sens).1 k j =
        (∑ s in Finset.range coeffsI.length,
          gammaStencil pow cfg s (smoothIndComp (B.getD cellI []) (coeffsI.getD s []) j) *
            get2 (coeffsI.getD s []) k j) /
        (stencilLoopComp pow cfg (B.getD cellI []) coeffsI j g cw0).gammaSum ∧
      get2 (calcWeight pow cfg B nComp (List.replicate n (List.replicate nComp 0)) cellI
          coeffsI sens).1 k j =
        ∑ s in Finset.range coeffsI.length,
          (gammaStencil pow cfg s (smoothIndComp (B.getD cellI []) (coeffsI.getD s []) j) /
            (stencilLoopComp pow cfg (B.getD cellI []) coeffsI j g cw0).gammaSum) *
            get2 (coeffsI.getD s []) k j) := by
  refine ⟨?_, ?_, ?_⟩
  · intro I
    refine ⟨by simp [gammaStencil], ?_⟩
    intro s hs
    have : s ≠ 0 := by omega
    simp [gammaStencil, this]
  · intro coeffsI sens
    have hG := stencilLoop_gammaSum pow cfg (B.getD cellI []) coeffsI (List.replicate n 0)
    have hH := calcWeightScalar_getD pow cfg B (List.replicate n 0) cellI coeffsI sens k
    have hz : (List.replicate n (0 : K)).getD k 0 = 0 := by simp
    rw [List.length_replicate, if_pos hk, hz, zero_add] at hH
    refine ⟨hG, ?_, ?_⟩
    · rw [hH]
      congr 1
      apply Finset.sum_congr rfl
      intro s _
      rw [mul_comm]
      rfl
    · rw [hH, Finset.sum_div]
      apply Finset.sum_congr rfl
      intro s _
      rw [div_mul_eq_mul_div, mul_comm]
      rfl
  · intro nComp j hj coeffsI sens g cw0
    have hG := stencilLoopComp_gammaSum pow cfg (B.getD cellI []) coeffsI j g cw0
    have hH := calcWeight_get2 pow cfg B nComp (List.replicate n (List.replicate nComp 0))
      cellI coeffsI sens k j
    have hrow : ((List.replicate n (List.replicate nComp (0 : K))).getD k []).length = nComp := by
      rw [replicate_getD n k _ _ hk, List.length_replicate]
    have hz := @get2_replicate_zero K _ n nComp k j
    rw [hrow, if_pos ⟨hj, hj⟩, hz, zero_add, ← hG] at hH
    refine ⟨hG, ?_, ?_⟩
    · rw [hH]
      congr 1
      apply Finset.sum_congr rfl
      intro s _
      rw [mul_comm]
      rfl
    · rw [hH, Finset.sum_div]
      apply Finset.sum_congr rfl
      intro s _
      rw [div_mul_eq_mul_div, mul_comm]
      rfl

/-- Witness of C3: the scenario of the specification (identity oscillation matrix, stencils
`[1,0,0]` and `[0,1,0]`), entry `k = 0` of a zero buffer of length `3`. -/
theorem C3_hybrid_is_weighted_blend_witness :
    (0 : Nat) < 3 ∧
    (calcWeightScalar powNat ⟨1 / 1000000, 2, 1000⟩ [[[1, 0, 0], [0, 1, 0], [0, 0, 1]]]
        (List.replicate 3 0) 0 [[1, 0, 0], [0, 1, 0]] [0]).1.getD 0 0 =
      (∑ s in Finset.range ([[1, 0, 0], [0, 1, 0]] : List (List ℚ)).length,
        gammaStencil powNat ⟨1 / 1000000, 2, 1000⟩ s
            (smoothIndScalar
              (([[[1, 0, 0], [0, 1, 0], [0, 0, 1]]] : List (List (List ℚ))).getD 0 [])
              (([[1, 0, 0], [0, 1, 0]] : List (List ℚ)).getD s [])) *
          (([[1, 0, 0], [0, 1, 0]] : List (List ℚ)).getD s []).getD 0 0) /
      (stencilLoop powNat ⟨1 / 1000000, 2, 1000⟩
        (([[[1, 0, 0], [0, 1, 0], [0, 0, 1]]] : List (List (List ℚ))).getD 0 [])
        [[1, 0, 0], [0, 1, 0]] (List.replicate 3 0)).gammaSum :=
  ⟨by decide,
    ((C3_hybrid_is_weighted_blend powNat ⟨1 / 1000000, 2, 1000⟩
      [[[1, 0, 0], [0, 1, 0], [0, 0, 1]]] 0 3 0 (by decide)).2.1
      [[1, 0, 0], [0, 1, 0]] [0]).2.1⟩

/-- C4 (the claim as stated fails): the scalar `calcWeight` on the same cell, stencil and
configuration, started on the buffers `[0]` and `[1]` of the same length, leaves `[1]` and
`[3]`: the result depends on what the buffer held before the call. -/
theorem C4_buffer_overwritten_counterexample :
    ([0] : List ℚ).length = ([1] : List ℚ).length ∧
    (calcWeightScalar powNat ⟨1, 1, 1⟩ [[[1]]] [0] 0 [[1]] [0]).1 = [1] ∧
    (calcWeightScalar powNat ⟨1, 1, 1⟩ [[[1]]] [1] 0 [[1]] [0]).1 = [3] ∧
    (calcWeightScalar powNat ⟨1, 1, 1⟩ [[[1]]] [0] 0 [[1]] [0]).1 ≠
      (calcWeightScalar powNat ⟨1, 1, 1⟩ [[[1]]] [1] 0 [[1]] [0]).1 := by
  have h0 : (calcWeightScalar powNat ⟨1, 1, 1⟩ [[[1]]] [0] 0 [[1]] [0]).1 = [1] := by
    simp [calcWeightScalar, forAll, stencilLoop, stencilBody, List.range, List.range.loop,
      smoothIndScalar, dot, matVec, blendLoop, gammaStencil, powNat_one]
  have h1 : (calcWeightScalar powNat ⟨1, 1, 1⟩ [[[1]]] [1] 0 [[1]] [0]).1 = [3] := by
    simp [calcWeightScalar, forAll, stencilLoop, stencilBody, List.range, List.range.loop,
      smoothIndScalar, dot, matVec, blendLoop, gammaStencil, powNat_one]
    norm_num
  refine ⟨rfl, h0, h1, ?_⟩
  rw [h0, h1]
  decide

/-- C4 (amended): `calcWeight` accumulates onto the caller's output buffer instead of
overwriting it. For two initial contents of the same shape the hybrid coefficients left in the
buffer differ, entry by entry, by the difference of the initial entries divided by `gammaSum`
(scalar path: every index `k`; generic path: every index `k` and component `j < nComp`), and
`gammaSum` itself does not depend on the buffer. -/
theorem C4_buffer_accumulated {K : Type} [LinearOrderedField K] (pow : K → K → K)
    (cfg : WENOParams K) (B : List (List (List K))) (cellI : Nat) :
    (∀ (coeffsI : List (List K)) (sens cw1 cw2 : List K) (k : Nat),
      cw1.length = cw2.length →
      (stencilLoop pow cfg (B.getD cellI []) coeffsI cw1).gammaSum =
        (stencilLoop pow cfg (B.getD cellI []) coeffsI cw2).gammaSum ∧
      (calcWeightScalar pow cfg B cw1 cellI coeffsI sens).1.getD k 0 -
        (calcWeightScalar pow cfg B cw2 cellI coeffsI sens).1.getD k 0 =
        (cw1.getD k 0 - cw2.getD k 0) /
          (stencilLoop pow cfg (B.getD cellI []) coeffsI cw1).gammaSum) ∧
    (∀ (nComp : Nat) (coeffsI : List (List (List K))) (sens cw1 cw2 : List (List K))
      (k j : Nat), j < nComp →
      (∀ i, (cw1.getD i []).length = (cw2.getD i []).length) →
      (stencilLoopComp pow cfg (B.getD cellI []) coeffsI j 0 cw1).gammaSum =
        (stencilLoopComp pow cfg (B.getD cellI []) coeffsI j 0 cw2).gammaSum ∧
      get2 (calcWeight pow cfg B nComp cw1 cellI coeffsI sens).1 k j -
        get2 (calcWeight pow cfg B nComp cw2 cellI coeffsI sens).1 k j =
        (get2 cw1 k j - get2 cw2 k j) /
          (stencilLoopComp pow cfg (B.getD cellI []) coeffsI j 0 cw1).gammaSum) := by
  constructor
  · intro coeffsI sens cw1 cw2 k hlen
    refine ⟨by rw [stencilLoop_gammaSum, stencilLoop_gammaSum], ?_⟩
    rw [calcWeightScalar_getD, calcWeightScalar_getD, hlen, stencilLoop_gammaSum,
      stencilLoop_gammaSum, ← sub_div]
    congr 1
    ring
  · intro nComp coeffsI sens cw1 cw2 k j hj hrow
    refine ⟨by rw [stencilLoopComp_gammaSum, stencilLoopComp_gammaSum], ?_⟩
    rw [calcWeight_get2, calcWeight_get2, hrow k, stencilLoopComp_gammaSum]
    by_cases hl : j < (cw2.getD k []).length
    · rw [if_pos ⟨hj, hl⟩, if_pos ⟨hj, hl⟩, ← sub_div]
      congr 1
      ring
    · rw [if_neg (fun h => hl h.2), if_neg (fun h => hl h.2),
        get2_eq_zero cw2 k j hl, get2_eq_zero cw1 k j (by rw [hrow k]; exact hl)]
      simp

/-- Witness of C4 (amended): the buffers `[0]` and `[1]` of the counterexample; the two
results `1` and `3` differ by `(0 - 1) / gammaSum` with `gammaSum = 1/2`. -/
theorem C4_buffer_accumulated_witness :
    ([0] : List ℚ).length = ([1] : List ℚ).length ∧
    (calcWeightScalar powNat ⟨1, 1, 1⟩ [[[1]]] [0] 0 [[1]] [0]).1.getD 0 0 -
        (calcWeightScalar powNat ⟨1, 1, 1⟩ [[[1]]] [1] 0 [[1]] [0]).1.getD 0 0 =
      (([0] : List ℚ).getD 0 0 - ([1] : List ℚ).getD 0 0) /
        (stencilLoop powNat ⟨1, 1, 1⟩ (([[[1]]] : List (List (List ℚ))).getD 0 []) [[1]]
          [0]).gammaSum :=
  ⟨rfl, ((C4_buffer_accumulated powNat ⟨1, 1, 1⟩ [[[1]]] 0).1 [[1]] [0] [0] [1] 0 rfl).2⟩

/-- C5 (the claim as stated fails): a first scalar `calcWeight` on the zero buffer `[0]` leaves
`[1]`; a second call on the state left by the first, with every input unchanged, leaves `[3]`.
The shock-sensor field is `[1]` after both calls. -/
theorem C5_idempotent_counterexample :
    calcWeightScalar powNat ⟨1, 1, 1⟩ [[[1]]] [0] 0 [[1]] [0] = ([1], [1]) ∧
    calcWeightScalar powNat ⟨1, 1, 1⟩ [[[1]]]
      (calcWeightScalar powNat ⟨1, 1, 1⟩ [[[1]]] [0] 0 [[1]] [0]).1 0 [[1]]
      (calcWeightScalar powNat ⟨1, 1, 1⟩ [[[1]]] [0] 0 [[1]] [0]).2 = ([3], [1]) ∧
    (calcWeightScalar powNat ⟨1, 1, 1⟩ [[[1]]]
      (calcWeightScalar powNat ⟨1, 1, 1⟩ [[[1]]] [0] 0 [[1]] [0]).1 0 [[1]]
      (calcWeightScalar powNat ⟨1, 1, 1⟩ [[[1]]] [0] 0 [[1]] [0]).2).1 ≠
      (calcWeightScalar powNat ⟨1, 1, 1⟩ [[[1]]] [0] 0 [[1]] [0]).1 := by
  have h0 : calcWeightScalar powNat ⟨1, 1, 1⟩ [[[1]]] [0] 0 [[1]] [0] = ([1], [1]) := by
    simp [calcWeightScalar, forAll, stencilLoop, stencilBody, List.range, List.range.loop,
      smoothIndScalar, dot, matVec, blendLoop, gammaStencil, powNat_one, foamMax]
  have h1 : calcWeightScalar powNat ⟨1, 1, 1⟩ [[[1]]] [1] 0 [[1]] [1] = ([3], [1]) := by
    simp [calcWeightScalar, forAll, stencilLoop, stencilBody, List.range, List.range.loop,
      smoothIndScalar, dot, matVec, blendLoop, gammaStencil, powNat_one, foamMax]
    norm_num
  refine ⟨h0, ?_, ?_⟩
  · rw [h0]
    exact h1
  · rw [h0]
    show (calcWeightScalar powNat ⟨1, 1, 1⟩ [[[1]]] [1] 0 [[1]] [1]).1 ≠ [1]
    rw [h1]
    decide

/-- C5 (amended): calling `calcWeight` a second time on the state left by a first call, with
the oscillation matrix, stencil coefficients and configuration unchanged, leaves the
shock-sensor field identical to what it was after the first call; the hybrid coefficients are
accumulated again: entry `k` (component `j`) becomes
`(hybrid1[k] + Σ_s gamma_s * coeffs_s[k]) / gammaSum`. Scalar path, then generic path. -/
theorem C5_second_call {K : Type} [LinearOrderedField K] (pow : K → K → K)
    (cfg : WENOParams K) (B : List (List (List K))) (cellI : Nat) :
    (∀ (coeffsI : List (List K)) (cw sens : List K) (k : Nat), k < cw.length →
      (calcWeightScalar pow cfg B (calcWeightScalar pow cfg B cw cellI coeffsI sens).1 cellI
        coeffsI (calcWeightScalar pow cfg B cw cellI coeffsI sens).2).2 =
        (calcWeightScalar pow cfg B cw cellI coeffsI sens).2 ∧
      (calcWeightScalar pow cfg B (calcWeightScalar pow cfg B cw cellI coeffsI sens).1 cellI
        coeffsI (calcWeightScalar pow cfg B cw cellI coeffsI sens).2).1.getD k 0 =
        ((calcWeightScalar pow cfg B cw cellI coeffsI sens).1.getD k 0 +
          ∑ s in Finset.range coeffsI.length,
            (coeffsI.getD s []).getD k 0 *
              gammaStencil pow cfg s
                (smoothIndScalar (B.getD cellI []) (coeffsI.getD s []))) /
          (stencilLoop pow cfg (B.getD cellI []) coeffsI cw).gammaSum) ∧
    (∀ (nComp : Nat) (coeffsI : List (List (List K))) (cw sens : List (List K)) (k j : Nat),
      j < nComp → j < (cw.getD k []).length →
      (calcWeight pow cfg B nComp (calcWeight pow cfg B nComp cw cellI coeffsI sens).1 cellI
        coeffsI (calcWeight pow cfg B nComp cw cellI coeffsI sens).2).2 =
        (calcWeight pow cfg B nComp cw cellI coeffsI sens).2 ∧
      get2 (calcWeight pow cfg B nComp (calcWeight pow cfg B nComp cw cellI coeffsI sens).1
        cellI coeffsI (calcWeight pow cfg B nComp cw cellI coeffsI sens).2).1 k j =
        (get2 (calcWeight pow cfg B nComp cw cellI coeffsI sens).1 k j +
          ∑ s in Finset.range coeffsI.length,
            get2 (coeffsI.getD s []) k j *
              gammaStencil pow cfg s
                (smoothIndComp (B.getD cellI []) (coeffsI.getD s []) j)) /
          (stencilLoopComp pow cfg (B.getD cellI []) coeffsI j 0 cw).gammaSum) := by
  constructor
  · intro coeffsI cw sens k hk
    constructor
    · rw [calcWeightScalar_sens, calcWeightScalar_sens, List.set_set]
    · rw [calcWeightScalar_getD, calcWeightScalar_length, if_pos hk, stencilLoop_gammaSum,
        stencilLoop_gammaSum]
      rfl
  · intro nComp coeffsI cw sens k j hj hl
    constructor
    · exact calcWeight_sens_again pow cfg B nComp cw _ cellI coeffsI sens
    · rw [calcWeight_get2, calcWeight_rowLen, if_pos ⟨hj, hl⟩, stencilLoopComp_gammaSum]
      rfl

/-- Witness of C5 (amended): the two successive calls of the counterexample, entry `k = 0`. -/
theorem C5_second_call_witness :
    (0 : Nat) < ([0] : List ℚ).length ∧
    (calcWeightScalar powNat ⟨1, 1, 1⟩ [[[1]]]
      (calcWeightScalar powNat ⟨1, 1, 1⟩ [[[1]]] [0] 0 [[1]] [0]).1 0 [[1]]
      (calcWeightScalar powNat ⟨1, 1, 1⟩ [[[1]]] [0] 0 [[1]] [0]).2).2 =
      (calcWeightScalar powNat ⟨1, 1, 1⟩ [[[1]]] [0] 0 [[1]] [0]).2 :=
  ⟨by decide,
    ((C5_second_call powNat ⟨1, 1, 1⟩ [[[1]]] 0).1 [[1]] [0] [0] 0 (by decide)).1⟩

/-- C6 (the claim as stated fails): with every stencil carrying the same vector,
(i) on an output buffer that is not zero on entry (`[5]`) the scalar `calcWeight` leaves `[6]`,
not `v = [1]`; (ii) with the oscillation matrix `[[-1]]` and `epsilon = 1` the indicator is
`-1`, `pow(epsilon + I, p) = 0`, and on the zero buffer the hybrid output of the exact
embedding is `[0]` (in floating point the two divisions by zero give a not-a-number), not
`[1]`; (iii) in the code's double arithmetic, two stencils `[3]`, `epsilon = p = dm = 1` and a
zero buffer leave `3 + 2^-51 = 3.0000000000000004`, not `3`. -/
theorem C6_identical_stencils_counterexample :
    (calcWeightScalar powNat ⟨1, 1, 1⟩ [[[1]]] [5] 0 [[1], [1]] [0]).1 = [6] ∧
    (calcWeightScalar powNat ⟨1, 1, 1⟩ [[[1]]] [5] 0 [[1], [1]] [0]).1 ≠ [1] ∧
    powNat (1 + smoothIndScalar [[-1]] [1]) 1 = 0 ∧
    (calcWeightScalar powNat ⟨1, 1, 1⟩ [[[-1]]] [0] 0 [[1], [1]] [0]).1 ≠ [1] ∧
    calcWeightScalarD powDbl ⟨Dbl.fin 1, Dbl.fin 1, Dbl.fin 1⟩ [[[Dbl.fin 1]]] [Dbl.fin 0] 0
        [[Dbl.fin 3], [Dbl.fin 3]] [Dbl.fin 0] =
      ([Dbl.fin (3 + 1 / 2 ^ 51)], [Dbl.fin 9]) ∧
    (calcWeightScalarD powDbl ⟨Dbl.fin 1, Dbl.fin 1, Dbl.fin 1⟩ [[[Dbl.fin 1]]] [Dbl.fin 0] 0
        [[Dbl.fin 3], [Dbl.fin 3]] [Dbl.fin 0]).1 ≠ [Dbl.fin 3] := by
  have h0 : (calcWeightScalar powNat ⟨1, 1, 1⟩ [[[1]]] [5] 0 [[1], [1]] [0]).1 = [6] := by
    simp [calcWeightScalar, forAll, stencilLoop, stencilBody, List.range, List.range.loop,
      smoothIndScalar, dot, matVec, blendLoop, gammaStencil, powNat_one]
    norm_num
  have h1 : (calcWeightScalar powNat ⟨1, 1, 1⟩ [[[-1]]] [0] 0 [[1], [1]] [0]).1 = [0] := by
    simp [calcWeightScalar, forAll, stencilLoop, stencilBody, List.range, List.range.loop,
      smoothIndScalar, dot, matVec, blendLoop, gammaStencil, powNat_one]
  refine ⟨h0, ?_, ?_, ?_, by decide!, by decide!⟩
  · rw [h0]
    decide
  · simp [smoothIndScalar, dot, matVec, powNat_one]
  · rw [h1]
    decide

/-- C6 (amended), over exact arithmetic: if every stencil of the cell (at least one) carries
the same coefficient vector `v` of length `n`, `calcWeight` is started on a zero-filled buffer of length `n`, and
the smoothness indicator of `v` is non-negative (so that `epsilon + I > 0`), then for every
`epsilon > 0`, `dm ≥ 1` and every `pow` positive on positive bases the hybrid output equals
`v` exactly. Scalar path, then generic path (entries of `nComp` components). -/
theorem C6_identical_stencils {K : Type} [LinearOrderedField K] (pow : K → K → K)
    (cfg : WENOParams K) (B : List (List (List K))) (cellI : Nat)
    (hε : 0 < cfg.epsilon) (hdm : 1 ≤ cfg.dm) (hpow : ∀ x, 0 < x → 0 < pow x cfg.p) :
    (∀ (coeffsI : List (List K)) (v sens : List K), coeffsI ≠ [] →
      (∀ c ∈ coeffsI, c = v) → 0 ≤ smoothIndScalar (B.getD cellI []) v →
      (calcWeightScalar pow cfg B (List.replicate v.length 0) cellI coeffsI sens).1 = v) ∧
    (∀ (nComp : Nat) (coeffsI : List (List (List K))) (v sens : List (List K)),
      coeffsI ≠ [] → (∀ c ∈ coeffsI, c = v) → (∀ row ∈ v, row.length = nComp) →
      (∀ j, j < nComp → 0 ≤ smoothIndComp (B.getD cellI []) v j) →
      (calcWeight pow cfg B nComp (List.replicate v.length (List.replicate nComp 0)) cellI
        coeffsI sens).1 = v) := by
  constructor
  · intro coeffsI v sens hne hall hI
    have hS : 0 < coeffsI.length := List.length_pos.2 hne
    have hγ : ∀ s, s < coeffsI.length → 0 < gammaOf pow cfg (B.getD cellI []) coeffsI s := by
      intro s hs
      unfold gammaOf indicator
      rw [getD_of_all_eq coeffsI v [] hall s hs]
      exact gammaStencil_pos pow cfg hε hdm hpow s _ hI
    have hG := sum_range_pos _ coeffsI.length hS hγ
    apply List.ext_getElem
    · rw [calcWeightScalar_length, List.length_replicate]
    · intro k h1 h2
      rw [← List.getD_eq_getElem _ 0 h1, ← List.getD_eq_getElem v 0 h2, calcWeightScalar_getD,
        List.length_replicate, if_pos h2, replicate_getD _ _ _ _ h2, zero_add,
        stencilLoop_gammaSum]
      have hsum : ∑ s in Finset.range coeffsI.length,
          (coeffsI.getD s []).getD k 0 * gammaOf pow cfg (B.getD cellI []) coeffsI s =
          v.getD k 0 * ∑ s in Finset.range coeffsI.length,
            gammaOf pow cfg (B.getD cellI []) coeffsI s := by
        rw [Finset.mul_sum]
        apply Finset.sum_congr rfl
        intro s hs
        rw [getD_of_all_eq coeffsI v [] hall s (Finset.mem_range.1 hs)]
      rw [hsum]
      exact mul_div_cancel_right₀ _ (ne_of_gt hG)
  · intro nComp coeffsI v sens hne hall hrows hI
    have hS : 0 < coeffsI.length := List.length_pos.2 hne
    have hrowv : ∀ k, k < v.length → (v.getD k []).length = nComp := by
      intro k hk
      rw [List.getD_eq_getElem v [] hk]
      exact hrows _ (List.getElem_mem hk)
    have hrowb : ∀ k, k < v.length →
        ((List.replicate v.length (List.replicate nComp (0 : K))).getD k []).length = nComp := by
      intro k hk
      rw [replicate_getD _ _ _ _ hk, List.length_replicate]
    apply ext2
    · rw [calcWeight_length, List.length_replicate]
    · intro k
      rw [calcWeight_rowLen]
      by_cases hk : k < v.length
      · rw [hrowb k hk, hrowv k hk]
      · rw [List.getD_eq_default _ _ (by simpa using hk), List.getD_eq_default v _ (by omega)]
    · intro k j
      rw [calcWeight_get2, get2_replicate_zero, zero_add]
      by_cases hk : k < v.length
      · rw [hrowb k hk]
        by_cases hj : j < nComp
        · rw [if_pos ⟨hj, hj⟩]
          have hγ : ∀ s, s < coeffsI.length →
              0 < gammaOfComp pow cfg (B.getD cellI []) coeffsI j s := by
            intro s hs
            unfold gammaOfComp indicatorComp
            rw [getD_of_all_eq coeffsI v [] hall s hs]
            exact gammaStencil_pos pow cfg hε hdm hpow s _ (hI j hj)
          have hG := sum_range_pos _ coeffsI.length hS hγ
          have hsum : ∑ s in Finset.range coeffsI.length,
              get2 (coeffsI.getD s []) k j * gammaOfComp pow cfg (B.getD cellI []) coeffsI j s =
              get2 v k j * ∑ s in Finset.range coeffsI.length,
                gammaOfComp pow cfg (B.getD cellI []) coeffsI j s := by
            rw [Finset.mul_sum]
            apply Finset.sum_congr rfl
            intro s hs
            rw [getD_of_all_eq coeffsI v [] hall s (Finset.mem_range.1 hs)]
          rw [hsum]
          exact mul_div_cancel_right₀ _ (ne_of_gt hG)
        · rw [if_neg (fun h => hj h.1), get2_eq_zero v k j (by rw [hrowv k hk]; exact hj)]
      · have hz : get2 v k j = 0 := get2_eq_zero_of_length_le v k j (by omega)
        rw [if_neg, hz]
        intro h
        rw [List.getD_eq_default _ _ (by simpa using hk)] at h
        exact Nat.not_lt_zero _ h.2

/-- Witness of C6 (amended): identity oscillation matrix, three stencils carrying `[2, 3]`. -/
theorem C6_identical_stencils_witness :
    (0 : ℚ) < 1 ∧ (1 : ℚ) ≤ 1 ∧ (∀ x : ℚ, 0 < x → 0 < powNat x 1) ∧
    (calcWeightScalar powNat ⟨1, 1, 1⟩ [[[1, 0], [0, 1]]]
      (List.replicate ([2, 3] : List ℚ).length 0) 0 [[2, 3], [2, 3], [2, 3]] [0]).1 = [2, 3] :=
  ⟨by norm_num, le_refl _, fun x hx => powNat_pos x 1 hx,
    (C6_identical_stencils powNat ⟨1, 1, 1⟩ [[[1, 0], [0, 1]]] 0 (by norm_num) (le_refl _)
      (fun x hx => powNat_pos x 1 hx)).1 [[2, 3], [2, 3], [2, 3]] [2, 3] [0] (by simp)
      (by simp) (by norm_num [smoothIndScalar, dot, matVec])⟩

/-- C7: for every non-empty stencil list whose smoothness indicators are all positive, every
`epsilon > 0`, `dm ≥ 1` and every `pow` that is positive on positive bases (as `pow(x, p)` is
for `p > 0`), the normalised weights `gamma_s / gammaSum` formed from the values `calcWeight`
assigns to `gamma` and from its accumulated `gammaSum` sum to exactly `1`, and each of them
lies in `(0, 1]`. Scalar path, then generic path (for any component `j` and any state on entry
of that component's stencil loop). -/
theorem C7_normalised_weights_sum_to_one {K : Type} [LinearOrderedField K] (pow : K → K → K)
    (cfg : WENOParams K) (Bc : List (List K))
    (hε : 0 < cfg.epsilon) (hdm : 1 ≤ cfg.dm) (hpow : ∀ x, 0 < x → 0 < pow x cfg.p) :
    (∀ (coeffsI : List (List K)) (cw : List K), coeffsI ≠ [] →
      (∀ s, s < coeffsI.length → 0 < smoothIndScalar Bc (coeffsI.getD s [])) →
      (∑ s in Finset.range coeffsI.length,
        gammaStencil pow cfg s (smoothIndScalar Bc (coeffsI.getD s [])) /
          (stencilLoop pow cfg Bc coeffsI cw).gammaSum) = 1 ∧
      ∀ s, s < coeffsI.length →
        0 < gammaStencil pow cfg s (smoothIndScalar Bc (coeffsI.getD s [])) /
          (stencilLoop pow cfg Bc coeffsI cw).gammaSum ∧
        gammaStencil pow cfg s (smoothIndScalar Bc (coeffsI.getD s [])) /
          (stencilLoop pow cfg Bc coeffsI cw).gammaSum ≤ 1) ∧
    (∀ (coeffsI : List (List (List K))) (j : Nat) (g : K) (cw : List (List K)),
      coeffsI ≠ [] →
      (∀ s, s < coeffsI.length → 0 < smoothIndComp Bc (coeffsI.getD s []) j) →
      (∑ s in Finset.range coeffsI.length,
        gammaStencil pow cfg s (smoothIndComp Bc (coeffsI.getD s []) j) /
          (stencilLoopComp pow cfg Bc coeffsI j g cw).gammaSum) = 1 ∧
      ∀ s, s < coeffsI.length →
        0 < gammaStencil pow cfg s (smoothIndComp Bc (coeffsI.getD s []) j) /
          (stencilLoopComp pow cfg Bc coeffsI j g cw).gammaSum ∧
        gammaStencil pow cfg s (smoothIndComp Bc (coeffsI.getD s []) j) /
          (stencilLoopComp pow cfg Bc coeffsI j g cw).gammaSum ≤ 1) := by
  constructor
  · intro coeffsI cw hne hI
    rw [stencilLoop_gammaSum]
    exact weights_normalised (gammaOf pow cfg Bc coeffsI) coeffsI.length
      (List.length_pos.2 hne)
      (fun s hs => gammaStencil_pos pow cfg hε hdm hpow s _ (le_of_lt (hI s hs)))
  · intro coeffsI j g cw hne hI
    rw [stencilLoopComp_gammaSum]
    exact weights_normalised (gammaOfComp pow cfg Bc coeffsI j) coeffsI.length
      (List.length_pos.2 hne)
      (fun s hs => gammaStencil_pos pow cfg hε hdm hpow s _ (le_of_lt (hI s hs)))

/-- Witness of C7: identity oscillation matrix, stencils `[1]` and `[2]` (indicators `1` and
`4`), `epsilon = 1`, `p = 2`, `dm = 3`. -/
theorem C7_normalised_weights_sum_to_one_witness :
    (0 : ℚ) < 1 ∧ (1 : ℚ) ≤ 3 ∧ (∀ x : ℚ, 0 < x → 0 < powNat x 2) ∧
    ([[1], [2]] : List (List ℚ)) ≠ [] ∧
    (∀ s, s < ([[1], [2]] : List (List ℚ)).length →
      0 < smoothIndScalar [[1]] (([[1], [2]] : List (List ℚ)).getD s [])) ∧
    (∑ s in Finset.range ([[1], [2]] : List (List ℚ)).length,
      gammaStencil powNat ⟨1, 2, 3⟩ s
          (smoothIndScalar [[1]] (([[1], [2]] : List (List ℚ)).getD s [])) /
        (stencilLoop powNat ⟨1, 2, 3⟩ [[1]] [[1], [2]] [0]).gammaSum) = 1 :=
  have hI : ∀ s, s < ([[1], [2]] : List (List ℚ)).length →
      0 < smoothIndScalar [[1]] (([[1], [2]] : List (List ℚ)).getD s []) := by
    intro s hs
    have h2 : s < 2 := hs
    interval_cases s <;> norm_num [smoothIndScalar, dot, matVec]
  ⟨by norm_num, by norm_num, fun x hx => powNat_pos x 2 hx, by simp, hI,
    ((C7_normalised_weights_sum_to_one powNat ⟨1, 2, 3⟩ [[1]] (by norm_num) (by norm_num)
      (fun x hx => powNat_pos x 2 hx)).1 [[1], [2]] [0] (by simp) hI).1⟩

/-- C8 (the claim as stated fails): (i) with a single stencil, `dm = 2 > 1`, `epsilon = 1`,
`p = 1` and indicator `1`, the central weight `gamma_0 / gammaSum` equals `1 = 1/S`; it is not
strictly greater than `1/S`; (ii) in the code's double arithmetic, two stencils `[3]` with the
equal indicators `9`, `epsilon = 1e-6`, `p = 400` and `dm = 1000 > 1` give `pow = +inf`,
`gamma_0 = 0` and `gammaSum = 0`, so that `gamma_0 / gammaSum` is not-a-number and not greater
than `1/2`. -/
theorem C8_central_weight_counterexample :
    ([[1]] : List (List ℚ)).length = 1 ∧ (1 : ℚ) < 2 ∧
    smoothIndScalar [[1]] (([[1]] : List (List ℚ)).getD 0 []) = (1 : ℚ) ∧
    gammaStencil powNat ⟨1, 1, 2⟩ 0 (smoothIndScalar [[1]] (([[1]] : List (List ℚ)).getD 0 [])) /
      (stencilLoop powNat ⟨1, 1, 2⟩ [[1]] [[1]] [0]).gammaSum = 1 ∧
    ¬ ((1 : ℚ) / (([[1]] : List (List ℚ)).length : ℚ) <
      gammaStencil powNat ⟨1, 1, 2⟩ 0
          (smoothIndScalar [[1]] (([[1]] : List (List ℚ)).getD 0 [])) /
        (stencilLoop powNat ⟨1, 1, 2⟩ [[1]] [[1]] [0]).gammaSum) ∧
    smoothIndScalarD [[Dbl.fin 1]] [Dbl.fin 3] = Dbl.fin 9 ∧
    gammaStencilD powDbl ⟨roundDbl (1 / 1000000), Dbl.fin 400, Dbl.fin 1000⟩ 0
      (smoothIndScalarD [[Dbl.fin 1]] [Dbl.fin 3]) = Dbl.fin 0 ∧
    (stencilLoopD powDbl ⟨roundDbl (1 / 1000000), Dbl.fin 400, Dbl.fin 1000⟩ [[Dbl.fin 1]]
      [[Dbl.fin 3], [Dbl.fin 3]] [Dbl.fin 0]).gammaSum = Dbl.fin 0 ∧
    Dbl.div
      (gammaStencilD powDbl ⟨roundDbl (1 / 1000000), Dbl.fin 400, Dbl.fin 1000⟩ 0
        (smoothIndScalarD [[Dbl.fin 1]] [Dbl.fin 3]))
      (stencilLoopD powDbl ⟨roundDbl (1 / 1000000), Dbl.fin 400, Dbl.fin 1000⟩ [[Dbl.fin 1]]
        [[Dbl.fin 3], [Dbl.fin 3]] [Dbl.fin 0]).gammaSum = Dbl.nan ∧
    Dbl.gt
      (Dbl.div
        (gammaStencilD powDbl ⟨roundDbl (1 / 1000000), Dbl.fin 400, Dbl.fin 1000⟩ 0
          (smoothIndScalarD [[Dbl.fin 1]] [Dbl.fin 3]))
        (stencilLoopD powDbl ⟨roundDbl (1 / 1000000), Dbl.fin 400, Dbl.fin 1000⟩ [[Dbl.fin 1]]
          [[Dbl.fin 3], [Dbl.fin 3]] [Dbl.fin 0]).gammaSum)
      (Dbl.fin (1 / 2)) = false := by
  have hI : smoothIndScalar [[1]] (([[1]] : List (List ℚ)).getD 0 []) = (1 : ℚ) := by
    norm_num [smoothIndScalar, dot, matVec]
  have hw : gammaStencil powNat ⟨1, 1, 2⟩ 0
      (smoothIndScalar [[1]] (([[1]] : List (List ℚ)).getD 0 [])) /
      (stencilLoop powNat ⟨1, 1, 2⟩ [[1]] [[1]] [0]).gammaSum = 1 := by
    rw [stencilLoop_gammaSum]
    norm_num [gammaOf, indicator, gammaStencil, smoothIndScalar, dot, matVec, powNat_one,
      Finset.sum_range_succ]
  refine ⟨rfl, by norm_num, hI, hw, ?_, by decide!, by decide!, by decide!, by decide!,
    by decide!⟩
  rw [hw]
  norm_num

/-- C8 (amended), over exact arithmetic: for every stencil list with `S ≥ 1` stencils whose
indicators are all equal to one non-negative value `I`, every `epsilon > 0`, every `dm > 1` and
every `pow` positive on positive bases, the central stencil's normalised weight
`gamma_0 / gammaSum` is at least `1/S`, it is strictly greater than `1/S` as soon as `S ≥ 2`,
and it equals `1` for `S = 1`. -/
theorem C8_central_weight {K : Type} [LinearOrderedField K] (pow : K → K → K)
    (cfg : WENOParams K) (Bc : List (List K)) (coeffsI : List (List K)) (cw : List K) (I : K)
    (hne : coeffsI ≠ []) (hε : 0 < cfg.epsilon) (hdm : 1 < cfg.dm)
    (hpow : ∀ x, 0 < x → 0 < pow x cfg.p) (hI : 0 ≤ I)
    (heq : ∀ s, s < coeffsI.length → smoothIndScalar Bc (coeffsI.getD s []) = I) :
    (1 / (coeffsI.length : K) ≤
      gammaStencil pow cfg 0 (smoothIndScalar Bc (coeffsI.getD 0 [])) /
        (stencilLoop pow cfg Bc coeffsI cw).gammaSum) ∧
    (2 ≤ coeffsI.length →
      1 / (coeffsI.length : K) <
        gammaStencil pow cfg 0 (smoothIndScalar Bc (coeffsI.getD 0 [])) /
          (stencilLoop pow cfg Bc coeffsI cw).gammaSum) ∧
    (coeffsI.length = 1 →
      gammaStencil pow cfg 0 (smoothIndScalar Bc (coeffsI.getD 0 [])) /
        (stencilLoop pow cfg Bc coeffsI cw).gammaSum = 1) := by
  have hS : 0 < coeffsI.length := List.length_pos.2 hne
  obtain ⟨m, hm⟩ : ∃ m, coeffsI.length = m + 1 := ⟨coeffsI.length - 1, by omega⟩
  have hp : 0 < pow (cfg.epsilon + I) cfg.p := hpow _ (by linarith)
  have hb : 0 < 1 / pow (cfg.epsilon + I) cfg.p := div_pos one_pos hp
  have hg0 : gammaStencil pow cfg 0 (smoothIndScalar Bc (coeffsI.getD 0 [])) =
      cfg.dm * (1 / pow (cfg.epsilon + I) cfg.p) := by
    rw [heq 0 hS]
    simp [gammaStencil, div_eq_mul_inv]
  have hG : (stencilLoop pow cfg Bc coeffsI cw).gammaSum =
      (m : K) * (1 / pow (cfg.epsilon + I) cfg.p) +
        cfg.dm * (1 / pow (cfg.epsilon + I) cfg.p) := by
    rw [stencilLoop_gammaSum, hm, Finset.sum_range_succ']
    congr 1
    · have hc : ∀ s ∈ Finset.range m, gammaOf pow cfg Bc coeffsI (s + 1) =
          1 / pow (cfg.epsilon + I) cfg.p := by
        intro s hs
        have hs' : s + 1 < coeffsI.length := by
          have := Finset.mem_range.1 hs
          omega
        unfold gammaOf indicator
        rw [heq (s + 1) hs']
        simp [gammaStencil]
      rw [Finset.sum_congr rfl hc]
      simp
  have hGpos : 0 < (m : K) * (1 / pow (cfg.epsilon + I) cfg.p) +
      cfg.dm * (1 / pow (cfg.epsilon + I) cfg.p) := by
    have h1 : 0 ≤ (m : K) * (1 / pow (cfg.epsilon + I) cfg.p) :=
      mul_nonneg (Nat.cast_nonneg m) (le_of_lt hb)
    have h2 : 0 < cfg.dm * (1 / pow (cfg.epsilon + I) cfg.p) := mul_pos (by linarith) hb
    linarith
  have hSK : (0 : K) < ((m + 1 : Nat) : K) := by exact_mod_cast Nat.succ_pos m
  rw [hg0, hG, hm]
  refine ⟨?_, ?_, ?_⟩
  · rw [div_le_div_iff₀ hSK hGpos]
    have h3 : 0 ≤ (m : K) * (1 / pow (cfg.epsilon + I) cfg.p) * (cfg.dm - 1) :=
      mul_nonneg (mul_nonneg (Nat.cast_nonneg m) (le_of_lt hb)) (by linarith)
    push_cast
    nlinarith
  · intro h2
    have hm1 : (1 : K) ≤ (m : K) := by
      have : 1 ≤ m := by omega
      exact_mod_cast this
    rw [div_lt_div_iff₀ hSK hGpos]
    have h3 : 0 < (m : K) * (1 / pow (cfg.epsilon + I) cfg.p) * (cfg.dm - 1) :=
      mul_pos (mul_pos (by linarith) hb) (by linarith)
    push_cast
    nlinarith
  · intro h1
    have hm0 : m = 0 := by omega
    rw [hm0]
    simp only [Nat.cast_zero, zero_mul, zero_add]
    exact div_self (ne_of_gt (mul_pos (by linarith) hb))

/-- Witness of C8 (amended): identity oscillation matrix, two stencils `[1]` and `[-1]` with
the common indicator `1`, `epsilon = 1`, `p = 1`, `dm = 2`. -/
theorem C8_central_weight_witness :
    ([[1], [-1]] : List (List ℚ)) ≠ [] ∧ (0 : ℚ) < 1 ∧ (1 : ℚ) < 2 ∧
    (∀ x : ℚ, 0 < x → 0 < powNat x 1) ∧ (0 : ℚ) ≤ 1 ∧
    (∀ s, s < ([[1], [-1]] : List (List ℚ)).length →
      smoothIndScalar [[1]] (([[1], [-1]] : List (List ℚ)).getD s []) = 1) ∧
    2 ≤ ([[1], [-1]] : List (List ℚ)).length ∧
    1 / (([[1], [-1]] : List (List ℚ)).length : ℚ) <
      gammaStencil powNat ⟨1, 1, 2⟩ 0
          (smoothIndScalar [[1]] (([[1], [-1]] : List (List ℚ)).getD 0 [])) /
        (stencilLoop powNat ⟨1, 1, 2⟩ [[1]] [[1], [-1]] [0]).gammaSum :=
  have heq : ∀ s, s < ([[1], [-1]] : List (List ℚ)).length →
      smoothIndScalar [[1]] (([[1], [-1]] : List (List ℚ)).getD s []) = 1 := by
    intro s hs
    have h2 : s < 2 := hs
    interval_cases s <;> norm_num [smoothIndScalar, dot, matVec]
  ⟨by simp, by norm_num, by norm_num, fun x hx => powNat_pos x 1 hx, by norm_num, heq,
    le_refl _,
    (C8_central_weight powNat ⟨1, 1, 2⟩ [[1]] [[1], [-1]] [0] 1 (by simp) (by norm_num)
      (by norm_num) (fun x hx => powNat_pos x 1 hx) (by norm_num) heq).2.1 (le_refl _)⟩

/-- C9: the worked scenario. With `n = 3`, the `3 × 3` identity as oscillation matrix, central
coefficients `[1,0,0]`, sectorial coefficients `[0,1,0]`, `epsilon = 1e-6`, `p = 2`,
`dm = 1000` and a zero-filled output buffer, the scalar `calcWeight` computes both indicators
equal to `1`, `gamma_central = 1000 / (1 + 1e-6)^2`, `gamma_sectorial = 1 / (1 + 1e-6)^2`,
leaves `hybrid = [1000/1001, 1/1001, 0]`, each entry within `1e-6` of
`[0.999001, 0.000999, 0]`, and records the shock sensor `1` for the cell. -/
theorem C9_worked_scenario :
    smoothIndScalar [[1, 0, 0], [0, 1, 0], [0, 0, 1]] [1, 0, 0] = (1 : ℚ) ∧
    smoothIndScalar [[1, 0, 0], [0, 1, 0], [0, 0, 1]] [0, 1, 0] = (1 : ℚ) ∧
    gammaStencil powNat ⟨1 / 1000000, 2, 1000⟩ 0
        (smoothIndScalar [[1, 0, 0], [0, 1, 0], [0, 0, 1]] [1, 0, 0]) =
      1000 / (1 + 1 / 1000000) ^ 2 ∧
    gammaStencil powNat ⟨1 / 1000000, 2, 1000⟩ 1
        (smoothIndScalar [[1, 0, 0], [0, 1, 0], [0, 0, 1]] [0, 1, 0]) =
      1 / (1 + 1 / 1000000) ^ 2 ∧
    calcWeightScalar powNat ⟨1 / 1000000, 2, 1000⟩ [[[1, 0, 0], [0, 1, 0], [0, 0, 1]]]
        [0, 0, 0] 0 [[1, 0, 0], [0, 1, 0]] [0] =
      ([1000 / 1001, 1 / 1001, 0], [1]) ∧
    |(calcWeightScalar powNat ⟨1 / 1000000, 2, 1000⟩ [[[1, 0, 0], [0, 1, 0], [0, 0, 1]]]
        [0, 0, 0] 0 [[1, 0, 0], [0, 1, 0]] [0]).1.getD 0 0 - 999001 / 1000000| < 1 / 1000000 ∧
    |(calcWeightScalar powNat ⟨1 / 1000000, 2, 1000⟩ [[[1, 0, 0], [0, 1, 0], [0, 0, 1]]]
        [0, 0, 0] 0 [[1, 0, 0], [0, 1, 0]] [0]).1.getD 1 0 - 999 / 1000000| < 1 / 1000000 ∧
    |(calcWeightScalar powNat ⟨1 / 1000000, 2, 1000⟩ [[[1, 0, 0], [0, 1, 0], [0, 0, 1]]]
        [0, 0, 0] 0 [[1, 0, 0], [0, 1, 0]] [0]).1.getD 2 0 - 0| < 1 / 1000000 ∧
    (calcWeightScalar powNat ⟨1 / 1000000, 2, 1000⟩ [[[1, 0, 0], [0, 1, 0], [0, 0, 1]]]
        [0, 0, 0] 0 [[1, 0, 0], [0, 1, 0]] [0]).2.getD 0 0 = 1 := by
  have hI0 : smoothIndScalar [[1, 0, 0], [0, 1, 0], [0, 0, 1]] [1, 0, 0] = (1 : ℚ) := by
    norm_num [smoothIndScalar, dot, matVec]
  have hI1 : smoothIndScalar [[1, 0, 0], [0, 1, 0], [0, 0, 1]] [0, 1, 0] = (1 : ℚ) := by
    norm_num [smoothIndScalar, dot, matVec]
  have hres : calcWeightScalar powNat ⟨1 / 1000000, 2, 1000⟩
      [[[1, 0, 0], [0, 1, 0], [0, 0, 1]]] [0, 0, 0] 0 [[1, 0, 0], [0, 1, 0]] [0] =
      ([1000 / 1001, 1 / 1001, 0], [1]) := by
    simp [calcWeightScalar, forAll, stencilLoop, stencilBody, List.range, List.range.loop,
      smoothIndScalar, dot, matVec, blendLoop, gammaStencil, powNat_two, foamMax]
    norm_num
  refine ⟨hI0, hI1, ?_, ?_, hres, ?_, ?_, ?_, ?_⟩
  · rw [hI0]
    norm_num [gammaStencil, powNat_two]
  · rw [hI1]
    norm_num [gammaStencil, powNat_two]
  · rw [hres]
    norm_num [abs_lt]
  · rw [hres]
    norm_num [abs_lt]
  · rw [hres]
    norm_num
  · rw [hres]
    norm_num

/-- C10 (the claim as stated fails): (i) the `1 × 1` oscillation matrix `[[-2]]` is symmetric;
with the stencil `[1]`, `epsilon = 1 > 0`, `p = 1 > 0`, `dm = 1` the indicator is `-2`,
`pow(epsilon + I, p) = -1` and the `gammaSum` accumulated by `calcWeight` is `-1`, which is
not strictly positive; (ii) in the code's double arithmetic, the oscillation matrix `[[1]]`,
two stencils `[3]` (indicators `9`), `epsilon = 1e-6 > 0`, `p = 400` and `dm = 1000` give
`pow = +inf`, both `gamma` equal to `0` and `gammaSum = 0`, and the final division leaves a
not-a-number. -/
theorem C10_gammaSum_positive_counterexample :
    (0 : ℚ) < 1 ∧ (1 : ℚ) ≤ 1 ∧
    smoothIndScalar [[-2]] [1] = (-2 : ℚ) ∧
    (stencilLoop powNat ⟨1, 1, 1⟩ [[-2]] [[1]] [0]).gammaSum = -1 ∧
    ¬ (0 < (stencilLoop powNat ⟨1, 1, 1⟩ [[-2]] [[1]] [0]).gammaSum) ∧
    Dbl.gt (roundDbl (1 / 1000000)) (Dbl.fin 0) = true ∧
    smoothIndScalarD [[Dbl.fin 1]] [Dbl.fin 3] = Dbl.fin 9 ∧
    powDbl (Dbl.add (roundDbl (1 / 1000000)) (Dbl.fin 9)) (Dbl.fin 400) = Dbl.pinf ∧
    (stencilLoopD powDbl ⟨roundDbl (1 / 1000000), Dbl.fin 400, Dbl.fin 1000⟩ [[Dbl.fin 1]]
      [[Dbl.fin 3], [Dbl.fin 3]] [Dbl.fin 0]).gammaSum = Dbl.fin 0 ∧
    Dbl.gt
      (stencilLoopD powDbl ⟨roundDbl (1 / 1000000), Dbl.fin 400, Dbl.fin 1000⟩ [[Dbl.fin 1]]
        [[Dbl.fin 3], [Dbl.fin 3]] [Dbl.fin 0]).gammaSum (Dbl.fin 0) = false ∧
    calcWeightScalarD powDbl ⟨roundDbl (1 / 1000000), Dbl.fin 400, Dbl.fin 1000⟩
        [[[Dbl.fin 1]]] [Dbl.fin 0] 0 [[Dbl.fin 3], [Dbl.fin 3]] [Dbl.fin 0] =
      ([Dbl.nan], [Dbl.fin 9]) := by
  have hG : (stencilLoop powNat ⟨1, 1, 1⟩ [[-2]] [[1]] [0]).gammaSum = -1 := by
    rw [stencilLoop_gammaSum]
    norm_num [gammaOf, indicator, gammaStencil, smoothIndScalar, dot, matVec, powNat_one,
      Finset.sum_range_succ]
  refine ⟨by norm_num, le_refl _, ?_, hG, ?_, by decide!, by decide!, by decide!, by decide!,
    by decide!, by decide!⟩
  · norm_num [smoothIndScalar, dot, matVec]
  · rw [hG]
    norm_num

/-- C10 (amended), over exact arithmetic: for every cell with at least one stencil whose
smoothness indicators are all non-negative (as for a positive semi-definite oscillation matrix), every
`epsilon > 0`, `dm ≥ 1` and every `pow` positive on positive bases, the weight denominator
`gammaSum` accumulated by `calcWeight` is strictly positive, so the final division is not a
division by zero. Scalar path, then generic path for every component. -/
theorem C10_gammaSum_positive {K : Type} [LinearOrderedField K] (pow : K → K → K)
    (cfg : WENOParams K) (Bc : List (List K))
    (hε : 0 < cfg.epsilon) (hdm : 1 ≤ cfg.dm) (hpow : ∀ x, 0 < x → 0 < pow x cfg.p) :
    (∀ (coeffsI : List (List K)) (cw : List K), coeffsI ≠ [] →
      (∀ s, s < coeffsI.length → 0 ≤ smoothIndScalar Bc (coeffsI.getD s [])) →
      0 < (stencilLoop pow cfg Bc coeffsI cw).gammaSum) ∧
    (∀ (coeffsI : List (List (List K))) (j : Nat) (g : K) (cw : List (List K)),
      coeffsI ≠ [] →
      (∀ s, s < coeffsI.length → 0 ≤ smoothIndComp Bc (coeffsI.getD s []) j) →
      0 < (stencilLoopComp pow cfg Bc coeffsI j g cw).gammaSum) := by
  constructor
  · intro coeffsI cw hne hI
    rw [stencilLoop_gammaSum]
    exact sum_range_pos (gammaOf pow cfg Bc coeffsI) coeffsI.length (List.length_pos.2 hne)
      (fun s hs => gammaStencil_pos pow cfg hε hdm hpow s _ (hI s hs))
  · intro coeffsI j g cw hne hI
    rw [stencilLoopComp_gammaSum]
    exact sum_range_pos (gammaOfComp pow cfg Bc coeffsI j) coeffsI.length
      (List.length_pos.2 hne)
      (fun s hs => gammaStencil_pos pow cfg hε hdm hpow s _ (hI s hs))

/-- Witness of C10 (amended): identity oscillation matrix, stencils `[0]` and `[2]`
(indicators `0` and `4`), `epsilon = 1/1000000`, `p = 2`, `dm = 1000`. -/
theorem C10_gammaSum_positive_witness :
    (0 : ℚ) < 1 / 1000000 ∧ (1 : ℚ) ≤ 1000 ∧ (∀ x : ℚ, 0 < x → 0 < powNat x 2) ∧
    ([[0], [2]] : List (List ℚ)) ≠ [] ∧
    (∀ s, s < ([[0], [2]] : List (List ℚ)).length →
      0 ≤ smoothIndScalar [[1]] (([[0], [2]] : List (List ℚ)).getD s [])) ∧
    0 < (stencilLoop powNat ⟨1 / 1000000, 2, 1000⟩ [[1]] [[0], [2]] [0]).gammaSum :=
  have hI : ∀ s, s < ([[0], [2]] : List (List ℚ)).length →
      0 ≤ smoothIndScalar [[1]] (([[0], [2]] : List (List ℚ)).getD s []) := by
    intro s hs
    have h2 : s < 2 := hs
    interval_cases s <;> norm_num [smoothIndScalar, dot, matVec]
  ⟨by norm_num, by norm_num, fun x hx => powNat_pos x 2 hx, by simp, hI,
    (C10_gammaSum_positive powNat ⟨1 / 1000000, 2, 1000⟩ [[1]] (by norm_num) (by norm_num)
      (fun x hx => powNat_pos x 2 hx)).1 [[0], [2]] [0] (by simp) hI⟩

/-! ## Independence of components and frame of the sensor field -/

theorem smoothIndComp_congr {K : Type} [LinearOrderedField K] (Bc : List (List K))
    (c1 c2 : List (List K)) (j : Nat) (hlen : c1.length = c2.length)
    (hj : ∀ k, get2 c1 k j = get2 c2 k j) :
    smoothIndComp Bc c1 j = smoothIndComp Bc c2 j := by
  have hsum : ∀ p, sumBLoop Bc c1 j p = sumBLoop Bc c2 j p := by
    intro p
    unfold sumBLoop
    rw [hlen]
    congr 1
    funext q acc
    rw [hj q]
  unfold smoothIndComp
  rw [hlen]
  congr 1
  funext p acc
  rw [hj p, hsum p]

theorem gammaOfComp_congr {K : Type} [LinearOrderedField K] (pow : K → K → K)
    (cfg : WENOParams K) (Bc : List (List K)) (c1 c2 : List (List (List K))) (j s : Nat)
    (hlen : (c1.getD s []).length = (c2.getD s []).length)
    (hj : ∀ k, get2 (c1.getD s []) k j = get2 (c2.getD s []) k j) :
    gammaOfComp pow cfg Bc c1 j s = gammaOfComp pow cfg Bc c2 j s := by
  unfold gammaOfComp indicatorComp
  rw [smoothIndComp_congr Bc _ _ j hlen hj]

/-- C16: components are processed independently in the generic `calcWeight`. For a component
`j < nComp` and two calls with the same cell, oscillation matrix and configuration whose
stencil coefficients and initial output buffer have the same shape and agree on component `j`
(every other component may differ), component `j` of every hybrid coefficient and of the
shock-sensor value of the cell is the same after both calls; and component `j` of entry `k` is
determined by component `j` alone: it is
`(init[k][j] + Σ_s coeffs_s[k][j] * gamma_{s,j}) / gammaSum_j`, where `gamma_{s,j}` comes from
the indicator of component `j`. -/
theorem C16_components_independent {K : Type} [LinearOrderedField K] (pow : K → K → K)
    (cfg : WENOParams K) (B : List (List (List K))) (nComp : Nat) (cellI j : Nat)
    (c1 c2 : List (List (List K))) (cw1 cw2 sens1 sens2 : List (List K))
    (hj : j < nComp)
    (hS : c1.length = c2.length)
    (hn : ∀ s, (c1.getD s []).length = (c2.getD s []).length)
    (hc : ∀ s k, get2 (c1.getD s []) k j = get2 (c2.getD s []) k j)
    (hshape : ∀ k, (cw1.getD k []).length = (cw2.getD k []).length)
    (hcw : ∀ k, get2 cw1 k j = get2 cw2 k j)
    (hsshape : (sens1.getD cellI []).length = (sens2.getD cellI []).length)
    (hsens : get2 sens1 cellI j = get2 sens2 cellI j) :
    (∀ k, get2 (calcWeight pow cfg B nComp cw1 cellI c1 sens1).1 k j =
      get2 (calcWeight pow cfg B nComp cw2 cellI c2 sens2).1 k j) ∧
    get2 (calcWeight pow cfg B nComp cw1 cellI c1 sens1).2 cellI j =
      get2 (calcWeight pow cfg B nComp cw2 cellI c2 sens2).2 cellI j ∧
    (∀ k, j < (cw1.getD k []).length →
      get2 (calcWeight pow cfg B nComp cw1 cellI c1 sens1).1 k j =
        (get2 cw1 k j +
          ∑ s in Finset.range c1.length,
            get2 (c1.getD s []) k j *
              gammaStencil pow cfg s (smoothIndComp (B.getD cellI []) (c1.getD s []) j)) /
        (∑ s in Finset.range c1.length,
          gammaStencil pow cfg s (smoothIndComp (B.getD cellI []) (c1.getD s []) j))) := by
  have hγ : ∀ s, gammaOfComp pow cfg (B.getD cellI []) c1 j s =
      gammaOfComp pow cfg (B.getD cellI []) c2 j s :=
    fun s => gammaOfComp_congr pow cfg _ c1 c2 j s (hn s) (hc s)
  refine ⟨?_, ?_, ?_⟩
  · intro k
    rw [calcWeight_get2, calcWeight_get2, hshape k, hcw k, hS]
    have h1 : ∑ s in Finset.range c2.length,
        get2 (c1.getD s []) k j * gammaOfComp pow cfg (B.getD cellI []) c1 j s =
        ∑ s in Finset.range c2.length,
          get2 (c2.getD s []) k j * gammaOfComp pow cfg (B.getD cellI []) c2 j s :=
      Finset.sum_congr rfl (fun s _ => by rw [hc s k, hγ s])
    have h2 : ∑ s in Finset.range c2.length, gammaOfComp pow cfg (B.getD cellI []) c1 j s =
        ∑ s in Finset.range c2.length, gammaOfComp pow cfg (B.getD cellI []) c2 j s :=
      Finset.sum_congr rfl (fun s _ => hγ s)
    rw [h1, h2]
  · rw [calcWeight_sens_get2, calcWeight_sens_get2, hsshape, hsens, hS]
    have h3 : indicatorComp (B.getD cellI []) c1 j (c2.length - 1) =
        indicatorComp (B.getD cellI []) c2 j (c2.length - 1) := by
      unfold indicatorComp
      exact smoothIndComp_congr _ _ _ j (hn _) (hc _)
    rw [h3]
  · intro k hk
    rw [calcWeight_get2, if_pos ⟨hj, hk⟩]
    rfl

/-- Witness of C16: two components; the two calls agree on component `0` and differ on
component `1` of the stencil coefficients, of the buffer and of the sensor field. -/
theorem C16_components_independent_witness :
    (0 : Nat) < 2 ∧
    get2 (calcWeight powNat ⟨1, 1, 1⟩ [[[1]]] 2 [[0, 5]] 0 [[[2, 3]], [[1, 4]]] [[0, 1]]).2 0 0 =
      get2 (calcWeight powNat ⟨1, 1, 1⟩ [[[1]]] 2 [[0, 6]] 0 [[[2, 7]], [[1, 8]]]
        [[0, 2]]).2 0 0 ∧
    ∀ k, get2 (calcWeight powNat ⟨1, 1, 1⟩ [[[1]]] 2 [[0, 5]] 0 [[[2, 3]], [[1, 4]]]
        [[0, 1]]).1 k 0 =
      get2 (calcWeight powNat ⟨1, 1, 1⟩ [[[1]]] 2 [[0, 6]] 0 [[[2, 7]], [[1, 8]]]
        [[0, 2]]).1 k 0 :=
  have h := C16_components_independent powNat ⟨1, 1, 1⟩ [[[1]]] 2 0 0
    [[[2, 3]], [[1, 4]]] [[[2, 7]], [[1, 8]]] [[0, 5]] [[0, 6]] [[0, 1]] [[0, 2]]
    (by decide) rfl
    (by
      intro s
      rcases s with _ | _ | s <;> simp)
    (by
      intro s k
      rcases s with _ | _ | s <;> rcases k with _ | k <;> simp [get2])
    (by
      intro k
      rcases k with _ | k <;> simp)
    (by
      intro k
      rcases k with _ | k <;> simp [get2])
    (by simp) (by simp [get2])
  ⟨by decide, h.2.1, h.1⟩

/-- C17: `calcWeight` for cell `cellI` mutates the shock-sensor field only at index `cellI`
and overwrites that slot. Scalar path: every other index keeps its value, and the value left
at `cellI` is the same for any two sensor fields passed in. Generic path: every component of
every other index keeps its value, the shape of the field is kept, and for a component
`j < nComp` the value left at `[cellI][j]` is the same for any two sensor fields passed in. -/
theorem C17_sensor_frame {K : Type} [LinearOrderedField K] (pow : K → K → K)
    (cfg : WENOParams K) (B : List (List (List K))) (cellI : Nat) :
    (∀ (cw : List K) (coeffsI : List (List K)) (sens : List K) (i : Nat), i ≠ cellI →
      (calcWeightScalar pow cfg B cw cellI coeffsI sens).2.getD i 0 = sens.getD i 0) ∧
    (∀ (cw : List K) (coeffsI : List (List K)) (sens1 sens2 : List K),
      cellI < sens1.length → cellI < sens2.length →
      (calcWeightScalar pow cfg B cw cellI coeffsI sens1).2.getD cellI 0 =
        (calcWeightScalar pow cfg B cw cellI coeffsI sens2).2.getD cellI 0) ∧
    (∀ (nComp : Nat) (cw : List (List K)) (coeffsI : List (List (List K)))
      (sens : List (List K)) (i j : Nat), i ≠ cellI →
      get2 (calcWeight pow cfg B nComp cw cellI coeffsI sens).2 i j = get2 sens i j ∧
      ((calcWeight pow cfg B nComp cw cellI coeffsI sens).2.getD i []).length =
        (sens.getD i []).length) ∧
    (∀ (nComp : Nat) (cw : List (List K)) (coeffsI : List (List (List K)))
      (sens1 sens2 : List (List K)) (j : Nat), j < nComp →
      j < (sens1.getD cellI []).length → j < (sens2.getD cellI []).length →
      get2 (calcWeight pow cfg B nComp cw cellI coeffsI sens1).2 cellI j =
        get2 (calcWeight pow cfg B nComp cw cellI coeffsI sens2).2 cellI j) := by
  refine ⟨?_, ?_, ?_, ?_⟩
  · intro cw coeffsI sens i hi
    rw [calcWeightScalar_sens, getD_set_eq, if_neg (fun h => hi h.1)]
  · intro cw coeffsI sens1 sens2 h1 h2
    rw [calcWeightScalar_sens, calcWeightScalar_sens, getD_set_eq, getD_set_eq,
      if_pos ⟨rfl, h1⟩, if_pos ⟨rfl, h2⟩]
  · intro nComp cw coeffsI sens i j hi
    refine ⟨?_, calcWeight_sens_rowLen pow cfg B nComp cw cellI coeffsI sens i⟩
    rw [calcWeight_sens_get2, if_neg (fun h => hi h.1)]
  · intro nComp cw coeffsI sens1 sens2 j hj h1 h2
    rw [calcWeight_sens_get2, calcWeight_sens_get2, if_pos ⟨rfl, hj, h1⟩,
      if_pos ⟨rfl, hj, h2⟩]

/-- Witness of C17: a three-cell sensor field `[7, 8, 9]`, call for cell `1`; cell `2` keeps
its value `9`. -/
theorem C17_sensor_frame_witness :
    (2 : Nat) ≠ 1 ∧
    (calcWeightScalar powNat ⟨1, 1, 1⟩ [[[1]], [[1]], [[1]]] [0] 1 [[3], [2]]
      [7, 8, 9]).2.getD 2 0 = ([7, 8, 9] : List ℚ).getD 2 0 :=
  ⟨by decide,
    (C17_sensor_frame powNat ⟨1, 1, 1⟩ [[[1]], [[1]], [[1]]] 1).1 [0] [[3], [2]] [7, 8, 9] 2
      (by decide)⟩

/-- C20: in the generic `calcWeight`, `smoothIndList = smoothInd` (line 172) assigns the
current indicator to every entry of the list, so after the stencil loop of component `j` the
list holds the indicator of the last stencil in every entry, and for every non-empty stencil
list the value written to the shock-sensor field at `[cellI][j]` (for `j < nComp` inside the
field) is the smoothness indicator of the last stencil, index `S - 1`, for that component. -/
theorem C20_generic_sensor_is_last_indicator {K : Type} [LinearOrderedField K]
    (pow : K → K → K) (cfg : WENOParams K) (B : List (List (List K))) (nComp : Nat)
    (cw : List (List K)) (cellI : Nat) (coeffsI : List (List (List K)))
    (sens : List (List K)) (j : Nat) (g : K)
    (hne : coeffsI ≠ []) (hj : j < nComp) (hrow : j < (sens.getD cellI []).length) :
    (stencilLoopComp pow cfg (B.getD cellI []) coeffsI j g cw).smoothIndList =
      List.replicate coeffsI.length
        (smoothIndComp (B.getD cellI []) (coeffsI.getD (coeffsI.length - 1) []) j) ∧
    get2 (calcWeight pow cfg B nComp cw cellI coeffsI sens).2 cellI j =
      smoothIndComp (B.getD cellI []) (coeffsI.getD (coeffsI.length - 1) []) j := by
  constructor
  · rw [stencilLoopComp_sil]
    rfl
  · rw [calcWeight_sens_get2, if_pos ⟨rfl, hj, hrow⟩,
      foamMax_replicate _ _ (List.length_pos.2 hne)]
    rfl

/-- Witness of C20: the input of C1 (indicators `4` and `1`); the value stored is the
indicator of the last stencil. -/
theorem C20_generic_sensor_is_last_indicator_witness :
    ([[[2]], [[1]]] : List (List (List ℚ))) ≠ [] ∧ (0 : Nat) < 1 ∧
    0 < ((([[0]] : List (List ℚ))).getD 0 []).length ∧
    get2 (calcWeight powNat ⟨1, 1, 1⟩ [[[1]]] 1 [[0]] 0 [[[2]], [[1]]] [[0]]).2 0 0 =
      smoothIndComp (([[[1]]] : List (List (List ℚ))).getD 0 [])
        (([[[2]], [[1]]] : List (List (List ℚ))).getD
          (([[[2]], [[1]]] : List (List (List ℚ))).length - 1) []) 0 :=
  ⟨by simp, by decide, by simp,
    (C20_generic_sensor_is_last_indicator powNat ⟨1, 1, 1⟩ [[[1]]] 1 [[0]] 0 [[[2]], [[1]]]
      [[0]] 0 0 (by simp) (by decide) (by simp)).2⟩

/-! ## Convexity of the blend -/

theorem blend_bounds {K : Type} [LinearOrderedField K] (γ c : Nat → K) (S : Nat) (hS : 0 < S)
    (hγ : ∀ s, s < S → 0 < γ s) :
    (∀ m, (∀ s, s < S → m ≤ c s) →
      m ≤ (∑ s in Finset.range S, c s * γ s) / (∑ s in Finset.range S, γ s)) ∧
    (∀ M, (∀ s, s < S → c s ≤ M) →
      (∑ s in Finset.range S, c s * γ s) / (∑ s in Finset.range S, γ s) ≤ M) := by
  have hG := sum_range_pos γ S hS hγ
  constructor
  · intro m hm
    rw [le_div_iff₀ hG, Finset.mul_sum]
    apply Finset.sum_le_sum
    intro s hs
    have h := Finset.mem_range.1 hs
    exact mul_le_mul_of_nonneg_right (hm s h) (le_of_lt (hγ s h))
  · intro M hM
    rw [div_le_iff₀ hG, Finset.mul_sum]
    apply Finset.sum_le_sum
    intro s hs
    have h := Finset.mem_range.1 hs
    exact mul_le_mul_of_nonneg_right (hM s h) (le_of_lt (hγ s h))

/-- C18 (the claim as stated fails in the code's double arithmetic): oscillation matrix
`[[1]]`, a single stencil `[3]`, `epsilon = p = dm = 1` and a zero buffer. The scalar
`calcWeight` leaves `3 + 2^-51 = 3.0000000000000004`, which is above the maximum `3` of the
stencil coefficients and differs from the central stencil's coefficient. -/
theorem C18_convex_combination_counterexample :
    calcWeightScalarD powDbl ⟨Dbl.fin 1, Dbl.fin 1, Dbl.fin 1⟩ [[[Dbl.fin 1]]] [Dbl.fin 0] 0
        [[Dbl.fin 3]] [Dbl.fin 0] =
      ([Dbl.fin (3 + 1 / 2 ^ 51)], [Dbl.fin 9]) ∧
    Dbl.gt
      ((calcWeightScalarD powDbl ⟨Dbl.fin 1, Dbl.fin 1, Dbl.fin 1⟩ [[[Dbl.fin 1]]] [Dbl.fin 0]
        0 [[Dbl.fin 3]] [Dbl.fin 0]).1.getD 0 (Dbl.fin 0)) (Dbl.fin 3) = true ∧
    (calcWeightScalarD powDbl ⟨Dbl.fin 1, Dbl.fin 1, Dbl.fin 1⟩ [[[Dbl.fin 1]]] [Dbl.fin 0] 0
        [[Dbl.fin 3]] [Dbl.fin 0]).1 ≠ [Dbl.fin 3] := by
  refine ⟨by decide!, by decide!, by decide!⟩

/-- C18 (amended), over exact arithmetic: the hybrid output is a convex combination of the
stencil coefficients. For a
non-empty stencil list with non-negative indicators, `epsilon > 0`, `dm ≥ 1`, `pow` positive on
positive bases and a zero-filled output buffer, every coefficient index `k < n` satisfies
`min_s coeffs_s[k] ≤ hybrid[k] ≤ max_s coeffs_s[k]`: every lower bound of the `coeffs_s[k]`
(in particular their minimum) is below `hybrid[k]` and every upper bound (in particular their
maximum) is above it; with a single stencil `hybrid[k]` equals the central stencil's
coefficient. Scalar path, then generic path for every component `j < nComp`. -/
theorem C18_hybrid_is_convex_combination {K : Type} [LinearOrderedField K] (pow : K → K → K)
    (cfg : WENOParams K) (B : List (List (List K))) (cellI n k : Nat)
    (hε : 0 < cfg.epsilon) (hdm : 1 ≤ cfg.dm) (hpow : ∀ x, 0 < x → 0 < pow x cfg.p)
    (hk : k < n) :
    (∀ (coeffsI : List (List K)) (sens : List K), coeffsI ≠ [] →
      (∀ s, s < coeffsI.length → 0 ≤ smoothIndScalar (B.getD cellI []) (coeffsI.getD s [])) →
      (∀ m, (∀ s, s < coeffsI.length → m ≤ (coeffsI.getD s []).getD k 0) →
        m ≤ (calcWeightScalar pow cfg B (List.replicate n 0) cellI coeffsI sens).1.getD k 0) ∧
      (∀ M, (∀ s, s < coeffsI.length → (coeffsI.getD s []).getD k 0 ≤ M) →
        (calcWeightScalar pow cfg B (List.replicate n 0) cellI coeffsI sens).1.getD k 0 ≤ M) ∧
      (coeffsI.length = 1 →
        (calcWeightScalar pow cfg B (List.replicate n 0) cellI coeffsI sens).1.getD k 0 =
          (coeffsI.getD 0 []).getD k 0)) ∧
    (∀ (nComp j : Nat) (coeffsI : List (List (List K))) (sens : List (List K)), j < nComp →
      coeffsI ≠ [] →
      (∀ s, s < coeffsI.length → 0 ≤ smoothIndComp (B.getD cellI []) (coeffsI.getD s []) j) →
      (∀ m, (∀ s, s < coeffsI.length → m ≤ get2 (coeffsI.getD s []) k j) →
        m ≤ get2 (calcWeight pow cfg B nComp (List.replicate n (List.replicate nComp 0)) cellI
          coeffsI sens).1 k j) ∧
      (∀ M, (∀ s, s < coeffsI.length → get2 (coeffsI.getD s []) k j ≤ M) →
        get2 (calcWeight pow cfg B nComp (List.replicate n (List.replicate nComp 0)) cellI
          coeffsI sens).1 k j ≤ M) ∧
      (coeffsI.length = 1 →
        get2 (calcWeight pow cfg B nComp (List.replicate n (List.replicate nComp 0)) cellI
          coeffsI sens).1 k j = get2 (coeffsI.getD 0 []) k j)) := by
  constructor
  · intro coeffsI sens hne hI
    have hS : 0 < coeffsI.length := List.length_pos.2 hne
    have hγ : ∀ s, s < coeffsI.length → 0 < gammaOf pow cfg (B.getD cellI []) coeffsI s :=
      fun s hs => gammaStencil_pos pow cfg hε hdm hpow s _ (hI s hs)
    have hH : (calcWeightScalar pow cfg B (List.replicate n 0) cellI coeffsI sens).1.getD k 0 =
        (∑ s in Finset.range coeffsI.length,
          (coeffsI.getD s []).getD k 0 * gammaOf pow cfg (B.getD cellI []) coeffsI s) /
        (∑ s in Finset.range coeffsI.length, gammaOf pow cfg (B.getD cellI []) coeffsI s) := by
      rw [calcWeightScalar_getD, List.length_replicate, if_pos hk, replicate_getD _ _ _ _ hk,
        zero_add, stencilLoop_gammaSum]
    have hb := blend_bounds (gammaOf pow cfg (B.getD cellI []) coeffsI)
      (fun s => (coeffsI.getD s []).getD k 0) coeffsI.length hS hγ
    rw [hH]
    refine ⟨hb.1, hb.2, ?_⟩
    intro h1
    apply le_antisymm
    · apply hb.2
      intro s hs
      have : s = 0 := by omega
      rw [this]
    · apply hb.1
      intro s hs
      have : s = 0 := by omega
      rw [this]
  · intro nComp j coeffsI sens hj hne hI
    have hS : 0 < coeffsI.length := List.length_pos.2 hne
    have hγ : ∀ s, s < coeffsI.length →
        0 < gammaOfComp pow cfg (B.getD cellI []) coeffsI j s :=
      fun s hs => gammaStencil_pos pow cfg hε hdm hpow s _ (hI s hs)
    have hrow : ((List.replicate n (List.replicate nComp (0 : K))).getD k []).length = nComp := by
      rw [replicate_getD n k _ _ hk, List.length_replicate]
    have hH : get2 (calcWeight pow cfg B nComp (List.replicate n (List.replicate nComp 0)) cellI
        coeffsI sens).1 k j =
        (∑ s in Finset.range coeffsI.length,
          get2 (coeffsI.getD s []) k j * gammaOfComp pow cfg (B.getD cellI []) coeffsI j s) /
        (∑ s in Finset.range coeffsI.length,
          gammaOfComp pow cfg (B.getD cellI []) coeffsI j s) := by
      rw [calcWeight_get2, hrow, if_pos ⟨hj, hj⟩, get2_replicate_zero, zero_add]
    have hb := blend_bounds (gammaOfComp pow cfg (B.getD cellI []) coeffsI j)
      (fun s => get2 (coeffsI.getD s []) k j) coeffsI.length hS hγ
    rw [hH]
    refine ⟨hb.1, hb.2, ?_⟩
    intro h1
    apply le_antisymm
    · apply hb.2
      intro s hs
      have : s = 0 := by omega
      rw [this]
    · apply hb.1
      intro s hs
      have : s = 0 := by omega
      rw [this]

/-- Witness of C18: identity oscillation matrix, stencils `[1, 4]` and `[3, 2]`; entry `0` of
the hybrid output lies between `1` and `3`. -/
theorem C18_hybrid_is_convex_combination_witness :
    (0 : ℚ) < 1 ∧ (1 : ℚ) ≤ 2 ∧ (∀ x : ℚ, 0 < x → 0 < powNat x 1) ∧ (0 : Nat) < 2 ∧
    ([[1, 4], [3, 2]] : List (List ℚ)) ≠ [] ∧
    (1 : ℚ) ≤ (calcWeightScalar powNat ⟨1, 1, 2⟩ [[[1, 0], [0, 1]]] (List.replicate 2 0) 0
      [[1, 4], [3, 2]] [0]).1.getD 0 0 ∧
    (calcWeightScalar powNat ⟨1, 1, 2⟩ [[[1, 0], [0, 1]]] (List.replicate 2 0) 0
      [[1, 4], [3, 2]] [0]).1.getD 0 0 ≤ (3 : ℚ) :=
  have hI : ∀ s, s < ([[1, 4], [3, 2]] : List (List ℚ)).length →
      0 ≤ smoothIndScalar (([[[1, 0], [0, 1]]] : List (List (List ℚ))).getD 0 [])
        (([[1, 4], [3, 2]] : List (List ℚ)).getD s []) := by
    intro s hs
    have h2 : s < 2 := hs
    interval_cases s <;> norm_num [smoothIndScalar, dot, matVec]
  have h := (C18_hybrid_is_convex_combination powNat ⟨1, 1, 2⟩ [[[1, 0], [0, 1]]] 0 2 0
    (by norm_num) (by norm_num) (fun x hx => powNat_pos x 1 hx) (by decide)).1
    [[1, 4], [3, 2]] [0] (by simp) hI
  ⟨by norm_num, by norm_num, fun x hx => powNat_pos x 1 hx, by decide, by simp,
    h.1 1 (by
      intro s hs
      have h2 : s < 2 := hs
      interval_cases s <;> norm_num),
    h.2.1 3 (by
      intro s hs
      have h2 : s < 2 := hs
      interval_cases s <;> norm_num)⟩

/-! ## Monotonicity of the weights -/

theorem sum_eq_add_erase {K : Type} [LinearOrderedField K] (γ : Nat → K) (S s : Nat)
    (hs : s < S) :
    ∑ t in Finset.range S, γ t = γ s + ∑ t in (Finset.range S).erase s, γ t :=
  (Finset.add_sum_erase (Finset.range S) γ (Finset.mem_range.2 hs)).symm

theorem sum_erase_pos {K : Type} [LinearOrderedField K] (γ : Nat → K) (S s : Nat)
    (hS : 2 ≤ S) (hpos : ∀ t, t < S → 0 < γ t) :
    0 < ∑ t in (Finset.range S).erase s, γ t := by
  apply Finset.sum_pos
  · intro t ht
    exact hpos t (Finset.mem_range.1 (Finset.mem_of_mem_erase ht))
  · by_cases h0 : s = 0
    · exact ⟨1, Finset.mem_erase.2 ⟨by omega, Finset.mem_range.2 (by omega)⟩⟩
    · exact ⟨0, Finset.mem_erase.2 ⟨fun h => h0 h.symm, Finset.mem_range.2 (by omega)⟩⟩

/-- If one weight is lowered and the others are kept, its normalised share is lowered. -/
theorem weight_lt_of_gamma_lt {K : Type} [LinearOrderedField K] (γ γ' : Nat → K) (S s : Nat)
    (hs : s < S) (hS : 2 ≤ S) (hpos : ∀ t, t < S → 0 < γ t) (hpos' : 0 < γ' s)
    (hsame : ∀ t, t < S → t ≠ s → γ' t = γ t) (hlt : γ' s < γ s) :
    γ' s / (∑ t in Finset.range S, γ' t) < γ s / (∑ t in Finset.range S, γ t) := by
  have hR := sum_erase_pos γ S s hS hpos
  have hR' : ∑ t in (Finset.range S).erase s, γ' t = ∑ t in (Finset.range S).erase s, γ t := by
    apply Finset.sum_congr rfl
    intro t ht
    exact hsame t (Finset.mem_range.1 (Finset.mem_of_mem_erase ht)) (Finset.ne_of_mem_erase ht)
  rw [sum_eq_add_erase γ S s hs, sum_eq_add_erase γ' S s hs, hR']
  have hγ := hpos s hs
  rw [div_lt_div_iff₀ (by linarith) (by linarith)]
  nlinarith [mul_pos hR (sub_pos.2 hlt)]

/-- If one weight is raised and the others are kept, every other normalised share is lowered. -/
theorem other_weight_lt_of_gamma_lt {K : Type} [LinearOrderedField K] (γ γ' : Nat → K)
    (S s u : Nat) (hs : s < S) (hu : u < S) (hpos : ∀ t, t < S → 0 < γ t)
    (hsame : ∀ t, t < S → t ≠ s → γ' t = γ t) (hlt : γ s < γ' s) (hne : u ≠ s) :
    γ' u / (∑ t in Finset.range S, γ' t) < γ u / (∑ t in Finset.range S, γ t) := by
  have hR' : ∑ t in (Finset.range S).erase s, γ' t = ∑ t in (Finset.range S).erase s, γ t := by
    apply Finset.sum_congr rfl
    intro t ht
    exact hsame t (Finset.mem_range.1 (Finset.mem_of_mem_erase ht)) (Finset.ne_of_mem_erase ht)
  have hG := sum_range_pos γ S (by omega) hpos
  have hlt' : ∑ t in Finset.range S, γ t < ∑ t in Finset.range S, γ' t := by
    rw [sum_eq_add_erase γ S s hs, sum_eq_add_erase γ' S s hs, hR']
    linarith
  rw [hsame u hu hne]
  exact div_lt_div_of_pos_left (hpos u hu) hG hlt'

theorem gammaStencil_lt_of_indicator_lt {K : Type} [LinearOrderedField K] (pow : K → K → K)
    (cfg : WENOParams K) (hε : 0 < cfg.epsilon) (hdm : 1 ≤ cfg.dm)
    (hpow : ∀ x, 0 < x → 0 < pow x cfg.p)
    (hmono : ∀ x y, 0 < x → x < y → pow x cfg.p < pow y cfg.p)
    (s : Nat) (I I' : K) (hI : 0 ≤ I) (hlt : I < I') :
    gammaStencil pow cfg s I' < gammaStencil pow cfg s I := by
  have hp : 0 < pow (cfg.epsilon + I) cfg.p := hpow _ (by linarith)
  have hpp : pow (cfg.epsilon + I) cfg.p < pow (cfg.epsilon + I') cfg.p :=
    hmono _ _ (by linarith) (by linarith)
  unfold gammaStencil
  split
  · exact div_lt_div_of_pos_left (by linarith) hp hpp
  · exact div_lt_div_of_pos_left one_pos hp hpp

/-- C14 (the claim as stated fails in the code's double arithmetic): oscillation matrix
`[[1]]`, `epsilon = p = dm = 1`, two stencils. Raising the coefficient of stencil `1` from
`2^-30` to `2^-29` raises its indicator from `2^-60` to `2^-58`, but `epsilon + I` rounds to `1`
both times: `gamma_1 = 1` and the normalised weight `gamma_1 / gammaSum = 0.6666666666666666`
are unchanged, not strictly smaller. -/
theorem C14_weight_decreases_counterexample :
    smoothIndScalarD [[Dbl.fin 1]] [Dbl.fin (1 / 2 ^ 30)] = Dbl.fin (1 / 2 ^ 60) ∧
    smoothIndScalarD [[Dbl.fin 1]] [Dbl.fin (1 / 2 ^ 29)] = Dbl.fin (1 / 2 ^ 58) ∧
    Dbl.gt (Dbl.fin (1 / 2 ^ 58)) (Dbl.fin (1 / 2 ^ 60)) = true ∧
    gammaStencilD powDbl ⟨Dbl.fin 1, Dbl.fin 1, Dbl.fin 1⟩ 1
      (smoothIndScalarD [[Dbl.fin 1]] [Dbl.fin (1 / 2 ^ 30)]) = Dbl.fin 1 ∧
    gammaStencilD powDbl ⟨Dbl.fin 1, Dbl.fin 1, Dbl.fin 1⟩ 1
      (smoothIndScalarD [[Dbl.fin 1]] [Dbl.fin (1 / 2 ^ 29)]) = Dbl.fin 1 ∧
    Dbl.div
      (gammaStencilD powDbl ⟨Dbl.fin 1, Dbl.fin 1, Dbl.fin 1⟩ 1
        (smoothIndScalarD [[Dbl.fin 1]] [Dbl.fin (1 / 2 ^ 30)]))
      (stencilLoopD powDbl ⟨Dbl.fin 1, Dbl.fin 1, Dbl.fin 1⟩ [[Dbl.fin 1]]
        [[Dbl.fin 1], [Dbl.fin (1 / 2 ^ 30)]] [Dbl.fin 0]).gammaSum =
      Dbl.fin (6004799503160661 / 9007199254740992) ∧
    Dbl.div
      (gammaStencilD powDbl ⟨Dbl.fin 1, Dbl.fin 1, Dbl.fin 1⟩ 1
        (smoothIndScalarD [[Dbl.fin 1]] [Dbl.fin (1 / 2 ^ 29)]))
      (stencilLoopD powDbl ⟨Dbl.fin 1, Dbl.fin 1, Dbl.fin 1⟩ [[Dbl.fin 1]]
        [[Dbl.fin 1], [Dbl.fin (1 / 2 ^ 29)]] [Dbl.fin 0]).gammaSum =
      Dbl.fin (6004799503160661 / 9007199254740992) := by
  refine ⟨by decide!, by decide!, by decide!, by decide!, by decide!, by decide!, by decide!⟩

/-- C14 (amended), over exact arithmetic: a stencil's influence shrinks as its indicator
grows. For `epsilon > 0`, `dm ≥ 1`, a
`pow` that is positive and strictly increasing in a positive base (as `pow(x, p)` is for
`p > 0`), `S ≥ 2` stencils and non-negative indicators: if a second stencil list has a larger
indicator at stencil `s` and the same indicators elsewhere, then both the value assigned to
`gamma` at stencil `s` and the normalised weight `gamma_s / gammaSum` of stencil `s` are
strictly smaller for the second list. Scalar path, then generic path for a component `j`. -/
theorem C14_weight_decreases_with_indicator {K : Type} [LinearOrderedField K]
    (pow : K → K → K) (cfg : WENOParams K) (Bc : List (List K)) (s : Nat)
    (hε : 0 < cfg.epsilon) (hdm : 1 ≤ cfg.dm) (hpow : ∀ x, 0 < x → 0 < pow x cfg.p)
    (hmono : ∀ x y, 0 < x → x < y → pow x cfg.p < pow y cfg.p) :
    (∀ (c c' : List (List K)) (cw cw' : List K), 2 ≤ c.length → c'.length = c.length →
      s < c.length →
      (∀ t, t < c.length → 0 ≤ smoothIndScalar Bc (c.getD t [])) →
      (∀ t, t < c.length → t ≠ s →
        smoothIndScalar Bc (c'.getD t []) = smoothIndScalar Bc (c.getD t [])) →
      smoothIndScalar Bc (c.getD s []) < smoothIndScalar Bc (c'.getD s []) →
      gammaStencil pow cfg s (smoothIndScalar Bc (c'.getD s [])) <
        gammaStencil pow cfg s (smoothIndScalar Bc (c.getD s [])) ∧
      gammaStencil pow cfg s (smoothIndScalar Bc (c'.getD s [])) /
          (stencilLoop pow cfg Bc c' cw').gammaSum <
        gammaStencil pow cfg s (smoothIndScalar Bc (c.getD s [])) /
          (stencilLoop pow cfg Bc c cw).gammaSum) ∧
    (∀ (j : Nat) (c c' : List (List (List K))) (g g' : K) (cw cw' : List (List K)),
      2 ≤ c.length → c'.length = c.length → s < c.length →
      (∀ t, t < c.length → 0 ≤ smoothIndComp Bc (c.getD t []) j) →
      (∀ t, t < c.length → t ≠ s →
        smoothIndComp Bc (c'.getD t []) j = smoothIndComp Bc (c.getD t []) j) →
      smoothIndComp Bc (c.getD s []) j < smoothIndComp Bc (c'.getD s []) j →
      gammaStencil pow cfg s (smoothIndComp Bc (c'.getD s []) j) <
        gammaStencil pow cfg s (smoothIndComp Bc (c.getD s []) j) ∧
      gammaStencil pow cfg s (smoothIndComp Bc (c'.getD s []) j) /
          (stencilLoopComp pow cfg Bc c' j g' cw').gammaSum <
        gammaStencil pow cfg s (smoothIndComp Bc (c.getD s []) j) /
          (stencilLoopComp pow cfg Bc c j g cw).gammaSum) := by
  constructor
  · intro c c' cw cw' hS hlen hs hI hsame hlt
    have hg := gammaStencil_lt_of_indicator_lt pow cfg hε hdm hpow hmono s _ _ (hI s hs) hlt
    refine ⟨hg, ?_⟩
    rw [stencilLoop_gammaSum, stencilLoop_gammaSum, hlen]
    apply weight_lt_of_gamma_lt (gammaOf pow cfg Bc c) (gammaOf pow cfg Bc c') c.length s hs hS
    · exact fun t ht => gammaStencil_pos pow cfg hε hdm hpow t _ (hI t ht)
    · exact gammaStencil_pos pow cfg hε hdm hpow s _ (le_trans (hI s hs) (le_of_lt hlt))
    · intro t ht hne
      unfold gammaOf indicator
      rw [hsame t ht hne]
    · exact hg
  · intro j c c' g g' cw cw' hS hlen hs hI hsame hlt
    have hg := gammaStencil_lt_of_indicator_lt pow cfg hε hdm hpow hmono s _ _ (hI s hs) hlt
    refine ⟨hg, ?_⟩
    rw [stencilLoopComp_gammaSum, stencilLoopComp_gammaSum, hlen]
    apply weight_lt_of_gamma_lt (gammaOfComp pow cfg Bc c j) (gammaOfComp pow cfg Bc c' j)
      c.length s hs hS
    · exact fun t ht => gammaStencil_pos pow cfg hε hdm hpow t _ (hI t ht)
    · exact gammaStencil_pos pow cfg hε hdm hpow s _ (le_trans (hI s hs) (le_of_lt hlt))
    · intro t ht hne
      unfold gammaOfComp indicatorComp
      rw [hsame t ht hne]
    · exact hg

/-- Witness of C14: identity oscillation matrix, stencil lists `[[1], [1]]` (indicators `1`,
`1`) and `[[1], [2]]` (indicators `1`, `4`): the indicator of stencil `1` grows. -/
theorem C14_weight_decreases_with_indicator_witness :
    (0 : ℚ) < 1 ∧ (1 : ℚ) ≤ 1 ∧ (∀ x : ℚ, 0 < x → 0 < powNat x 1) ∧
    (∀ x y : ℚ, 0 < x → x < y → powNat x 1 < powNat y 1) ∧
    smoothIndScalar [[1]] (([[1], [1]] : List (List ℚ)).getD 1 []) <
      smoothIndScalar [[1]] (([[1], [2]] : List (List ℚ)).getD 1 []) ∧
    gammaStencil powNat ⟨1, 1, 1⟩ 1 (smoothIndScalar [[1]] (([[1], [2]] : List (List ℚ)).getD 1 []))
        / (stencilLoop powNat ⟨1, 1, 1⟩ [[1]] [[1], [2]] [0]).gammaSum <
      gammaStencil powNat ⟨1, 1, 1⟩ 1
          (smoothIndScalar [[1]] (([[1], [1]] : List (List ℚ)).getD 1 []))
        / (stencilLoop powNat ⟨1, 1, 1⟩ [[1]] [[1], [1]] [0]).gammaSum :=
  have hmono : ∀ x y : ℚ, 0 < x → x < y → powNat x 1 < powNat y 1 := by
    intro x y _ hxy
    rw [powNat_one, powNat_one]
    exact hxy
  have hlt : smoothIndScalar [[1]] (([[1], [1]] : List (List ℚ)).getD 1 []) <
      smoothIndScalar [[1]] (([[1], [2]] : List (List ℚ)).getD 1 []) := by
    norm_num [smoothIndScalar, dot, matVec]
  ⟨by norm_num, le_refl _, fun x hx => powNat_pos x 1 hx, hmono, hlt,
    ((C14_weight_decreases_with_indicator powNat ⟨1, 1, 1⟩ [[1]] 1 (by norm_num) (le_refl _)
      (fun x hx => powNat_pos x 1 hx) hmono).1 [[1], [1]] [[1], [2]] [0] [0] (le_refl _) rfl
      (by decide)
      (by
        intro t ht
        have h2 : t < 2 := ht
        interval_cases t <;> norm_num [smoothIndScalar, dot, matVec])
      (by
        intro t ht hne
        have h2 : t < 2 := ht
        interval_cases t
        · norm_num [smoothIndScalar, dot, matVec]
        · exact absurd rfl hne)
      hlt).2⟩

/-- C15 (the claim as stated fails in the code's double arithmetic): oscillation matrix
`[[1]]`, `epsilon = p = 1`, stencils `[2^30]` and `[0]` with the indicators `2^60` and `0`.
For `dm = 1` and for `dm = 2` the central `gamma_0` is `2^-60` and `2^-59`, `gammaSum` rounds to
`1` both times, and the sectorial stencil's normalised weight `gamma_1 / gammaSum` is `1` both
times: it is not strictly smaller for the larger `dm`. -/
theorem C15_dm_bias_counterexample :
    smoothIndScalarD [[Dbl.fin 1]] [Dbl.fin (2 ^ 30)] = Dbl.fin (2 ^ 60) ∧
    smoothIndScalarD [[Dbl.fin 1]] [Dbl.fin 0] = Dbl.fin 0 ∧
    gammaStencilD powDbl ⟨Dbl.fin 1, Dbl.fin 1, Dbl.fin 1⟩ 0 (Dbl.fin (2 ^ 60)) =
      Dbl.fin (1 / 2 ^ 60) ∧
    gammaStencilD powDbl ⟨Dbl.fin 1, Dbl.fin 1, Dbl.fin 2⟩ 0 (Dbl.fin (2 ^ 60)) =
      Dbl.fin (1 / 2 ^ 59) ∧
    (stencilLoopD powDbl ⟨Dbl.fin 1, Dbl.fin 1, Dbl.fin 1⟩ [[Dbl.fin 1]]
      [[Dbl.fin (2 ^ 30)], [Dbl.fin 0]] [Dbl.fin 0]).gammaSum = Dbl.fin 1 ∧
    (stencilLoopD powDbl ⟨Dbl.fin 1, Dbl.fin 1, Dbl.fin 2⟩ [[Dbl.fin 1]]
      [[Dbl.fin (2 ^ 30)], [Dbl.fin 0]] [Dbl.fin 0]).gammaSum = Dbl.fin 1 ∧
    Dbl.div
      (gammaStencilD powDbl ⟨Dbl.fin 1, Dbl.fin 1, Dbl.fin 1⟩ 1
        (smoothIndScalarD [[Dbl.fin 1]] [Dbl.fin 0]))
      (stencilLoopD powDbl ⟨Dbl.fin 1, Dbl.fin 1, Dbl.fin 1⟩ [[Dbl.fin 1]]
        [[Dbl.fin (2 ^ 30)], [Dbl.fin 0]] [Dbl.fin 0]).gammaSum = Dbl.fin 1 ∧
    Dbl.div
      (gammaStencilD powDbl ⟨Dbl.fin 1, Dbl.fin 1, Dbl.fin 2⟩ 1
        (smoothIndScalarD [[Dbl.fin 1]] [Dbl.fin 0]))
      (stencilLoopD powDbl ⟨Dbl.fin 1, Dbl.fin 1, Dbl.fin 2⟩ [[Dbl.fin 1]]
        [[Dbl.fin (2 ^ 30)], [Dbl.fin 0]] [Dbl.fin 0]).gammaSum = Dbl.fin 1 := by
  refine ⟨by decide!, by decide!, by decide!, by decide!, by decide!, by decide!, by decide!,
    by decide!⟩

/-- C15 (amended), over exact arithmetic: a larger `dm` biases the blend toward the central
stencil. For `epsilon > 0`, a `pow`
positive on positive bases, `S ≥ 2` stencils with non-negative indicators and two
configurations that differ only in `1 ≤ dm < dm'`: the central stencil's normalised weight
`gamma_0 / gammaSum` is strictly larger for `dm'`, and the normalised weight of every
sectorial stencil `s ≥ 1` is strictly smaller for `dm'`. -/
theorem C15_dm_biases_toward_central {K : Type} [LinearOrderedField K] (pow : K → K → K)
    (eps p dm dm' : K) (Bc : List (List K)) (c : List (List K)) (cw cw' : List K)
    (hε : 0 < eps) (hdm : 1 ≤ dm) (hlt : dm < dm') (hpow : ∀ x, 0 < x → 0 < pow x p)
    (hS : 2 ≤ c.length)
    (hI : ∀ t, t < c.length → 0 ≤ smoothIndScalar Bc (c.getD t [])) :
    gammaStencil pow ⟨eps, p, dm⟩ 0 (smoothIndScalar Bc (c.getD 0 [])) /
        (stencilLoop pow ⟨eps, p, dm⟩ Bc c cw).gammaSum <
      gammaStencil pow ⟨eps, p, dm'⟩ 0 (smoothIndScalar Bc (c.getD 0 [])) /
        (stencilLoop pow ⟨eps, p, dm'⟩ Bc c cw').gammaSum ∧
    ∀ s, 1 ≤ s → s < c.length →
      gammaStencil pow ⟨eps, p, dm'⟩ s (smoothIndScalar Bc (c.getD s [])) /
          (stencilLoop pow ⟨eps, p, dm'⟩ Bc c cw').gammaSum <
        gammaStencil pow ⟨eps, p, dm⟩ s (smoothIndScalar Bc (c.getD s [])) /
          (stencilLoop pow ⟨eps, p, dm⟩ Bc c cw).gammaSum := by
  have h0 : 0 < c.length := by omega
  have hpos : ∀ t, t < c.length → 0 < gammaOf pow ⟨eps, p, dm⟩ Bc c t :=
    fun t ht => gammaStencil_pos pow ⟨eps, p, dm⟩ hε hdm hpow t _ (hI t ht)
  have hpos' : ∀ t, t < c.length → 0 < gammaOf pow ⟨eps, p, dm'⟩ Bc c t :=
    fun t ht => gammaStencil_pos pow ⟨eps, p, dm'⟩ hε (by
      show (1 : K) ≤ dm'
      linarith) hpow t _ (hI t ht)
  have hsame : ∀ t, t < c.length → t ≠ 0 →
      gammaOf pow ⟨eps, p, dm⟩ Bc c t = gammaOf pow ⟨eps, p, dm'⟩ Bc c t := by
    intro t _ hne
    simp [gammaOf, gammaStencil, hne]
  have hp : 0 < pow (eps + smoothIndScalar Bc (c.getD 0 [])) p :=
    hpow _ (by linarith [hI 0 h0])
  have hg : gammaOf pow ⟨eps, p, dm⟩ Bc c 0 < gammaOf pow ⟨eps, p, dm'⟩ Bc c 0 := by
    simp only [gammaOf, indicator, gammaStencil, if_true]
    exact div_lt_div_of_pos_right hlt hp
  rw [stencilLoop_gammaSum, stencilLoop_gammaSum]
  constructor
  · exact weight_lt_of_gamma_lt (gammaOf pow ⟨eps, p, dm'⟩ Bc c) (gammaOf pow ⟨eps, p, dm⟩ Bc c)
      c.length 0 h0 hS hpos' (hpos 0 h0) hsame hg
  · intro s hs1 hs
    exact other_weight_lt_of_gamma_lt (gammaOf pow ⟨eps, p, dm⟩ Bc c)
      (gammaOf pow ⟨eps, p, dm'⟩ Bc c) c.length 0 s h0 hs hpos
      (fun t ht hne => (hsame t ht hne).symm) hg (by omega)

/-- Witness of C15: identity oscillation matrix, stencils `[1]` and `[2]`, `epsilon = 1`,
`p = 1`, `dm = 1` against `dm' = 3`. -/
theorem C15_dm_biases_toward_central_witness :
    (0 : ℚ) < 1 ∧ (1 : ℚ) ≤ 1 ∧ (1 : ℚ) < 3 ∧ (∀ x : ℚ, 0 < x → 0 < powNat x 1) ∧
    2 ≤ ([[1], [2]] : List (List ℚ)).length ∧
    gammaStencil powNat ⟨1, 1, 1⟩ 0 (smoothIndScalar [[1]] (([[1], [2]] : List (List ℚ)).getD 0 []))
        / (stencilLoop powNat ⟨1, 1, 1⟩ [[1]] [[1], [2]] [0]).gammaSum <
      gammaStencil powNat ⟨1, 1, 3⟩ 0
          (smoothIndScalar [[1]] (([[1], [2]] : List (List ℚ)).getD 0 []))
        / (stencilLoop powNat ⟨1, 1, 3⟩ [[1]] [[1], [2]] [0]).gammaSum :=
  ⟨by norm_num, le_refl _, by norm_num, fun x hx => powNat_pos x 1 hx, le_refl _,
    (C15_dm_biases_toward_central powNat 1 1 1 3 [[1]] [[1], [2]] [0] [0] (by norm_num)
      (le_refl _) (by norm_num) (fun x hx => powNat_pos x 1 hx) (le_refl _)
      (by
        intro t ht
        have h2 : t < 2 := ht
        interval_cases t <;> norm_num [smoothIndScalar, dot, matVec])).1⟩

/-! ## Agreement of the scalar and the generic path -/

theorem forAll_sum {K : Type} [LinearOrderedField K] (f : Nat → K) (n : Nat) (a : K) :
    forAll n (fun i acc => acc + f i) a = a + ∑ i in Finset.range n, f i := by
  induction n with
  | zero => simp [forAll_zero]
  | succ n ih => rw [forAll_succ, ih, Finset.sum_range_succ, add_assoc]

theorem dot_nil_right {K : Type} [LinearOrderedField K] (a : List K) : dot a [] = 0 := by
  unfold dot
  simp

theorem dot_cons {K : Type} [LinearOrderedField K] (x y : K) (xs ys : List K) :
    dot (x :: xs) (y :: ys) = x * y + dot xs ys := by
  unfold dot
  simp

theorem dot_eq_sum {K : Type} [LinearOrderedField K] (a b : List K) :
    dot a b = ∑ i in Finset.range a.length, a.getD i 0 * b.getD i 0 := by
  induction a generalizing b with
  | nil => simp [dot]
  | cons x xs ih =>
    cases b with
    | nil =>
      rw [dot_nil_right]
      symm
      apply Finset.sum_eq_zero
      intro i _
      simp
    | cons y ys =>
      rw [dot_cons, List.length_cons, Finset.sum_range_succ', ih ys, add_comm]
      rfl

theorem dot_comm {K : Type} [LinearOrderedField K] (a b : List K) : dot a b = dot b a := by
  induction a generalizing b with
  | nil => rw [dot_nil_right]; simp [dot]
  | cons x xs ih =>
    cases b with
    | nil => rw [dot_nil_right]; simp [dot]
    | cons y ys => rw [dot_cons, dot_cons, ih ys, mul_comm]

theorem matVec_getD {K : Type} [LinearOrderedField K] (M : List (List K)) (v : List K)
    (p : Nat) : (matVec M v).getD p 0 = dot (M.getD p []) v := by
  unfold matVec
  by_cases hp : p < M.length
  · rw [List.getD_eq_getElem _ 0 (by simpa using hp), List.getD_eq_getElem M [] hp]
    simp
  · rw [List.getD_eq_default _ 0 (by simpa using hp), List.getD_eq_default M [] (by omega)]
    simp [dot]

/-- The indicator of the scalar path is the double sum `Σ_p Σ_q B(p,q) c[p] c[q]`. -/
theorem smoothIndScalar_eq_sum {K : Type} [LinearOrderedField K] (Bc : List (List K))
    (c : List K) :
    smoothIndScalar Bc c =
      ∑ p in Finset.range c.length,
        c.getD p 0 * ∑ q in Finset.range c.length, matAt Bc p q * c.getD q 0 := by
  unfold smoothIndScalar
  rw [dot_eq_sum]
  apply Finset.sum_congr rfl
  intro p _
  rw [matVec_getD, dot_comm, dot_eq_sum]
  congr 1
  apply Finset.sum_congr rfl
  intro q _
  rw [mul_comm]
  rfl

/-- The indicator of the generic path is the double sum `Σ_p Σ_q B(p,q) c[p][j] c[q][j]`. -/
theorem smoothIndComp_eq_sum {K : Type} [LinearOrderedField K] (Bc : List (List K))
    (c : List (List K)) (j : Nat) :
    smoothIndComp Bc c j =
      ∑ p in Finset.range c.length,
        get2 c p j * ∑ q in Finset.range c.length, matAt Bc p q * get2 c q j := by
  unfold smoothIndComp
  rw [forAll_sum, zero_add]
  apply Finset.sum_congr rfl
  intro p _
  unfold sumBLoop
  rw [forAll_sum, zero_add]

theorem oneComp_length {K : Type} [LinearOrderedField K] (v : List K) :
    (oneComp v).length = v.length := by
  unfold oneComp
  simp

theorem oneComp_rowLen {K : Type} [LinearOrderedField K] (v : List K) (k : Nat) :
    ((oneComp v).getD k []).length = if k < v.length then 1 else 0 := by
  unfold oneComp
  by_cases hk : k < v.length
  · rw [List.getD_eq_getElem _ [] (by simpa using hk), if_pos hk]
    simp
  · rw [List.getD_eq_default _ [] (by simpa using hk), if_neg hk]
    rfl

theorem get2_oneComp {K : Type} [LinearOrderedField K] (v : List K) (k : Nat) :
    get2 (oneComp v) k 0 = v.getD k 0 := by
  unfold get2 oneComp
  by_cases hk : k < v.length
  · rw [List.getD_eq_getElem _ [] (by simpa using hk), List.getD_eq_getElem v 0 hk]
    simp
  · rw [List.getD_eq_default _ [] (by simpa using hk), List.getD_eq_default v 0 (by omega)]
    rfl

theorem getD_map_oneComp {K : Type} [LinearOrderedField K] (c : List (List K)) (s : Nat) :
    (c.map oneComp).getD s [] = oneComp (c.getD s []) := by
  by_cases hs : s < c.length
  · rw [List.getD_eq_getElem _ [] (by simpa using hs), List.getD_eq_getElem c [] hs]
    simp
  · rw [List.getD_eq_default _ [] (by simpa using hs), List.getD_eq_default c [] (by omega)]
    rfl

theorem smoothInd_paths_agree {K : Type} [LinearOrderedField K] (Bc : List (List K))
    (c : List K) : smoothIndComp Bc (oneComp c) 0 = smoothIndScalar Bc c := by
  rw [smoothIndScalar_eq_sum, smoothIndComp_eq_sum, oneComp_length]
  apply Finset.sum_congr rfl
  intro p _
  rw [get2_oneComp]
  congr 1
  apply Finset.sum_congr rfl
  intro q _
  rw [get2_oneComp]

theorem gamma_paths_agree {K : Type} [LinearOrderedField K] (pow : K → K → K)
    (cfg : WENOParams K) (Bc : List (List K)) (coeffsI : List (List K)) (s : Nat) :
    gammaOfComp pow cfg Bc (coeffsI.map oneComp) 0 s = gammaOf pow cfg Bc coeffsI s := by
  unfold gammaOfComp gammaOf indicatorComp indicator
  rw [getD_map_oneComp, smoothInd_paths_agree]

/-- C19: the scalar fast path and the generic path agree on the blend. For every
oscillation matrix and coefficient vector the scalar indicator `trans(c) * (B * c)` equals the
explicit double sum `Σ_p Σ_q B(p,q) c[p] c[q]`, which is the indicator that the generic path
computes on the one-component field carrying the same values; and for every cell, stencil
list, configuration and initial output buffer the generic `calcWeight` applied to the
one-component data leaves exactly the hybrid coefficients that the scalar specialisation
leaves. -/
theorem C19_scalar_and_generic_paths_agree {K : Type} [LinearOrderedField K]
    (pow : K → K → K) (cfg : WENOParams K) (B : List (List (List K))) (cellI : Nat) :
    (∀ (Bc : List (List K)) (c : List K),
      smoothIndScalar Bc c =
        ∑ p in Finset.range c.length,
          c.getD p 0 * ∑ q in Finset.range c.length, matAt Bc p q * c.getD q 0) ∧
    (∀ (Bc : List (List K)) (c : List K),
      smoothIndComp Bc (oneComp c) 0 = smoothIndScalar Bc c) ∧
    (∀ (cw : List K) (coeffsI : List (List K)) (sens : List K) (sensN : List (List K)),
      (calcWeight pow cfg B 1 (oneComp cw) cellI (coeffsI.map oneComp) sensN).1 =
        oneComp (calcWeightScalar pow cfg B cw cellI coeffsI sens).1) := by
  refine ⟨smoothIndScalar_eq_sum, smoothInd_paths_agree, ?_⟩
  intro cw coeffsI sens sensN
  apply ext2
  · rw [calcWeight_length, oneComp_length, oneComp_length, calcWeightScalar_length]
  · intro k
    rw [calcWeight_rowLen, oneComp_rowLen, oneComp_rowLen, calcWeightScalar_length]
  · intro k j
    rw [calcWeight_get2, oneComp_rowLen]
    by_cases hj : j = 0
    · subst hj
      rw [get2_oneComp, get2_oneComp, calcWeightScalar_getD, stencilLoop_gammaSum,
        List.length_map]
      have h1 : ∑ s in Finset.range coeffsI.length,
          get2 ((coeffsI.map oneComp).getD s []) k 0 *
            gammaOfComp pow cfg (B.getD cellI []) (coeffsI.map oneComp) 0 s =
          ∑ s in Finset.range coeffsI.length,
            (coeffsI.getD s []).getD k 0 * gammaOf pow cfg (B.getD cellI []) coeffsI s :=
        Finset.sum_congr rfl (fun s _ => by
          rw [getD_map_oneComp, get2_oneComp, gamma_paths_agree])
      have h2 : ∑ s in Finset.range coeffsI.length,
          gammaOfComp pow cfg (B.getD cellI []) (coeffsI.map oneComp) 0 s =
          ∑ s in Finset.range coeffsI.length, gammaOf pow cfg (B.getD cellI []) coeffsI s :=
        Finset.sum_congr rfl (fun s _ => gamma_paths_agree pow cfg _ coeffsI s)
      rw [h1, h2]
      by_cases hk : k < cw.length
      · rw [if_pos hk, if_pos ⟨Nat.one_pos, Nat.one_pos⟩, if_pos hk]
      · rw [if_neg hk, if_neg (fun h => absurd h.2 (lt_irrefl 0)), if_neg hk,
          List.getD_eq_default cw 0 (by omega)]
        simp
    · have hlen : ∀ v : List K, ¬ j < ((oneComp v).getD k []).length := by
        intro v
        rw [oneComp_rowLen]
        split <;> omega
      rw [if_neg, get2_eq_zero _ k j (hlen cw), get2_eq_zero _ k j (hlen _)]
      intro h
      have h2 := h.2
      split at h2 <;> omega

/-! ## Field registry and accessor -/

theorem writeField_cons {F : Type} (k : String) (v : F) (es : Registry F) (name : String)
    (f : F) :
    writeField ((k, v) :: es) name f =
      (if k = name then (k, f) else (k, v)) :: writeField es name f := rfl

theorem lookup_writeField {F : Type} (reg : Registry F) (name : String) (f : F) :
    (writeField reg name f).lookup name = (reg.lookup name).map (fun _ => f) := by
  induction reg with
  | nil => rfl
  | cons e es ih =>
    obtain ⟨k, v⟩ := e
    rw [writeField_cons]
    by_cases hk : k = name
    · rw [if_pos hk, hk]
      simp only [List.lookup, beq_self_eq_true, Option.map_some']
    · have hb : (name == k) = false := by
        rw [beq_eq_false_iff_ne]
        exact fun h => hk h.symm
      rw [if_neg hk]
      simp only [List.lookup, hb]
      exact ih

theorem lookup_storeOrRetrieve {F : Type} (reg : Registry F) (name : String) (fresh : F) :
    (storeOrRetrieve reg name fresh).2.lookup name = some (storeOrRetrieve reg name fresh).1 := by
  unfold storeOrRetrieve
  cases h : reg.lookup name with
  | none => simp [List.lookup]
  | some f => simpa using h

theorem storeOrRetrieve_of_lookup {F : Type} (reg : Registry F) (name : String) (fresh f : F)
    (h : reg.lookup name = some f) : storeOrRetrieve reg name fresh = (f, reg) := by
  unfold storeOrRetrieve
  rw [h]

/-- C13 (the claim as stated fails): on the empty registry, in which no `calcWeight` call has
created `"WENOShockSensor"`, `getShockSensor` does not fail: it returns the freshly created
field and the registry now holds the field. -/
theorem C13_getShockSensor_counterexample :
    registryGet ([] : Registry (List (List ℚ))) "WENOShockSensor" = none ∧
    getShockSensor ([] : Registry (List (List ℚ))) [[0], [0]] =
      ([[0], [0]], [("WENOShockSensor", [[0], [0]])]) ∧
    registryGet (getShockSensor ([] : Registry (List (List ℚ))) [[0], [0]]).2
      "WENOShockSensor" = some [[0], [0]] := by
  refine ⟨rfl, rfl, ?_⟩
  simp [registryGet, getShockSensor, storeOrRetrieve, List.lookup]

/-- C13 (amended): `getShockSensor` is the same get-or-create access as the one `calcWeight`
uses and never fails. On a registry in which `"WENOShockSensor"` is absent it creates the
field, caches it and returns it; after a `calcWeight` call it returns the cached field that
`calcWeight` last wrote and leaves the registry as it is, whatever field a creation would
yield. -/
theorem C13_getShockSensor {K : Type} [LinearOrderedField K] (pow : K → K → K)
    (cfg : WENOParams K) (B : List (List (List K))) (nComp cellI : Nat)
    (reg : Registry (List (List K))) (fresh fresh' : List (List K)) (cw : List (List K))
    (coeffsI : List (List (List K))) :
    (registryGet reg "WENOShockSensor" = none →
      getShockSensor reg fresh = (fresh, ("WENOShockSensor", fresh) :: reg) ∧
      registryGet (getShockSensor reg fresh).2 "WENOShockSensor" = some fresh) ∧
    getShockSensor (calcWeightReg pow cfg B nComp reg fresh cw cellI coeffsI).2 fresh' =
      ((calcWeight pow cfg B nComp cw cellI coeffsI
          (storeOrRetrieve reg "WENOShockSensor" fresh).1).2,
        (calcWeightReg pow cfg B nComp reg fresh cw cellI coeffsI).2) ∧
    (∀ (regS : Registry (List K)) (freshS freshS' cwS : List K) (coeffsS : List (List K)),
      getShockSensor (calcWeightScalarReg pow cfg B regS freshS cwS cellI coeffsS).2 freshS' =
        ((calcWeightScalar pow cfg B cwS cellI coeffsS
            (storeOrRetrieve regS "WENOShockSensor" freshS).1).2,
          (calcWeightScalarReg pow cfg B regS freshS cwS cellI coeffsS).2)) := by
  refine ⟨?_, ?_, ?_⟩
  · intro h
    have h1 : getShockSensor reg fresh = (fresh, ("WENOShockSensor", fresh) :: reg) := by
      unfold getShockSensor storeOrRetrieve
      unfold registryGet at h
      rw [h]
    refine ⟨h1, ?_⟩
    rw [h1]
    simp [registryGet, List.lookup]
  · unfold getShockSensor
    apply storeOrRetrieve_of_lookup
    show (writeField _ _ _).lookup _ = _
    rw [lookup_writeField, lookup_storeOrRetrieve]
    rfl
  · intro regS freshS freshS' cwS coeffsS
    unfold getShockSensor
    apply storeOrRetrieve_of_lookup
    show (writeField _ _ _).lookup _ = _
    rw [lookup_writeField, lookup_storeOrRetrieve]
    rfl

/-- Witness of C13 (amended): the empty registry. -/
theorem C13_getShockSensor_witness :
    registryGet ([] : Registry (List (List ℚ))) "WENOShockSensor" = none ∧
    registryGet (getShockSensor ([] : Registry (List (List ℚ))) [[0]]).2 "WENOShockSensor" =
      some [[0]] :=
  ⟨rfl,
    ((C13_getShockSensor powNat ⟨1, 1, 1⟩ [[[1]]] 1 0 [] [[0]] [[0]] [[0]] [[[1]]]).1 rfl).2⟩

/-! ## Absence of validation -/

theorem scalar_sensor_attained {K : Type} [LinearOrderedField K] (pow : K → K → K)
    (cfg : WENOParams K) (B : List (List (List K))) (cw : List K) (cellI : Nat)
    (coeffsI : List (List K)) (sens : List K) (hne : coeffsI ≠ [])
    (hcell : cellI < sens.length) :
    ∃ s, s < coeffsI.length ∧
      (calcWeightScalar pow cfg B cw cellI coeffsI sens).2.getD cellI 0 =
        indicator (B.getD cellI []) coeffsI s := by
  have hlen := stencilLoop_sil_length pow cfg (B.getD cellI []) coeffsI cw
  have hval : (calcWeightScalar pow cfg B cw cellI coeffsI sens).2.getD cellI 0 =
      foamMax (stencilLoop pow cfg (B.getD cellI []) coeffsI cw).smoothIndList := by
    show (List.set _ _ _).getD cellI 0 = _
    rw [getD_set_eq, if_pos ⟨rfl, hcell⟩]
  have hpos : 0 < coeffsI.length := List.length_pos.2 hne
  have hmem := foamMax_mem (stencilLoop pow cfg (B.getD cellI []) coeffsI cw).smoothIndList
    (by
      intro h0
      rw [h0] at hlen
      simp at hlen
      omega)
  obtain ⟨s, hs, e⟩ := (mem_iff_getD _ _).1 hmem
  rw [hlen] at hs
  exact ⟨s, hs, by
    rw [hval, ← e, stencilLoop_sil_getD pow cfg (B.getD cellI []) coeffsI cw s hs]⟩

/-- C11 (the claim as stated fails): the constructor body passes the configuration
`epsilon = 0` through unchanged, and for a cell whose two stencils have indicator `0` the
scalar `calcWeight` does not report an error: it runs the blend, in which every `gamma` has the
denominator `pow(0 + 0, 2) = 0`, and records the shock-sensor value `0` over the previous
value `7`. -/
theorem C11_nonpositive_epsilon_counterexample :
    (mkWENOSensor (⟨0, 2, 1000⟩ : WENOParams ℚ) none).params.epsilon = 0 ∧
    smoothIndScalar [[1]] [0] = (0 : ℚ) ∧
    powNat ((mkWENOSensor (⟨0, 2, 1000⟩ : WENOParams ℚ) none).params.epsilon +
      smoothIndScalar [[1]] [0]) 2 = 0 ∧
    (calcWeightScalar powNat (mkWENOSensor (⟨0, 2, 1000⟩ : WENOParams ℚ) none).params [[[1]]]
      [0] 0 [[0], [0]] [7]).2 = [0] := by
  refine ⟨rfl, ?_, ?_, ?_⟩
  · norm_num [smoothIndScalar, dot, matVec]
  · norm_num [mkWENOSensor, smoothIndScalar, dot, matVec, powNat_two]
  · simp [calcWeightScalar, mkWENOSensor, forAll, stencilLoop, stencilBody, List.range,
      List.range.loop, smoothIndScalar, dot, matVec, blendLoop, gammaStencil, foamMax]

/-- C11 (amended): neither the constructor body nor `calcWeight` validates `epsilon`. The
constructor keeps whatever configuration the base class delivers and only reads `theta`
(default `1`). For `epsilon = 0`, a cell inside the sensor field with at least one stencil,
all indicators `0` and `pow(0, p) = 0`, the scalar `calcWeight` runs to completion: the
denominator `pow(epsilon + I_s, p)` of every `gamma` is `0`, and the shock-sensor value
recorded for the cell is `0`. -/
theorem C11_epsilon_not_validated {K : Type} [LinearOrderedField K] (pow : K → K → K)
    (base : WENOParams K) (WENODictTheta : Option K) (B : List (List (List K)))
    (cw : List K) (cellI : Nat) (coeffsI : List (List K)) (sens : List K)
    (hε : base.epsilon = 0) (hp : pow 0 base.p = 0) (hne : coeffsI ≠ [])
    (hcell : cellI < sens.length)
    (hI : ∀ s, s < coeffsI.length → smoothIndScalar (B.getD cellI []) (coeffsI.getD s []) = 0) :
    (mkWENOSensor base WENODictTheta).params = base ∧
    (mkWENOSensor base WENODictTheta).theta = WENODictTheta.getD 1 ∧
    (∀ s, s < coeffsI.length →
      pow ((mkWENOSensor base WENODictTheta).params.epsilon +
        smoothIndScalar (B.getD cellI []) (coeffsI.getD s []))
        (mkWENOSensor base WENODictTheta).params.p = 0) ∧
    (calcWeightScalar pow (mkWENOSensor base WENODictTheta).params B cw cellI coeffsI
      sens).2.getD cellI 0 = 0 := by
  refine ⟨rfl, rfl, ?_, ?_⟩
  · intro s hs
    show pow (base.epsilon + _) base.p = 0
    rw [hε, hI s hs, add_zero, hp]
  · obtain ⟨s, hs, e⟩ := scalar_sensor_attained pow (mkWENOSensor base WENODictTheta).params B
      cw cellI coeffsI sens hne hcell
    rw [e]
    exact hI s hs

/-- Witness of C11 (amended): the input of the counterexample. -/
theorem C11_epsilon_not_validated_witness :
    (⟨0, 2, 1000⟩ : WENOParams ℚ).epsilon = 0 ∧ powNat 0 (⟨0, 2, 1000⟩ : WENOParams ℚ).p = 0 ∧
    (calcWeightScalar powNat (mkWENOSensor (⟨0, 2, 1000⟩ : WENOParams ℚ) none).params [[[1]]]
      [0] 0 [[0], [0]] [7]).2.getD 0 0 = 0 :=
  have hp : powNat 0 (⟨0, 2, 1000⟩ : WENOParams ℚ).p = 0 := by
    show powNat 0 2 = 0
    rw [powNat_two]
    norm_num
  ⟨rfl, hp,
    (C11_epsilon_not_validated powNat ⟨0, 2, 1000⟩ none [[[1]]] [0] 0 [[0], [0]] [7] rfl hp
      (by simp) (by simp)
      (by
        intro s hs
        have h2 : s < 2 := hs
        interval_cases s <;> norm_num [smoothIndScalar, dot, matVec])).2.2.2⟩

/-- C12 (the claim as stated fails): (i) with an empty stencil list the scalar `calcWeight`
reports no error and overwrites the sensor slot `7` of the cell with the maximum of an empty
list; (ii) with a `2 × 2` oscillation matrix and a stencil whose coefficient vector has length
`1` the generic `calcWeight` reports no error, leaves `[[1]]` in the output buffer that held
`[[0]]` and `[[1]]` in the sensor field that held `[[7]]`. -/
theorem C12_shape_violation_counterexample :
    (calcWeightScalar powNat ⟨1, 1, 1⟩ [[[1]]] [5] 0 [] [7]).2 = [pTraitsMin] ∧
    (calcWeightScalar powNat ⟨1, 1, 1⟩ [[[1]]] [5] 0 [] [7]).2 ≠ [7] ∧
    ([[1]] : List (List ℚ)).length ≠ ([[1, 0], [0, 1]] : List (List ℚ)).length ∧
    calcWeight powNat ⟨1, 1, 1⟩ [[[1, 0], [0, 1]]] 1 [[0]] 0 [[[1]]] [[7]] = ([[1]], [[1]]) ∧
    (calcWeight powNat ⟨1, 1, 1⟩ [[[1, 0], [0, 1]]] 1 [[0]] 0 [[[1]]] [[7]]).1 ≠ [[0]] ∧
    (calcWeight powNat ⟨1, 1, 1⟩ [[[1, 0], [0, 1]]] 1 [[0]] 0 [[[1]]] [[7]]).2 ≠ [[7]] := by
  have h1 : (calcWeightScalar powNat ⟨1, 1, 1⟩ [[[1]]] [5] 0 [] [7]).2 = [pTraitsMin] := by
    simp [calcWeightScalar, forAll, stencilLoop, foamMax]
  have h2 : calcWeight powNat ⟨1, 1, 1⟩ [[[1, 0], [0, 1]]] 1 [[0]] 0 [[[1]]] [[7]] =
      ([[1]], [[1]]) := by
    simp [calcWeight, forAll, compBody, stencilLoopComp, stencilBodyComp, get2, set2, foamMax,
      List.range, List.range.loop, smoothIndComp, sumBLoop, blendLoopComp, gammaStencil, matAt,
      powNat_one]
  refine ⟨h1, ?_, by decide, h2, ?_, ?_⟩
  · rw [h1]
    norm_num [pTraitsMin]
  · rw [h2]
    decide
  · rw [h2]
    decide

/-- C12 (amended): `calcWeight` checks no shape and has no error result; the shape invariants
are preconditions left to the caller. With an empty stencil list the scalar path keeps the
length of the buffer and stores the maximum of the empty indicator list,
`pTraits<scalar>::min`, in the sensor slot of the cell, and so does the generic path for every
component `j < nComp` of the slot; in the generic path, with coefficient vectors no longer than
the dimension of the square oscillation matrix (shorter ones included), the call returns the
output buffer and the sensor field with their shapes unchanged. -/
theorem C12_no_shape_check {K : Type} [LinearOrderedField K] (pow : K → K → K)
    (cfg : WENOParams K) (B : List (List (List K))) (cellI : Nat) :
    (∀ (cw sens : List K),
      (calcWeightScalar pow cfg B cw cellI [] sens).2 = sens.set cellI pTraitsMin ∧
      (calcWeightScalar pow cfg B cw cellI [] sens).1.length = cw.length) ∧
    (∀ (nComp j : Nat) (cw sens : List (List K)), j < nComp →
      j < (sens.getD cellI []).length →
      get2 (calcWeight pow cfg B nComp cw cellI [] sens).2 cellI j = pTraitsMin) ∧
    (∀ (nComp : Nat) (cw sens : List (List K)) (coeffsI : List (List (List K))),
      (∀ row ∈ B.getD cellI [], row.length = (B.getD cellI []).length) →
      (∀ c ∈ coeffsI, c.length ≤ (B.getD cellI []).length) →
      (calcWeight pow cfg B nComp cw cellI coeffsI sens).1.length = cw.length ∧
      (∀ k, ((calcWeight pow cfg B nComp cw cellI coeffsI sens).1.getD k []).length =
        (cw.getD k []).length) ∧
      (calcWeight pow cfg B nComp cw cellI coeffsI sens).2.length = sens.length ∧
      (∀ i, ((calcWeight pow cfg B nComp cw cellI coeffsI sens).2.getD i []).length =
        (sens.getD i []).length)) := by
  refine ⟨?_, ?_, ?_⟩
  · intro cw sens
    refine ⟨?_, calcWeightScalar_length pow cfg B cw cellI [] sens⟩
    rw [calcWeightScalar_sens]
    rfl
  · intro nComp j cw sens hj hrow
    rw [calcWeight_sens_get2, if_pos ⟨rfl, hj, hrow⟩]
    rfl
  · intro nComp cw sens coeffsI _ _
    exact ⟨calcWeight_length pow cfg B nComp cw cellI coeffsI sens,
      fun k => calcWeight_rowLen pow cfg B nComp cw cellI coeffsI sens k,
      calcWeight_sens_length pow cfg B nComp cw cellI coeffsI sens,
      fun i => calcWeight_sens_rowLen pow cfg B nComp cw cellI coeffsI sens i⟩

/-- Witness of C12 (amended): one component; the empty stencil list on the sensor field
`[[7]]`, and a `2 × 2` oscillation matrix with a stencil whose coefficient vector has length
`1`. -/
theorem C12_no_shape_check_witness :
    (0 : Nat) < 1 ∧ 0 < ((([[7]] : List (List ℚ))).getD 0 []).length ∧
    get2 (calcWeight powNat ⟨1, 1, 1⟩ [[[1]]] 1 [[0]] 0 [] [[7]]).2 0 0 = pTraitsMin ∧
    (∀ row ∈ ([[[1, 0], [0, 1]]] : List (List (List ℚ))).getD 0 [],
      row.length = (([[[1, 0], [0, 1]]] : List (List (List ℚ))).getD 0 []).length) ∧
    (∀ c ∈ ([[[1]]] : List (List (List ℚ))),
      c.length ≤ (([[[1, 0], [0, 1]]] : List (List (List ℚ))).getD 0 []).length) ∧
    (calcWeight powNat ⟨1, 1, 1⟩ [[[1, 0], [0, 1]]] 1 [[0]] 0 [[[1]]] [[7]]).1.length =
      ([[0]] : List (List ℚ)).length :=
  have hsq : ∀ row ∈ ([[[1, 0], [0, 1]]] : List (List (List ℚ))).getD 0 [],
      row.length = (([[[1, 0], [0, 1]]] : List (List (List ℚ))).getD 0 []).length := by
    simp
  have hle : ∀ c ∈ ([[[1]]] : List (List (List ℚ))),
      c.length ≤ (([[[1, 0], [0, 1]]] : List (List (List ℚ))).getD 0 []).length := by
    simp
  ⟨by decide, by simp,
    (C12_no_shape_check powNat ⟨1, 1, 1⟩ [[[1]]] 0).2.1 1 0 [[0]] [[7]] (by decide)
      (by simp),
    hsq, hle,
    ((C12_no_shape_check powNat ⟨1, 1, 1⟩ [[[1, 0], [0, 1]]] 0).2.2 1 [[0]] [[7]] [[[1]]]
      hsq hle).1⟩

end WENOSensor
